import Mathlib

/-!
# 3dviewer: a verification development of the software rasterizer in `src/main.go`

The Go program works on `int` (64-bit) pixel coordinates and on `float32`
depths and barycentric parameters.  Integers are embedded as `Int` (every
integer operation that is reached is guarded into a range where no wrap-around
can happen; the one conversion that truncates, `int32(v)` in `colour_framebuffer`,
is embedded as `int32`).  `float32` is embedded as `F32`, an executable model of IEEE 754
binary32 with round-to-nearest-even, signed zeros, infinities and NaN, so that
the rounding of every operation in the source is part of the model.

Fixed-size Go arrays `[HEIGHT][WIDTH]T` are embedded as `Grid T`; indexing with
an `int` is fallible (`none` stands for Go's index-out-of-range panic).  Strings are
lists of characters.  The library functions that the program calls and that are not
part of the repository are parameters of the functions that call them:
`strconv.ParseFloat` and `strconv.Atoi` are arguments of the loader, and `math.Cos`,
`math.Sin` and the `float64` operations on the angle are fields of the arithmetic in which
`rotate_point` is written.
-/

namespace Viewer

/-! ## binary32 -/

/-- A binary32 value. `fin neg k` denotes `(-1)^neg * k * 2^(-149)`: every finite
binary32 number is an integer multiple of the smallest subnormal `2^(-149)`.
`inf neg` is the infinity of that sign and `nan` is any NaN.  The operations below
produce representable values only; the type itself also holds magnitudes that are not
representable, so a statement about every `F32` covers every binary32 value. -/
inductive F32 where
  | nan : F32
  | inf (neg : Bool) : F32
  | fin (neg : Bool) (k : Nat) : F32
  deriving DecidableEq, Repr

namespace F32

/-- Round the non-negative rational `a / b` to the nearest integer, ties to even. -/
def rne (a b : Nat) : Nat :=
  if 2 * (a % b) < b then a / b
  else if b < 2 * (a % b) then a / b + 1
  else if (a / b) % 2 = 0 then a / b else a / b + 1

/-- Search for the exponent of the rounding quantum of `num / den` (in units of
`2^(-149)`): the least `s` with `num / den < 2^(s + 24)`, looked for from `s` upwards. -/
def quantumExp (num den : Nat) : Nat → Nat → Nat
  | 0, s => s
  | fuel + 1, s => if num < den * 2 ^ (s + 24) then s else quantumExp num den fuel (s + 1)

/-- Magnitude (in units of `2^(-149)`) of `num / den` rounded to 24 significant bits. -/
def roundNat (num den : Nat) : Nat :=
  rne num (den * 2 ^ quantumExp num den 254 0) * 2 ^ quantumExp num den 254 0

/-- Round the rational `(-1)^neg * (num / den) * 2^(-149)` to binary32
(round to nearest, ties to even; overflow gives an infinity). -/
def round (neg : Bool) (num den : Nat) : F32 :=
  if roundNat num den < 2 ^ 149 * 2 ^ 128 then fin neg (roundNat num den) else inf neg

/-- Conversion `float32(n)` of an integer. -/
def ofInt (n : Int) : F32 := round (decide (n < 0)) (n.natAbs * 2 ^ 149) 1

/-- A dyadic constant `n / 2^d`. -/
def ofDyadic (n : Int) (d : Nat) : F32 := round (decide (n < 0)) (n.natAbs * 2 ^ 149) (2 ^ d)

/-- Sign flip. -/
def neg : F32 → F32
  | nan => nan
  | inf s => inf (!s)
  | fin s k => fin (!s) k

/-- The signed count of units of a finite value. -/
def units (s : Bool) (k : Nat) : Int := if s then -(k : Int) else (k : Int)

/-- Addition `x + y`. -/
def add : F32 → F32 → F32
  | nan, _ => nan
  | _, nan => nan
  | inf s, inf t => if s = t then inf s else nan
  | inf s, fin _ _ => inf s
  | fin _ _, inf t => inf t
  | fin s a, fin t b =>
    if units s a + units t b = 0 then fin (s && t) 0
    else round (decide (units s a + units t b < 0)) (units s a + units t b).natAbs 1

/-- Subtraction `x - y`. -/
def sub (x y : F32) : F32 := add x (neg y)

/-- Multiplication `x * y`. -/
def mul : F32 → F32 → F32
  | nan, _ => nan
  | _, nan => nan
  | inf s, inf t => inf (xor s t)
  | inf s, fin t b => if b = 0 then nan else inf (xor s t)
  | fin s a, inf t => if a = 0 then nan else inf (xor s t)
  | fin s a, fin t b => round (xor s t) (a * b) (2 ^ 149)

/-- Division `x / y`. -/
def div : F32 → F32 → F32
  | nan, _ => nan
  | _, nan => nan
  | inf _, inf _ => nan
  | inf s, fin t _ => inf (xor s t)
  | fin s _, inf t => fin (xor s t) 0
  | fin s a, fin t b =>
    if b = 0 then (if a = 0 then nan else inf (xor s t))
    else round (xor s t) (a * 2 ^ 149) b

/-- Comparison `x < y` (false whenever a NaN is involved; the two zeros are equal). -/
def lt : F32 → F32 → Bool
  | nan, _ => false
  | _, nan => false
  | inf s, inf t => s && !t
  | inf s, fin _ _ => s
  | fin _ _, inf t => !t
  | fin s a, fin t b => decide (units s a < units t b)

/-- Comparison `x <= y`. -/
def le : F32 → F32 → Bool
  | nan, _ => false
  | _, nan => false
  | inf s, inf t => s || !t
  | inf s, fin _ _ => s
  | fin _ _, inf t => !t
  | fin s a, fin t b => decide (units s a ≤ units t b)

/-- Comparison `x > y`. -/
def gt (x y : F32) : Bool := lt y x

/-- Comparison `x >= y`. -/
def ge (x y : F32) : Bool := le y x

/-- Comparison `x == y`. -/
def beq : F32 → F32 → Bool
  | nan, _ => false
  | _, nan => false
  | inf s, inf t => s == t
  | inf _, fin _ _ => false
  | fin _ _, inf _ => false
  | fin s a, fin t b => decide (units s a = units t b)

/-- Conversion `int(x)`: truncation toward zero.  For NaN, infinities and values
outside the 64-bit range the Go specification leaves the result to the
implementation; the value modelled is the one produced on amd64. -/
def toInt : F32 → Int
  | nan => -(2 ^ 63)
  | inf _ => -(2 ^ 63)
  | fin s k =>
    if k / 2 ^ 149 < 2 ^ 63 then units s (k / 2 ^ 149) else -(2 ^ 63)

/-- The constant `math.MaxFloat32`, `(2^24 - 1) * 2^104`. -/
def maxFloat32 : F32 := fin false ((2 ^ 24 - 1) * 2 ^ 253)

end F32

/-! ## Constants, integers and the 2D cross product -/

/-- Number of rows of the image, `const HEIGHT int32 = 600`. -/
abbrev HEIGHT : Nat := 600

/-- Number of columns of the image, `const WIDTH int32 = 800`. -/
abbrev WIDTH : Nat := 800

/-- The larger of two integers. -/
def int_max (x y : Int) : Int := if x > y then x else y

/-- The smaller of two integers. -/
def int_min (x y : Int) : Int := if x < y then x else y

/-- The source's `crossproduct`: `float32(y1)*float32(x2) - float32(x1)*float32(y2)`, each
operation rounded on its own. -/
def crossproduct (x1 y1 x2 y2 : Int) : F32 :=
  F32.sub (F32.mul (F32.ofInt y1) (F32.ofInt x2)) (F32.mul (F32.ofInt x1) (F32.ofInt y2))

/-- The values taken by the loop variable of `for v := lo; v < hi; v++`. -/
def loopRange (lo hi : Int) : List Int :=
  (List.range (hi - lo).toNat).map (fun (i : Nat) => lo + (i : Int))

/-! ## Buffers -/

/-- A colour, `[3]uint8`. -/
abbrev Colour := Fin 256 × Fin 256 × Fin 256

/-- A Go array `[HEIGHT][WIDTH]T`, indexed row first. -/
def Grid (α : Type) : Type := Fin HEIGHT → Fin WIDTH → α

namespace Grid

/-- The index expression `g[y][x]` with `int` indices; `none` is the run-time panic
of an index out of range. -/
def read {α : Type} (g : Grid α) (y x : Int) : Option α :=
  if h : 0 ≤ y ∧ y < (HEIGHT : Int) ∧ 0 ≤ x ∧ x < (WIDTH : Int) then
    some (g ⟨y.toNat, by omega⟩ ⟨x.toNat, by omega⟩)
  else none

/-- The assignment `g[y][x] = v` with `int` indices; `none` is the run-time panic
of an index out of range. -/
def write {α : Type} (g : Grid α) (y x : Int) (v : α) : Option (Grid α) :=
  if 0 ≤ y ∧ y < (HEIGHT : Int) ∧ 0 ≤ x ∧ x < (WIDTH : Int) then
    some (fun i j => if (i.val : Int) = y ∧ (j.val : Int) = x then v else g i j)
  else none

end Grid

/-- A depth sample, the source's `pixel_z`. -/
structure pixel_z where
  x : Int
  y : Int
  z : F32
  deriving DecidableEq, Repr

/-- One iteration of the loop of `colour_framebuffer_z`. -/
def colour_framebuffer_z_step (colour : Colour) (s : Grid Colour × Grid F32) (pixel : pixel_z) :
    Option (Grid Colour × Grid F32) :=
  if pixel.x < 0 then some s
  else if pixel.x ≥ (WIDTH : Int) then some s
  else if pixel.y < 0 then some s
  else if pixel.y ≥ (HEIGHT : Int) then some s
  else
    (s.2.read pixel.y pixel.x).bind fun d =>
      if F32.gt d pixel.z then some s
      else
        (s.1.write pixel.y pixel.x colour).bind fun fb =>
          (s.2.write pixel.y pixel.x pixel.z).bind fun zb => some (fb, zb)

/-- The source's `colour_framebuffer_z`: composite depth samples into the colour and
depth buffers.  The buffers are updated in place in Go; here the updated pair is
returned, and `none` means that the call panicked. -/
def colour_framebuffer_z (framebuffer : Grid Colour) (zbuffer : Grid F32)
    (pixels : List pixel_z) (colour : Colour) : Option (Grid Colour × Grid F32) :=
  pixels.foldlM (colour_framebuffer_z_step colour) (framebuffer, zbuffer)

/-- The body of the inner loop of `clear_buffers` at column `x`, row `y`. -/
def clear_buffers_cell (x : Nat) (s : Grid Colour × Grid F32) (y : Nat) :
    Option (Grid Colour × Grid F32) :=
  (s.1.write y x (0, 0, 0)).bind fun fb =>
    (s.2.write y x (F32.neg F32.maxFloat32)).bind fun zb => some (fb, zb)

/-- The source's `clear_buffers`. -/
def clear_buffers (framebuffer : Grid Colour) (zbuffer : Grid F32) :
    Option (Grid Colour × Grid F32) :=
  (List.range WIDTH).foldlM
    (fun s x => (List.range HEIGHT).foldlM (clear_buffers_cell x) s) (framebuffer, zbuffer)

/-! ## Rasterizer -/

/-- The source's `generate_triangle_barycentric`: bounding box scan with the
barycentric membership test. -/
def generate_triangle_barycentric (x1 y1 x2 y2 x3 y3 : Int) : List (Int × Int) :=
  if x1 > (WIDTH : Int) then []
  else if x2 > (WIDTH : Int) then []
  else if x3 > (WIDTH : Int) then []
  else if x1 < 0 then []
  else if x2 < 0 then []
  else if x3 < 0 then []
  else if y1 < 0 then []
  else if y2 < 0 then []
  else if y3 < 0 then []
  else if y1 > (HEIGHT : Int) then []
  else if y2 > (HEIGHT : Int) then []
  else if y3 > (HEIGHT : Int) then []
  else
    let max_x := int_max x1 (int_max x2 x3)
    let max_y := int_max y1 (int_max y2 y3)
    let min_x := int_min x1 (int_min x2 x3)
    let min_y := int_min y1 (int_min y2 y3)
    let vs1_x := x2 - x1
    let vs1_y := y2 - y1
    let vs2_x := x3 - x1
    let vs2_y := y3 - y1
    (loopRange min_x max_x).flatMap fun x =>
      (loopRange min_y max_y).filterMap fun y =>
        let q_x := x - x1
        let q_y := y - y1
        let s := F32.div (crossproduct q_x q_y vs2_x vs2_y) (crossproduct vs1_x vs1_y vs2_x vs2_y)
        let t := F32.div (crossproduct vs1_x vs1_y q_x q_y) (crossproduct vs1_x vs1_y vs2_x vs2_y)
        if F32.ge s (F32.ofInt 0) && F32.ge t (F32.ofInt 0) && F32.le (F32.add s t) (F32.ofInt 1)
        then some (x, y) else none

/-- A vertex, the source's `point3d`.  The coordinates of the program are `float32`, which
is the type meant when `point3d` is written alone; `point3d S` is a vertex with coordinates
in another number type `S`. -/
structure point3d (S : Type := F32) where
  x : S
  y : S
  z : S
  deriving DecidableEq, Repr

/-- The source's `to_coord_space`: normalized screen coordinates to pixel coordinates. -/
def to_coord_space (x y : F32) : Int × Int :=
  let new_x := F32.add (F32.div (F32.mul x (F32.ofInt WIDTH)) (F32.ofInt 2))
    (F32.div (F32.ofInt WIDTH) (F32.ofInt 2))
  let new_y := F32.add (F32.div (F32.mul y (F32.ofInt HEIGHT)) (F32.ofInt 2))
    (F32.div (F32.ofInt HEIGHT) (F32.ofInt 2))
  (F32.toInt new_x, F32.toInt new_y)

/-- The source's `from_coord_space`. -/
def from_coord_space (x y : Int) : F32 × F32 :=
  let new_x := F32.sub (F32.div (F32.div (F32.ofInt x) (F32.ofInt WIDTH)) (F32.ofInt 2))
    (F32.div (F32.ofInt WIDTH) (F32.ofInt 2))
  let new_y := F32.sub (F32.div (F32.div (F32.ofInt y) (F32.ofInt HEIGHT)) (F32.ofInt 2))
    (F32.div (F32.ofInt HEIGHT) (F32.ofInt 2))
  (new_x, new_y)

/-- The edge vector `b - a`, componentwise. -/
def edge (a b : point3d) : point3d :=
  { x := F32.sub b.x a.x, y := F32.sub b.y a.y, z := F32.sub b.z a.z }

/-- The `normal` computed at the start of `generate_triangle` from the two edge
vectors `p1_p2` and `p1_p3`. -/
def normal (p1_p2 p1_p3 : point3d) : point3d :=
  { x := F32.sub (F32.mul p1_p2.y p1_p3.z) (F32.mul p1_p2.z p1_p3.y),
    y := F32.sub (F32.mul p1_p2.z p1_p3.x) (F32.mul p1_p2.x p1_p3.z),
    z := F32.sub (F32.mul p1_p2.x p1_p3.y) (F32.mul p1_p3.y p1_p3.x) }

/-- The closure `get_z_from_pixel` of `generate_triangle`. -/
def get_z_from_pixel (nrm p1_p2 : point3d) (x y : Int) : pixel_z :=
  let points := from_coord_space x y
  { x := x, y := y,
    z := F32.add
      (F32.div
        (F32.add (F32.mul nrm.x (F32.sub points.1 p1_p2.x))
          (F32.mul nrm.y (F32.sub points.2 p1_p2.y)))
        nrm.z)
      p1_p2.z }

/-- The source's `generate_triangle`.  Every floating-point operation is rounded on
its own (no fused multiply-add), as the amd64 compiler does. -/
def generate_triangle (p1 p2 p3 : point3d) : List pixel_z :=
  let p1_p2 := edge p1 p2
  let p1_p3 := edge p1 p3
  let nrm := normal p1_p2 p1_p3
  let coord_p1 := to_coord_space p1.x p1.y
  let coord_p2 := to_coord_space p2.x p2.y
  let coord_p3 := to_coord_space p3.x p3.y
  (generate_triangle_barycentric coord_p1.1 coord_p1.2 coord_p2.1 coord_p2.2
      coord_p3.1 coord_p3.2).map
    fun point => get_z_from_pixel nrm p1_p2 point.1 point.2

/-! ## Projection -/

/-- The source's `to_screen_space`. -/
def to_screen_space (p camera : point3d) : point3d :=
  if F32.beq (F32.add p.z camera.z) (F32.ofInt 0) then { x := p.x, y := p.y, z := p.z }
  else
    { x := F32.div (F32.add p.x camera.x) camera.z,
      y := F32.div (F32.mul (F32.ofInt (-1)) (F32.add p.y camera.y)) camera.z,
      z := p.z }

/-! ## Unconditional write -/

/-- The conversion `int32(v)` of a 64-bit `int`: the low 32 bits, read as a signed number. -/
def int32 (v : Int) : Int := (v + 2 ^ 31) % 2 ^ 32 - 2 ^ 31

/-- One iteration of the loop of `colour_framebuffer`; a pixel is `(polygon[i][0], polygon[i][1])`. -/
def colour_framebuffer_step (colour : Colour) (framebuffer : Grid Colour) (pixel : Int × Int) :
    Option (Grid Colour) :=
  if pixel.2 < 0 ∨ int32 pixel.2 ≥ (HEIGHT : Int) then some framebuffer
  else if pixel.1 < 0 ∨ int32 pixel.1 ≥ (WIDTH : Int) then some framebuffer
  else framebuffer.write pixel.2 pixel.1 colour

/-- The source's `colour_framebuffer`: write a colour to every listed pixel, without any
depth test.  `none` means that the call panicked. -/
def colour_framebuffer (framebuffer : Grid Colour) (polygon : List (Int × Int))
    (colour : Colour) : Option (Grid Colour) :=
  polygon.foldlM (colour_framebuffer_step colour) framebuffer

/-! ## Rotation -/

/-- The arithmetic in which `rotate_point` is written.  `D` is the type of the angle
(`float64` in the program) and `S` the type of the coordinates (`float32` in the program).
Every field is one operation of the source:

* `ofNat n` is `float64(curr_time)` and the constants `5000` and `2.0`,
* `pi` is `math.Pi`, and `mul64`, `div64`, `neg64` are `*`, `/` and unary `-` on `D`,
* `cos` and `sin` are `math.Cos` and `math.Sin`,
* `narrow` is the conversion `float32(...)`,
* `mul` and `add` are `*` and `+` on `S`. -/
structure Arithmetic (D S : Type) where
  ofNat : Nat → D
  pi : D
  mul64 : D → D → D
  div64 : D → D → D
  neg64 : D → D
  cos : D → D
  sin : D → D
  narrow : D → S
  mul : S → S → S
  add : S → S → S

/-- The arithmetic of the program: the coordinates are binary32 and are multiplied and
added with rounding after every operation.  The `float64` operations on the angle,
`math.Cos`, `math.Sin` and the conversion `float32(...)` are not part of the repository;
they are the corresponding fields of `A`, about which nothing is assumed. -/
def Arithmetic.binary32 {D S : Type} (A : Arithmetic D S) (narrow : D → F32) :
    Arithmetic D F32 :=
  { ofNat := A.ofNat, pi := A.pi, mul64 := A.mul64, div64 := A.div64, neg64 := A.neg64,
    cos := A.cos, sin := A.sin, narrow := narrow, mul := F32.mul, add := F32.add }

/-- The source's `rotate_point`, operation by operation, in the arithmetic `A`.  The
program runs it in an arithmetic `Arithmetic.binary32`. -/
def rotate_point {D S : Type} (A : Arithmetic D S) (p : point3d S) (curr_time : Nat) :
    point3d S :=
  let time := A.div64 (A.ofNat curr_time) (A.ofNat 5000)
  let angle := A.mul64 (A.mul64 A.pi (A.ofNat 2)) time
  let new_x := A.add (A.mul (A.narrow (A.cos angle)) p.x) (A.mul (A.narrow (A.sin angle)) p.z)
  let new_z := A.add (A.mul (A.narrow (A.neg64 (A.sin angle))) p.x)
    (A.mul (A.narrow (A.cos angle)) p.z)
  { x := new_x, y := p.y, z := new_z }

/-! ## Mesh loader -/

/-- A triangle, the source's `tri`. -/
structure tri where
  p1 : point3d
  p2 : point3d
  p3 : point3d
  deriving DecidableEq, Repr

/-- Go's `strings.Split(s, sep)` for a one-character separator: the pieces of `s` between
the occurrences of `sep` (a text without `sep` is one piece, the empty text too). -/
def splitOn (sep : Char) : List Char → List (List Char)
  | [] => [[]]
  | c :: cs =>
    if c = sep then [] :: splitOn sep cs
    else
      match splitOn sep cs with
      | [] => [[c]]
      | piece :: pieces => (c :: piece) :: pieces

/-- The element `xs[i]` of a slice for an `int` index; `none` is the run-time panic of an
index out of range. -/
def index {α : Type} (xs : List α) (i : Int) : Option α :=
  if i < 0 then none else xs.get? i.toNat

/-- The body of the first loop of `obj_to_triangle` for a line that starts with `v`: the
vertex made of the tokens 1, 2 and 3 of the line. -/
def parse_vertex (ParseFloat : List Char → F32) (line : List Char) : Option point3d :=
  (index (splitOn ' ' line) 1).bind fun t1 =>
    (index (splitOn ' ' line) 2).bind fun t2 =>
      (index (splitOn ' ' line) 3).bind fun t3 =>
        some { x := ParseFloat t1, y := ParseFloat t2, z := ParseFloat t3 }

/-- The first loop of `obj_to_triangle`, `for splitted_obj[index][0] != 'f'`, run on the
lines from `index` on: the vertices collected and the lines left when it stops. -/
def load_vertices (ParseFloat : List Char → F32) :
    List (List Char) → List point3d → Option (List point3d × List (List Char))
  | [], _ => none
  | line :: rest, vertices_array =>
    (index line 0).bind fun c =>
      if c = 'f' then some (vertices_array, line :: rest)
      else if c = 'v' then
        (parse_vertex ParseFloat line).bind fun v =>
          load_vertices ParseFloat rest (vertices_array ++ [v])
      else load_vertices ParseFloat rest vertices_array

/-- The body of the second loop of `obj_to_triangle` for a line that starts with `f`: the
triangle of the three vertices named by the tokens 1, 2 and 3 of the line. -/
def parse_face (Atoi : List Char → Int) (vertices_array : List point3d) (line : List Char) :
    Option tri :=
  (index (splitOn ' ' line) 1).bind fun t1 =>
    (index (splitOn ' ' line) 2).bind fun t2 =>
      (index (splitOn ' ' line) 3).bind fun t3 =>
        (index vertices_array (Atoi t1 - 1)).bind fun p1 =>
          (index vertices_array (Atoi t2 - 1)).bind fun p2 =>
            (index vertices_array (Atoi t3 - 1)).bind fun p3 =>
              some { p1 := p1, p2 := p2, p3 := p3 }

/-- The second loop of `obj_to_triangle`, run on the lines from `index` on. -/
def load_faces (Atoi : List Char → Int) (vertices_array : List point3d) :
    List (List Char) → List tri → Option (List tri)
  | [], triangle_array => some triangle_array
  | line :: rest, triangle_array =>
    (index line 0).bind fun c =>
      if c ≠ 'f' then load_faces Atoi vertices_array rest triangle_array
      else
        (parse_face Atoi vertices_array line).bind fun t =>
          load_faces Atoi vertices_array rest (triangle_array ++ [t])

/-- The source's `obj_to_triangle`.  A Go string is embedded as the list of its characters
(the loader only looks for the ASCII characters `f`, `v`, blank and newline).
`strconv.ParseFloat` and `strconv.Atoi` are not part of the repository: `ParseFloat tok`
stands for the value `float32(x)` of the `x` that `strconv.ParseFloat(tok, 32)` returns
and `Atoi tok` for the value that `strconv.Atoi(tok)` returns, with or without an error
(the source prints on an error and goes on with the value).  `none` means that the call
panicked. -/
def obj_to_triangle (ParseFloat : List Char → F32) (Atoi : List Char → Int)
    (obj : List Char) : Option (List tri) :=
  (load_vertices ParseFloat (splitOn '\n' obj) []).bind fun s =>
    load_faces Atoi s.1 s.2 []

/-! ## Specification-side definitions -/

/-- The exact integer cross product that `crossproduct` computes in binary32. -/
def cpInt (x1 y1 x2 y2 : Int) : Int := y1 * x2 - x1 * y2

/-- The barycentric parameter `s = cp(q, vs2) / cp(vs1, vs2)` of pixel `(x, y)`, as an
exact rational number. -/
def baryS (x1 y1 x2 y2 x3 y3 x y : Int) : ℚ :=
  (cpInt (x - x1) (y - y1) (x3 - x1) (y3 - y1) : ℚ) /
    (cpInt (x2 - x1) (y2 - y1) (x3 - x1) (y3 - y1) : ℚ)

/-- The barycentric parameter `t = cp(vs1, q) / cp(vs1, vs2)` of pixel `(x, y)`, as an
exact rational number. -/
def baryT (x1 y1 x2 y2 x3 y3 x y : Int) : ℚ :=
  (cpInt (x2 - x1) (y2 - y1) (x - x1) (y - y1) : ℚ) /
    (cpInt (x2 - x1) (y2 - y1) (x3 - x1) (y3 - y1) : ℚ)

/-- The binary32 quotient `k` (in units of `2^(-149)`) approximates `a / D` with a
relative error of at most `2^(-24)`. -/
def F32.Approx (a D k : Nat) : Prop :=
  2 ^ 24 * (k * D) ≤ (2 ^ 24 + 1) * (a * 2 ^ 149) ∧ (2 ^ 24 - 1) * (a * 2 ^ 149) ≤ 2 ^ 24 * (k * D)

/-- The sample lies inside `[0, WIDTH) × [0, HEIGHT)`. -/
def pixel_z.inBounds (p : pixel_z) : Prop :=
  0 ≤ p.x ∧ p.x < (WIDTH : Int) ∧ 0 ≤ p.y ∧ p.y < (HEIGHT : Int)

/-- Being inside the image is decidable. -/
instance pixel_z.decidableInBounds (p : pixel_z) : Decidable p.inBounds := by
  unfold pixel_z.inBounds
  infer_instance

/-- The grid `g` with the cell of row `y`, column `x` replaced by `v`. -/
def Grid.set {α : Type} (g : Grid α) (y x : Int) (v : α) : Grid α :=
  fun i j => if (i.val : Int) = y ∧ (j.val : Int) = x then v else g i j

/-- The depths of the samples of `pixels` that fall on the cell of row `i`, column `j`,
in the order in which they are processed. -/
def samplesAt (pixels : List pixel_z) (i : Fin HEIGHT) (j : Fin WIDTH) : List F32 :=
  (pixels.filter fun p => decide (p.y = (i.val : Int) ∧ p.x = (j.val : Int))).map fun p => p.z

/-- A sequence of calls of `colour_framebuffer_z`, each with its sample list and colour. -/
def composite_all (s : Grid Colour × Grid F32) (calls : List (List pixel_z × Colour)) :
    Option (Grid Colour × Grid F32) :=
  calls.foldlM (fun s call => colour_framebuffer_z s.1 s.2 call.1 call.2) s

/-- The depth `d` is a maximum of the list `l`: it occurs in `l` and every element of
`l` is `<=` it. -/
def F32.IsMaxOf (d : F32) (l : List F32) : Prop := d ∈ l ∧ ∀ z ∈ l, F32.le z d = true

/-- The depth stored in a cell that held `d` after the samples `zs` were tested against
it in turn. -/
def depthAfter (d : F32) (zs : List F32) : F32 :=
  zs.foldl (fun d z => if F32.gt d z then d else z) d

/-- The cross product `a × b` of two vectors, each operation rounded to binary32. -/
def cross_product (a b : point3d) : point3d :=
  { x := F32.sub (F32.mul a.y b.z) (F32.mul a.z b.y),
    y := F32.sub (F32.mul a.z b.x) (F32.mul a.x b.z),
    z := F32.sub (F32.mul a.x b.y) (F32.mul a.y b.x) }

/-- The projection formula of the specification, applied without any guard. -/
def projection_formula (p camera : point3d) : point3d :=
  { x := F32.div (F32.add p.x camera.x) camera.z,
    y := F32.div (F32.neg (F32.add p.y camera.y)) camera.z,
    z := p.z }

/-- Arithmetic taken exactly in a field `R`, for the angle and for the coordinates alike:
the operations are those of the field, no conversion rounds, and `cos`, `sin` and `pi`
are the cosine, the sine and the constant π of `R`. -/
def Arithmetic.exact {R : Type} [Field R] (cos sin : R → R) (pi : R) : Arithmetic R R :=
  { ofNat := fun n => (n : R), pi := pi, mul64 := fun a b => a * b,
    div64 := fun a b => a / b, neg64 := fun a => -a, cos := cos, sin := sin,
    narrow := fun a => a, mul := fun a b => a * b, add := fun a b => a + b }

/-- The angle that `rotate_point` passes to `math.Cos` and `math.Sin` at the tick
`curr_time`. -/
def rotation_angle {D S : Type} (A : Arithmetic D S) (curr_time : Nat) : D :=
  A.mul64 (A.mul64 A.pi (A.ofNat 2)) (A.div64 (A.ofNat curr_time) (A.ofNat 5000))

/-- A sample of library values.  The angle is held in a binary32 number, which plays no
part, because `cos` and `sin` return at every angle what `float32(math.Cos(angle))` and
`float32(math.Sin(angle))` are at the tick 5000 in the program: `1` and
`-4626585 * 2^(-74)`, about `-2.449e-16`. -/
def Arithmetic.sample : Arithmetic F32 F32 :=
  { ofNat := fun n => F32.ofInt n, pi := F32.ofDyadic 13176795 22, mul64 := F32.mul,
    div64 := F32.div, neg64 := F32.neg, cos := fun _ => F32.fin false (2 ^ 149),
    sin := fun _ => F32.fin true (4626585 * 2 ^ 75), narrow := fun d => d,
    mul := F32.mul, add := F32.add }

/-- The relation "before, in ascending `x`, then `y`, order" on pixels. -/
def pixel_lt (a b : Int × Int) : Prop := a.1 < b.1 ∨ (a.1 = b.1 ∧ a.2 < b.2)

/-- The value of a string of decimal digits, most significant first; `none` when a
character is not a digit. -/
def decimal_value : List Char → Nat → Option Nat
  | [], acc => some acc
  | c :: cs, acc =>
    if '0' ≤ c ∧ c ≤ '9' then decimal_value cs (10 * acc + (c.toNat - '0'.toNat)) else none

/-- A stand-in for the value returned by `strconv.Atoi` on a short token: the number
written by an optional sign and decimal digits, and `0`, the value `strconv.Atoi` returns
with a syntax error, for every other token. -/
def atoi_value (tok : List Char) : Int :=
  match tok with
  | [] => 0
  | '-' :: cs => if cs = [] then 0 else
      match decimal_value cs 0 with
      | some n => -(n : Int)
      | none => 0
  | '+' :: cs => if cs = [] then 0 else
      match decimal_value cs 0 with
      | some n => (n : Int)
      | none => 0
  | c :: cs =>
      match decimal_value (c :: cs) 0 with
      | some n => (n : Int)
      | none => 0

/-! ## Rounding to nearest even -/

namespace F32

theorem quantumExp_succ (num den f s : Nat) : quantumExp num den (f + 1) s =
    if num < den * 2 ^ (s + 24) then s else quantumExp num den f (s + 1) := rfl

theorem quantumExp_spec (num den : Nat) :
    ∀ (fuel s : Nat),
      s ≤ quantumExp num den fuel s ∧ quantumExp num den fuel s ≤ s + fuel ∧
      (quantumExp num den fuel s < s + fuel → num < den * 2 ^ (quantumExp num den fuel s + 24)) ∧
      (∀ j, s ≤ j → j < quantumExp num den fuel s → den * 2 ^ (j + 24) ≤ num) := by
  intro fuel
  induction fuel with
  | zero =>
    intro s
    have e : quantumExp num den 0 s = s := rfl
    rw [e]
    refine ⟨le_refl _, le_refl _, ?_, ?_⟩
    · intro h
      exact absurd h (lt_irrefl _)
    · intro j h1 h2
      exact absurd h2 (Nat.not_lt.mpr h1)
  | succ f ih =>
    intro s
    rw [quantumExp_succ]
    by_cases h : num < den * 2 ^ (s + 24)
    · rw [if_pos h]
      refine ⟨le_refl _, Nat.le_add_right _ _, fun _ => h, ?_⟩
      intro j h1 h2
      exact absurd h2 (Nat.not_lt.mpr h1)
    · rw [if_neg h]
      obtain ⟨a1, a2, a3, a4⟩ := ih (s + 1)
      have a5 : s + 1 + f = s + (f + 1) := by ring
      rw [a5] at a2 a3
      refine ⟨Nat.le_of_succ_le a1, a2, a3, ?_⟩
      intro j h1 h2
      rcases Nat.eq_or_lt_of_le h1 with e | e
      · subst e
        exact Nat.le_of_not_lt h
      · exact a4 j e h2

theorem quantumExp_lower (num den : Nat) (h : 0 < quantumExp num den 254 0) :
    den * 2 ^ (quantumExp num den 254 0 + 23) ≤ num := by
  obtain ⟨_, _, _, a4⟩ := quantumExp_spec num den 254 0
  generalize quantumExp num den 254 0 = r at h a4 ⊢
  have a5 := a4 (r - 1) (Nat.zero_le _) (Nat.sub_lt h Nat.one_pos)
  have e : r - 1 + 24 = r + 23 := by omega
  rwa [e] at a5

theorem quantumExp_upper (num den : Nat) (h : num < den * 2 ^ (254 + 24)) :
    num < den * 2 ^ (quantumExp num den 254 0 + 24) := by
  obtain ⟨_, a2, a3, a4⟩ := quantumExp_spec num den 254 0
  rcases Nat.eq_or_lt_of_le a2 with e | e
  · rw [e, Nat.zero_add]
    exact h
  · exact a3 e

theorem rne_ge (a b c : Nat) (hb : 0 < b) (h : c * b ≤ a) : c ≤ rne a b := by
  have h1 : c ≤ a / b := (Nat.le_div_iff_mul_le hb).mpr h
  unfold rne
  split_ifs <;> omega

theorem rne_le (a b c : Nat) (hb : 0 < b) (h : a ≤ c * b) : rne a b ≤ c := by
  rcases Nat.eq_or_lt_of_le h with e | e
  · subst e
    simp [rne, Nat.mul_mod_left, hb, Nat.mul_div_cancel _ hb]
  · have h1 : a / b < c := (Nat.div_lt_iff_lt_mul hb).mpr e
    unfold rne
    split_ifs <;> omega

theorem rne_mul (b c : Nat) (hb : 0 < b) : rne (c * b) b = c :=
  Nat.le_antisymm (rne_le _ _ _ hb (le_refl _)) (rne_ge _ _ _ hb (le_refl _))

theorem rne_err (a b : Nat) (hb : 0 < b) :
    2 * (rne a b * b) ≤ 2 * a + b ∧ 2 * a ≤ 2 * (rne a b * b) + b := by
  have h1 := Nat.div_add_mod a b
  have h2 := Nat.mod_lt a hb
  have h3 : b * (a / b) = a / b * b := Nat.mul_comm _ _
  have h4 : (a / b + 1) * b = a / b * b + b := by ring
  unfold rne
  split_ifs <;> omega

theorem quantumExp_le (num den : Nat) : quantumExp num den 254 0 ≤ 254 := by
  have h := (quantumExp_spec num den 254 0).2.1
  rwa [Nat.zero_add] at h

theorem quantumExp_eq (num den r : Nat) (h1 : r ≤ 254)
    (hlo : r = 0 ∨ den * 2 ^ (r + 23) ≤ num) (hhi : num < den * 2 ^ (r + 24)) :
    quantumExp num den 254 0 = r := by
  obtain ⟨_, a2, a3, a4⟩ := quantumExp_spec num den 254 0
  have hl := quantumExp_lower num den
  generalize quantumExp num den 254 0 = q at a2 a3 a4 hl ⊢
  rcases Nat.lt_trichotomy q r with h | h | h
  · exfalso
    have b1 : num < den * 2 ^ (q + 24) := a3 (by rw [Nat.zero_add] at a2 ⊢; exact lt_of_lt_of_le h h1)
    rcases hlo with e | e
    · rw [e] at h
      exact Nat.not_lt_zero _ h
    · have b2 : 2 ^ (q + 24) ≤ 2 ^ (r + 23) :=
        Nat.pow_le_pow_right (by decide) (show q + 24 ≤ r + 23 from by linarith)
      exact absurd (lt_of_lt_of_le b1 (Nat.mul_le_mul_left den b2)) (Nat.not_lt.mpr e)
  · exact h
  · exfalso
    exact absurd hhi (Nat.not_lt.mpr (a4 r (Nat.zero_le _) h))

theorem roundNat_exact (m j den : Nat) (hm : m < 2 ^ 24) (hden : 0 < den) :
    roundNat (m * 2 ^ j * den) den = m * 2 ^ j := by
  unfold roundNat
  have hl := quantumExp_lower (m * 2 ^ j * den) den
  generalize quantumExp (m * 2 ^ j * den) den 254 0 = r at hl ⊢
  have hr : r ≤ j := by
    rcases Nat.eq_zero_or_pos r with e | e
    · rw [e]
      exact Nat.zero_le _
    · have b1 := hl e
      have b2 : 2 ^ (r + 23) ≤ m * 2 ^ j := by
        have b3 : 2 ^ (r + 23) * den ≤ m * 2 ^ j * den := by
          rw [Nat.mul_comm (2 ^ (r + 23)) den]
          exact b1
        exact Nat.le_of_mul_le_mul_right b3 hden
      have b4 : m * 2 ^ j < 2 ^ 24 * 2 ^ j :=
        Nat.mul_lt_mul_of_pos_right hm (Nat.pow_pos (by decide))
      rw [← Nat.pow_add] at b4
      have b5 : r + 23 < 24 + j :=
        (Nat.pow_lt_pow_iff_right (by decide : 1 < 2)).mp (lt_of_le_of_lt b2 b4)
      linarith
  obtain ⟨d, rfl⟩ := Nat.exists_eq_add_of_le hr
  have e1 : m * 2 ^ (r + d) * den = m * 2 ^ d * (den * 2 ^ r) := by
    rw [Nat.pow_add]
    ring
  rw [e1, rne_mul _ _ (Nat.mul_pos hden (Nat.pow_pos (by decide)))]
  rw [Nat.pow_add]
  ring

theorem roundNat_zero (den : Nat) (hden : 0 < den) : roundNat 0 den = 0 := by
  have h := roundNat_exact 0 0 den (by decide) hden
  simpa using h

theorem roundNat_rel (num den : Nat) (hden : 0 < den) (hlo : den * 2 ^ 23 ≤ num) :
    2 ^ 24 * (roundNat num den * den) ≤ (2 ^ 24 + 1) * num ∧
    (2 ^ 24 - 1) * num ≤ 2 ^ 24 * (roundNat num den * den) := by
  unfold roundNat
  have hl := quantumExp_lower num den
  generalize quantumExp num den 254 0 = r at hl ⊢
  have hb : 0 < den * 2 ^ r := Nat.mul_pos hden (Nat.pow_pos (by decide))
  have hb2 : den * 2 ^ r * 2 ^ 23 ≤ num := by
    rcases Nat.eq_zero_or_pos r with e | e
    · rw [e]
      simpa using hlo
    · have b1 := hl e
      rw [Nat.pow_add, ← Nat.mul_assoc] at b1
      exact b1
  obtain ⟨c1, c2⟩ := rne_err num (den * 2 ^ r) hb
  have e1 : rne num (den * 2 ^ r) * 2 ^ r * den = rne num (den * 2 ^ r) * (den * 2 ^ r) := by
    ring
  rw [e1]
  generalize rne num (den * 2 ^ r) * (den * 2 ^ r) = X at c1 c2 ⊢
  generalize den * 2 ^ r = b at hb hb2 c1 c2 ⊢
  clear hl e1
  norm_num at hb2 ⊢
  omega

/-! ## Exact operations on small integers -/

theorem round_exact (sg : Bool) (m den : Nat) (hm : m < 2 ^ 24) (hden : 0 < den) :
    round sg (m * 2 ^ 149 * den) den = fin sg (m * 2 ^ 149) := by
  unfold round
  rw [roundNat_exact m 149 den hm hden]
  have h : m * 2 ^ 149 < 2 ^ 149 * 2 ^ 128 := by
    have h1 : m < 2 ^ 128 := lt_trans hm (by norm_num)
    calc m * 2 ^ 149 < 2 ^ 128 * 2 ^ 149 := Nat.mul_lt_mul_of_pos_right h1 (Nat.pow_pos (by decide))
      _ = 2 ^ 149 * 2 ^ 128 := Nat.mul_comm _ _
  rw [if_pos h]

theorem ofInt_exact (n : Int) (hn : n.natAbs < 2 ^ 24) :
    ofInt n = fin (decide (n < 0)) (n.natAbs * 2 ^ 149) := by
  unfold ofInt
  have h := round_exact (decide (n < 0)) n.natAbs 1 hn Nat.one_pos
  rwa [Nat.mul_one] at h

theorem units_sign (p : Int) (c : Nat) :
    units (decide (p < 0)) (p.natAbs * c) = p * (c : Int) := by
  unfold units
  by_cases h : p < 0
  · simp only [h, decide_True, if_true, Nat.cast_mul, Int.natCast_natAbs]
    rw [abs_of_neg h]
    ring
  · simp only [h, decide_False, Bool.false_eq_true, if_false, Nat.cast_mul, Int.natCast_natAbs]
    rw [abs_of_nonneg (not_lt.mp h)]

theorem units_xor (p q : Int) (c : Nat) :
    units (xor (decide (p < 0)) (decide (q < 0))) (p.natAbs * q.natAbs * c) = p * q * (c : Int) := by
  unfold units
  rcases lt_or_le p 0 with hp | hp <;> rcases lt_or_le q 0 with hq | hq
  · simp only [hp, hq, decide_True, Bool.xor_self, Bool.false_eq_true, if_false, Nat.cast_mul,
      Int.natCast_natAbs]
    rw [abs_of_neg hp, abs_of_neg hq]
    ring
  · simp only [hp, not_lt.mpr hq, decide_True, decide_False, Bool.xor_false, if_true,
      Nat.cast_mul, Int.natCast_natAbs]
    rw [abs_of_neg hp, abs_of_nonneg hq]
    ring
  · simp only [hq, not_lt.mpr hp, decide_True, decide_False, Bool.xor_true, Bool.not_false,
      if_true, Nat.cast_mul, Int.natCast_natAbs]
    rw [abs_of_nonneg hp, abs_of_neg hq]
    ring
  · simp only [not_lt.mpr hp, not_lt.mpr hq, decide_False, Bool.xor_self, Bool.false_eq_true,
      if_false, Nat.cast_mul, Int.natCast_natAbs]
    rw [abs_of_nonneg hp, abs_of_nonneg hq]

/-- The product of two small integers is computed exactly. -/
theorem mul_ofInt_exact (p q : Int) (hp : p.natAbs < 2 ^ 12) (hq : q.natAbs < 2 ^ 12) :
    mul (ofInt p) (ofInt q) =
      fin (xor (decide (p < 0)) (decide (q < 0))) (p.natAbs * q.natAbs * 2 ^ 149) := by
  rw [ofInt_exact p (lt_trans hp (by norm_num)), ofInt_exact q (lt_trans hq (by norm_num))]
  show round _ _ _ = _
  have h1 : p.natAbs * q.natAbs < 2 ^ 24 := by
    calc p.natAbs * q.natAbs < 2 ^ 12 * 2 ^ 12 := Nat.mul_lt_mul'' hp hq
      _ = 2 ^ 24 := by norm_num
  have h2 := round_exact (xor (decide (p < 0)) (decide (q < 0))) (p.natAbs * q.natAbs) (2 ^ 149)
    h1 (Nat.pow_pos (by decide))
  have e : p.natAbs * 2 ^ 149 * (q.natAbs * 2 ^ 149) = p.natAbs * q.natAbs * 2 ^ 149 * 2 ^ 149 := by
    ring
  rw [e]
  exact h2

theorem add_fin (s t : Bool) (a b : Nat) : add (fin s a) (fin t b) =
    if units s a + units t b = 0 then fin (s && t) 0
    else round (decide (units s a + units t b < 0)) (units s a + units t b).natAbs 1 := rfl

theorem sub_fin (s t : Bool) (a b : Nat) : sub (fin s a) (fin t b) = add (fin s a) (fin (!t) b) :=
  rfl

theorem units_not (t : Bool) (b : Nat) : units (!t) b = - units t b := by
  unfold units
  cases t <;> simp

/-- A sum of finite values whose exact result is a small integer is computed exactly. -/
theorem add_fin_exact (s t : Bool) (a b : Nat) (c : Int)
    (h : units s a + units t b = c * ((2 ^ 149 : Nat) : Int)) (hc : c.natAbs < 2 ^ 24) :
    ∃ sg, add (fin s a) (fin t b) = fin sg (c.natAbs * 2 ^ 149) ∧
      (c ≠ 0 → sg = decide (c < 0)) := by
  rw [add_fin, h]
  have hpos : (0 : Int) < ((2 ^ 149 : Nat) : Int) := by norm_num
  by_cases hc0 : c = 0
  · subst hc0
    refine ⟨s && t, ?_, fun h0 => absurd rfl h0⟩
    simp
  · have hne : c * ((2 ^ 149 : Nat) : Int) ≠ 0 := mul_ne_zero hc0 (ne_of_gt hpos)
    rw [if_neg hne]
    refine ⟨decide (c < 0), ?_, fun _ => rfl⟩
    have e1 : (c * ((2 ^ 149 : Nat) : Int)).natAbs = c.natAbs * 2 ^ 149 := by
      rw [Int.natAbs_mul, Int.natAbs_ofNat]
    have e2 : decide (c * ((2 ^ 149 : Nat) : Int) < 0) = decide (c < 0) := by
      congr 1
      exact propext ⟨fun h => by
          by_contra h'
          exact absurd h (not_lt.mpr (mul_nonneg (not_lt.mp h') (le_of_lt hpos))),
        fun h => mul_neg_of_neg_of_pos h hpos⟩
    rw [e1, e2]
    have h2 := round_exact (decide (c < 0)) c.natAbs 1 hc Nat.one_pos
    rwa [Nat.mul_one] at h2

end F32

theorem natAbs_mul_lt (p q : Int) (a b : Nat) (hp : p.natAbs < a) (hq : q.natAbs < b) :
    (p * q).natAbs < a * b := by
  rw [Int.natAbs_mul]
  exact Nat.mul_lt_mul'' hp hq

/-- On small integers `crossproduct` is exact: it returns the integer cross product,
with the sign flag of that integer when it is not zero. -/
theorem crossproduct_exact (x1 y1 x2 y2 : Int)
    (h1 : x1.natAbs < 2 ^ 11) (h2 : y1.natAbs < 2 ^ 11) (h3 : x2.natAbs < 2 ^ 11)
    (h4 : y2.natAbs < 2 ^ 11) :
    ∃ sg, crossproduct x1 y1 x2 y2 = F32.fin sg ((cpInt x1 y1 x2 y2).natAbs * 2 ^ 149) ∧
      (cpInt x1 y1 x2 y2 ≠ 0 → sg = decide (cpInt x1 y1 x2 y2 < 0)) := by
  unfold crossproduct
  rw [F32.mul_ofInt_exact y1 x2 (lt_trans h2 (by norm_num)) (lt_trans h3 (by norm_num)),
    F32.mul_ofInt_exact x1 y2 (lt_trans h1 (by norm_num)) (lt_trans h4 (by norm_num)), F32.sub_fin]
  apply F32.add_fin_exact
  · rw [F32.units_not, F32.units_xor, F32.units_xor]
    unfold cpInt
    ring
  · have b1 := natAbs_mul_lt y1 x2 _ _ h2 h3
    have b2 := natAbs_mul_lt x1 y2 _ _ h1 h4
    have b3 : (cpInt x1 y1 x2 y2).natAbs ≤ (y1 * x2).natAbs + (x1 * y2).natAbs := by
      unfold cpInt
      exact Int.natAbs_sub_le _ _
    norm_num at b1 b2 ⊢
    omega

/-! ## Rounded quotients and their sum -/

namespace F32

theorem quot_approx (a D : Nat) (hD : 0 < D) (hD2 : D < 2 ^ 22) :
    Approx a D (roundNat (a * 2 ^ 149 * 2 ^ 149) (D * 2 ^ 149)) := by
  have hU : 0 < 2 ^ 149 := Nat.pow_pos (by decide)
  rcases Nat.eq_zero_or_pos a with ha | ha
  · subst ha
    rw [Nat.zero_mul, Nat.zero_mul, roundNat_zero _ (Nat.mul_pos hD hU)]
    unfold Approx
    simp
  · have hlo : D * 2 ^ 149 * 2 ^ 23 ≤ a * 2 ^ 149 * 2 ^ 149 := by
      have b1 : D * 2 ^ 23 ≤ a * 2 ^ 149 := by
        calc D * 2 ^ 23 ≤ 2 ^ 22 * 2 ^ 23 := Nat.mul_le_mul_right _ (le_of_lt hD2)
          _ ≤ 1 * 2 ^ 149 := by norm_num
          _ ≤ a * 2 ^ 149 := Nat.mul_le_mul_right _ ha
      calc D * 2 ^ 149 * 2 ^ 23 = D * 2 ^ 23 * 2 ^ 149 := by ring
        _ ≤ a * 2 ^ 149 * 2 ^ 149 := Nat.mul_le_mul_right _ b1
    obtain ⟨c1, c2⟩ := roundNat_rel _ _ (Nat.mul_pos hD hU) hlo
    generalize roundNat (a * 2 ^ 149 * 2 ^ 149) (D * 2 ^ 149) = k at c1 c2 ⊢
    unfold Approx
    constructor
    · have e1 : 2 ^ 24 * (k * (D * 2 ^ 149)) = 2 ^ 24 * (k * D) * 2 ^ 149 := by ring
      have e2 : (2 ^ 24 + 1) * (a * 2 ^ 149 * 2 ^ 149) = (2 ^ 24 + 1) * (a * 2 ^ 149) * 2 ^ 149 := by
        ring
      rw [e1, e2] at c1
      exact Nat.le_of_mul_le_mul_right c1 hU
    · have e1 : 2 ^ 24 * (k * (D * 2 ^ 149)) = 2 ^ 24 * (k * D) * 2 ^ 149 := by ring
      have e2 : (2 ^ 24 - 1) * (a * 2 ^ 149 * 2 ^ 149) = (2 ^ 24 - 1) * (a * 2 ^ 149) * 2 ^ 149 := by
        ring
      rw [e1, e2] at c2
      exact Nat.le_of_mul_le_mul_right c2 hU

theorem Approx.lt_overflow {a D k : Nat} (h : Approx a D k) (hD : 0 < D) (ha : a < 2 ^ 24) :
    k < 2 ^ 149 * 2 ^ 128 := by
  obtain ⟨c1, -⟩ := h
  have b1 : k ≤ k * D := Nat.le_mul_of_pos_right _ hD
  have b2 : a * 2 ^ 149 < 2 ^ 24 * 2 ^ 149 := Nat.mul_lt_mul_of_pos_right ha (Nat.pow_pos (by decide))
  generalize k * D = P at c1 b1
  generalize a * 2 ^ 149 = Q at c1 b2
  norm_num at c1 b2 ⊢
  omega

theorem Approx.eq_zero_iff {a D k : Nat} (h : Approx a D k) (hD : 0 < D) : k = 0 ↔ a = 0 := by
  obtain ⟨c1, c2⟩ := h
  constructor
  · intro hk
    subst hk
    by_contra ha
    have b1 : 1 * 2 ^ 149 ≤ a * 2 ^ 149 := Nat.mul_le_mul_right _ (Nat.pos_of_ne_zero ha)
    generalize a * 2 ^ 149 = Q at c2 b1
    norm_num at c2 b1
    omega
  · intro ha
    subst ha
    have b1 : k ≤ k * D := Nat.le_mul_of_pos_right _ hD
    generalize k * D = P at c1 b1
    norm_num at c1
    omega

/-- Sum of two rounded quotients whose exact sum is at most one. -/
theorem approx_sum_le {a b D k1 k2 : Nat} (h1 : Approx a D k1) (h2 : Approx b D k2)
    (hD : 0 < D) (hab : a + b ≤ D) : k1 + k2 ≤ 2 ^ 149 + 2 ^ 125 := by
  obtain ⟨c1, -⟩ := h1
  obtain ⟨d1, -⟩ := h2
  have b1 : (a + b) * 2 ^ 149 ≤ D * 2 ^ 149 := Nat.mul_le_mul_right _ hab
  have b2 : 2 ^ 24 * (k1 + k2) * D ≤ (2 ^ 24 + 1) * 2 ^ 149 * D := by
    have e1 : 2 ^ 24 * (k1 + k2) * D = 2 ^ 24 * (k1 * D) + 2 ^ 24 * (k2 * D) := by ring
    have e2 : (2 ^ 24 + 1) * 2 ^ 149 * D = (2 ^ 24 + 1) * (D * 2 ^ 149) := by ring
    have e3 : (a + b) * 2 ^ 149 = a * 2 ^ 149 + b * 2 ^ 149 := by ring
    rw [e1, e2]
    rw [e3] at b1
    generalize k1 * D = P1 at c1
    generalize k2 * D = P2 at d1
    generalize a * 2 ^ 149 = A at c1 b1
    generalize b * 2 ^ 149 = B at d1 b1
    generalize D * 2 ^ 149 = Q at b1 ⊢
    norm_num at c1 d1 ⊢
    omega
  have b3 := Nat.le_of_mul_le_mul_right b2 hD
  norm_num at b3 ⊢
  omega

/-- Sum of two rounded quotients whose exact sum exceeds one. -/
theorem approx_sum_gt {a b D k1 k2 : Nat} (h1 : Approx a D k1) (h2 : Approx b D k2)
    (hD : 0 < D) (hD2 : D < 2 ^ 22) (hab : D < a + b) : 2 ^ 149 + 2 ^ 126 ≤ k1 + k2 := by
  obtain ⟨-, c2⟩ := h1
  obtain ⟨-, d2⟩ := h2
  by_contra hlt
  have hlt' : k1 + k2 < 2 ^ 149 + 2 ^ 126 := Nat.lt_of_not_le hlt
  have b1 : (D + 1) * 2 ^ 149 ≤ (a + b) * 2 ^ 149 := Nat.mul_le_mul_right _ hab
  have b2 : (k1 + k2) * D < (2 ^ 149 + 2 ^ 126) * D := Nat.mul_lt_mul_of_pos_right hlt' hD
  have b3 : D * 2 ^ 149 < 2 ^ 22 * 2 ^ 149 := Nat.mul_lt_mul_of_pos_right hD2 (Nat.pow_pos (by decide))
  have e1 : (k1 + k2) * D = k1 * D + k2 * D := by ring
  have e2 : (2 ^ 149 + 2 ^ 126) * D = D * 2 ^ 149 + (D * 2 ^ 149) / 2 ^ 23 := by
    have : D * 2 ^ 149 = D * 2 ^ 126 * 2 ^ 23 := by ring
    rw [this, Nat.mul_div_cancel _ (Nat.pow_pos (by decide))]
    ring
  have e3 : (a + b) * 2 ^ 149 = a * 2 ^ 149 + b * 2 ^ 149 := by ring
  have e4 : (D + 1) * 2 ^ 149 = D * 2 ^ 149 + 2 ^ 149 := by ring
  rw [e1, e2] at b2
  rw [e3, e4] at b1
  generalize k1 * D = P1 at c2 b2
  generalize k2 * D = P2 at d2 b2
  generalize a * 2 ^ 149 = A at c2 b1
  generalize b * 2 ^ 149 = B at d2 b1
  generalize D * 2 ^ 149 = Q at b1 b2 b3
  norm_num at c2 d2 b1 b2 b3
  omega

/-- Rounding never carries a value at most `2^e` above `2^e`. -/
theorem roundNat_le_pow (m e : Nat) (he : 23 ≤ e) (h : m ≤ 2 ^ e) : roundNat m 1 ≤ 2 ^ e := by
  unfold roundNat
  have hl := quantumExp_lower m 1
  generalize quantumExp m 1 254 0 = r at hl ⊢
  have hr : r + 23 ≤ e := by
    rcases Nat.eq_zero_or_pos r with e0 | e0
    · rw [e0]
      simpa using he
    · have b1 := hl e0
      rw [Nat.one_mul] at b1
      by_contra hc
      have b2 : 2 ^ e < 2 ^ (r + 23) := Nat.pow_lt_pow_right (by decide) (Nat.lt_of_not_le hc)
      exact absurd (lt_of_lt_of_le b2 b1) (Nat.not_lt.mpr h)
  obtain ⟨d, rfl⟩ := Nat.exists_eq_add_of_le hr
  have e1 : 2 ^ (r + 23 + d) = 2 ^ (23 + d) * (1 * 2 ^ r) := by
    rw [Nat.one_mul, ← Nat.pow_add]
    congr 1
    ring
  have b3 := rne_le m (1 * 2 ^ r) (2 ^ (23 + d))
    (Nat.mul_pos Nat.one_pos (Nat.pow_pos (by decide))) (by rw [← e1]; exact h)
  calc rne m (1 * 2 ^ r) * 2 ^ r ≤ 2 ^ (23 + d) * 2 ^ r := Nat.mul_le_mul_right _ b3
    _ = 2 ^ (r + 23 + d) := by
      rw [← Nat.pow_add]
      congr 1
      ring

/-- A sum that exceeds one by at most half a unit in the last place rounds to at most one. -/
theorem roundNat_le_one (m : Nat) (h : m ≤ 2 ^ 149 + 2 ^ 125) : roundNat m 1 ≤ 2 ^ 149 := by
  rcases Nat.lt_or_ge (2 ^ 149) m with h1 | h1
  · have hq : quantumExp m 1 254 0 = 126 := by
      apply quantumExp_eq
      · decide
      · right
        rw [Nat.one_mul]
        exact le_of_lt h1
      · rw [Nat.one_mul]
        exact lt_of_le_of_lt h (by norm_num)
    unfold roundNat
    rw [hq]
    unfold rne
    norm_num at h h1 ⊢
    split_ifs <;> omega
  · exact roundNat_le_pow m 149 (by decide) h1

/-- A sum that exceeds one by at least a unit in the last place rounds above one. -/
theorem roundNat_gt_one (m : Nat) (h : 2 ^ 149 + 2 ^ 126 ≤ m) : 2 ^ 149 < roundNat m 1 := by
  unfold roundNat
  have hl := quantumExp_lower m 1
  obtain ⟨-, a2, a3, -⟩ := quantumExp_spec m 1 254 0
  generalize quantumExp m 1 254 0 = r at hl a2 a3 ⊢
  have hb : 0 < 1 * 2 ^ r := Nat.mul_pos Nat.one_pos (Nat.pow_pos (by decide))
  have hr : 126 ≤ r := by
    by_contra hc
    have hc' : r < 126 := Nat.lt_of_not_le hc
    have b1 := a3 (by rw [Nat.zero_add]; exact lt_trans hc' (by decide))
    rw [Nat.one_mul] at b1
    have b2 : 2 ^ (r + 24) ≤ 2 ^ 149 := Nat.pow_le_pow_right (by decide) (by linarith)
    have b3 : 2 ^ 149 < 2 ^ 149 := lt_of_le_of_lt (le_trans (Nat.le_add_right _ _) h)
      (lt_of_lt_of_le b1 b2)
    exact absurd b3 (lt_irrefl _)
  rcases Nat.eq_or_lt_of_le hr with e | e
  · subst e
    have b1 := rne_ge m (1 * 2 ^ 126) (2 ^ 23 + 1) hb (by norm_num at h ⊢; exact h)
    calc 2 ^ 149 < (2 ^ 23 + 1) * 2 ^ 126 := by norm_num
      _ ≤ rne m (1 * 2 ^ 126) * 2 ^ 126 := Nat.mul_le_mul_right _ b1
  · have b0 := hl (lt_trans (by decide) e)
    have b1 := rne_ge m (1 * 2 ^ r) (2 ^ 23) hb (by
      rw [Nat.one_mul] at b0 ⊢
      rw [← Nat.pow_add, Nat.add_comm]
      exact b0)
    have b2 : 2 ^ 127 ≤ 2 ^ r := Nat.pow_le_pow_right (by decide) e
    calc 2 ^ 149 < 2 ^ 23 * 2 ^ 127 := by norm_num
      _ ≤ 2 ^ 23 * 2 ^ r := Nat.mul_le_mul_left _ b2
      _ ≤ rne m (1 * 2 ^ r) * 2 ^ r := Nat.mul_le_mul_right _ b1

theorem ofInt_zero : ofInt 0 = fin false 0 := by
  have h := ofInt_exact 0 (by decide)
  simpa using h

theorem ofInt_one : ofInt 1 = fin false (2 ^ 149) := by
  have h := ofInt_exact 1 (by decide)
  simpa using h

theorem ge_zero_fin (sg : Bool) (k : Nat) :
    ge (fin sg k) (fin false 0) = true ↔ (sg = false ∨ k = 0) := by
  unfold ge le units
  cases sg <;> simp

theorem le_round_one (m : Nat) :
    le (round false m 1) (fin false (2 ^ 149)) = decide (roundNat m 1 ≤ 2 ^ 149) := by
  unfold round
  by_cases h : roundNat m 1 < 2 ^ 149 * 2 ^ 128
  · rw [if_pos h]
    unfold le units
    simp
  · rw [if_neg h]
    have h2 : ¬ roundNat m 1 ≤ 2 ^ 149 := by
      intro hc
      exact h (lt_of_le_of_lt hc (by norm_num))
    have h3 : decide (roundNat m 1 ≤ 2 ^ 149) = false := decide_eq_false h2
    rw [h3]
    rfl

theorem div_fin (s t : Bool) (a b : Nat) (hb : b ≠ 0) :
    div (fin s a) (fin t b) = round (xor s t) (a * 2 ^ 149) b := by
  simp [div, hb]

theorem sum_round_iff {a b D k1 k2 : Nat} (h1 : Approx a D k1) (h2 : Approx b D k2)
    (hD : 0 < D) (hD2 : D < 2 ^ 22) : roundNat (k1 + k2) 1 ≤ 2 ^ 149 ↔ a + b ≤ D := by
  constructor
  · intro h
    by_contra hc
    have b1 := roundNat_gt_one _ (approx_sum_gt h1 h2 hD hD2 (Nat.lt_of_not_le hc))
    exact absurd h (Nat.not_le.mpr b1)
  · intro h
    exact roundNat_le_one _ (approx_sum_le h1 h2 hD h)

theorem units_of_nonneg (sg : Bool) (k : Nat) (h : sg = false ∨ k = 0) : units sg k = (k : Int) := by
  unfold units
  rcases h with h | h
  · simp [h]
  · simp [h]

theorem add_nonneg_le_one (sg1 sg2 : Bool) (k1 k2 : Nat) (h1 : sg1 = false ∨ k1 = 0)
    (h2 : sg2 = false ∨ k2 = 0) :
    le (add (fin sg1 k1) (fin sg2 k2)) (fin false (2 ^ 149)) =
      decide (roundNat (k1 + k2) 1 ≤ 2 ^ 149) := by
  rw [add_fin, units_of_nonneg sg1 k1 h1, units_of_nonneg sg2 k2 h2]
  by_cases h0 : (k1 : Int) + (k2 : Int) = 0
  · rw [if_pos h0]
    have h0' : k1 + k2 = 0 := by exact_mod_cast h0
    rw [h0', roundNat_zero 1 Nat.one_pos]
    unfold le units
    cases (sg1 && sg2) <;> simp
  · rw [if_neg h0]
    have e1 : decide ((k1 : Int) + (k2 : Int) < 0) = false := by
      apply decide_eq_false
      have : (0 : Int) ≤ (k1 : Int) + (k2 : Int) := by positivity
      exact not_lt.mpr this
    have e2 : ((k1 : Int) + (k2 : Int)).natAbs = k1 + k2 := by
      rw [← Nat.cast_add, Int.natAbs_ofNat]
    rw [e1, e2, le_round_one]

theorem sign_iff (n d : Int) (hd : d ≠ 0) (sg : Bool) (hsg : n ≠ 0 → sg = decide (n < 0)) :
    (xor sg (decide (d < 0)) = false ∨ n.natAbs = 0) ↔ 0 ≤ n * d := by
  rcases lt_trichotomy n 0 with hn | hn | hn
  · rw [hsg (ne_of_lt hn)]
    have e : n.natAbs ≠ 0 := by
      rw [Ne, Int.natAbs_eq_zero]
      exact ne_of_lt hn
    rcases lt_or_gt_of_ne hd with h | h
    · have : 0 < n * d := mul_pos_of_neg_of_neg hn h
      simp [hn, h, le_of_lt this]
    · have : n * d < 0 := mul_neg_of_neg_of_pos hn h
      simp [hn, not_lt.mpr (le_of_lt h), e, not_le.mpr this]
  · subst hn
    simp
  · rw [hsg (ne_of_gt hn)]
    have e : n.natAbs ≠ 0 := by
      rw [Ne, Int.natAbs_eq_zero]
      exact ne_of_gt hn
    rcases lt_or_gt_of_ne hd with h | h
    · have : n * d < 0 := mul_neg_of_pos_of_neg hn h
      simp [not_lt.mpr (le_of_lt hn), h, e, not_le.mpr this]
    · have : 0 < n * d := mul_pos hn h
      simp [not_lt.mpr (le_of_lt hn), not_lt.mpr (le_of_lt h), le_of_lt this]

theorem natAbs_sum_iff (ns nt d : Int) (hd : d ≠ 0) (h1 : 0 ≤ ns * d) (h2 : 0 ≤ nt * d) :
    ns.natAbs + nt.natAbs ≤ d.natAbs ↔ (ns + nt) * d ≤ d * d := by
  have e1 : ((ns * d).natAbs : Int) = ns * d := Int.natAbs_of_nonneg h1
  have e2 : ((nt * d).natAbs : Int) = nt * d := Int.natAbs_of_nonneg h2
  have e3 : ((d * d).natAbs : Int) = d * d := Int.natAbs_of_nonneg (mul_self_nonneg d)
  have hdpos : 0 < d.natAbs := Int.natAbs_pos.mpr hd
  rw [Int.natAbs_mul] at e1 e2 e3
  constructor
  · intro h
    have b1 : (ns.natAbs + nt.natAbs) * d.natAbs ≤ d.natAbs * d.natAbs :=
      Nat.mul_le_mul_right _ h
    have b2 : (((ns.natAbs + nt.natAbs) * d.natAbs : Nat) : Int) ≤ ((d.natAbs * d.natAbs : Nat) : Int) := by
      exact_mod_cast b1
    rw [Nat.add_mul] at b2
    push_cast at b2 e1 e2 e3
    linarith
  · intro h
    have b2 : (((ns.natAbs + nt.natAbs) * d.natAbs : Nat) : Int) ≤ ((d.natAbs * d.natAbs : Nat) : Int) := by
      rw [Nat.add_mul]
      push_cast at e1 e2 e3 ⊢
      linarith
    have b1 : (ns.natAbs + nt.natAbs) * d.natAbs ≤ d.natAbs * d.natAbs := by exact_mod_cast b2
    exact Nat.le_of_mul_le_mul_right b1 hdpos

/-- The inclusion test of the rasterizer, computed in binary32 on exact integer cross
products, decides the exact rational conditions `0 ≤ ns/d`, `0 ≤ nt/d`, `ns/d + nt/d ≤ 1`
(written without division). -/
theorem bary_test (ns nt d : Int) (sgs sgt sgd : Bool) (hd : d ≠ 0) (hd2 : d.natAbs < 2 ^ 22)
    (hns : ns.natAbs < 2 ^ 24) (hnt : nt.natAbs < 2 ^ 24)
    (hs : ns ≠ 0 → sgs = decide (ns < 0)) (ht : nt ≠ 0 → sgt = decide (nt < 0))
    (hsd : sgd = decide (d < 0)) :
    (ge (div (fin sgs (ns.natAbs * 2 ^ 149)) (fin sgd (d.natAbs * 2 ^ 149))) (ofInt 0) &&
      ge (div (fin sgt (nt.natAbs * 2 ^ 149)) (fin sgd (d.natAbs * 2 ^ 149))) (ofInt 0) &&
      le (add (div (fin sgs (ns.natAbs * 2 ^ 149)) (fin sgd (d.natAbs * 2 ^ 149)))
        (div (fin sgt (nt.natAbs * 2 ^ 149)) (fin sgd (d.natAbs * 2 ^ 149)))) (ofInt 1)) = true ↔
    (0 ≤ ns * d ∧ 0 ≤ nt * d ∧ (ns + nt) * d ≤ d * d) := by
  subst hsd
  have hD : 0 < d.natAbs := Int.natAbs_pos.mpr hd
  have hU : 0 < 2 ^ 149 := Nat.pow_pos (by decide)
  have hb : d.natAbs * 2 ^ 149 ≠ 0 := Nat.pos_iff_ne_zero.mp (Nat.mul_pos hD hU)
  have A1 := quot_approx ns.natAbs d.natAbs hD hd2
  have A2 := quot_approx nt.natAbs d.natAbs hD hd2
  have O1 := A1.lt_overflow hD hns
  have O2 := A2.lt_overflow hD hnt
  have Z1 := A1.eq_zero_iff hD
  have Z2 := A2.eq_zero_iff hD
  have S := sum_round_iff A1 A2 hD hd2
  rw [div_fin _ _ _ _ hb, div_fin _ _ _ _ hb, ofInt_zero, ofInt_one]
  unfold round
  rw [if_pos O1, if_pos O2]
  generalize roundNat (ns.natAbs * 2 ^ 149 * 2 ^ 149) (d.natAbs * 2 ^ 149) = k1 at A1 O1 Z1 S ⊢
  generalize roundNat (nt.natAbs * 2 ^ 149 * 2 ^ 149) (d.natAbs * 2 ^ 149) = k2 at A2 O2 Z2 S ⊢
  rw [Bool.and_eq_true, Bool.and_eq_true, ge_zero_fin, ge_zero_fin, Z1, Z2,
    sign_iff ns d hd sgs hs, sign_iff nt d hd sgt ht]
  constructor
  · rintro ⟨⟨g1, g2⟩, g3⟩
    refine ⟨g1, g2, ?_⟩
    have g1' := (sign_iff ns d hd sgs hs).mpr g1
    have g2' := (sign_iff nt d hd sgt ht).mpr g2
    rw [← Z1] at g1'
    rw [← Z2] at g2'
    rw [add_nonneg_le_one _ _ _ _ g1' g2', decide_eq_true_eq, S] at g3
    exact (natAbs_sum_iff ns nt d hd g1 g2).mp g3
  · rintro ⟨g1, g2, g3⟩
    refine ⟨⟨g1, g2⟩, ?_⟩
    have g1' := (sign_iff ns d hd sgs hs).mpr g1
    have g2' := (sign_iff nt d hd sgt ht).mpr g2
    rw [← Z1] at g1'
    rw [← Z2] at g2'
    rw [add_nonneg_le_one _ _ _ _ g1' g2', decide_eq_true_eq, S]
    exact (natAbs_sum_iff ns nt d hd g1 g2).mpr g3

end F32

/-! ## The rasterizer -/

theorem mem_loopRange (lo hi x : Int) : x ∈ loopRange lo hi ↔ lo ≤ x ∧ x < hi := by
  unfold loopRange
  rw [List.mem_map]
  constructor
  · rintro ⟨i, hi', rfl⟩
    rw [List.mem_range] at hi'
    omega
  · rintro ⟨h1, h2⟩
    refine ⟨(x - lo).toNat, ?_, ?_⟩
    · rw [List.mem_range]
      omega
    · omega

theorem cpInt_natAbs_lt (x1 y1 x2 y2 : Int) (h1 : x1.natAbs < 801) (h2 : y1.natAbs < 601)
    (h3 : x2.natAbs < 801) (h4 : y2.natAbs < 601) : (cpInt x1 y1 x2 y2).natAbs < 2 ^ 22 := by
  have b1 := natAbs_mul_lt y1 x2 _ _ h2 h3
  have b2 := natAbs_mul_lt x1 y2 _ _ h1 h4
  have b3 : (cpInt x1 y1 x2 y2).natAbs ≤ (y1 * x2).natAbs + (x1 * y2).natAbs := by
    unfold cpInt
    exact Int.natAbs_sub_le _ _
  norm_num at b1 b2 ⊢
  omega

theorem int_min_le_iff (a b x : Int) : int_min a b ≤ x ↔ a ≤ x ∨ b ≤ x := by
  unfold int_min
  split_ifs <;> omega

theorem lt_int_max_iff (a b x : Int) : x < int_max a b ↔ x < a ∨ x < b := by
  unfold int_max
  split_ifs <;> omega

theorem le_int_min_iff (a b x : Int) : x ≤ int_min a b ↔ x ≤ a ∧ x ≤ b := by
  unfold int_min
  split_ifs <;> omega

theorem int_max_le_iff (a b x : Int) : int_max a b ≤ x ↔ a ≤ x ∧ b ≤ x := by
  unfold int_max
  split_ifs <;> omega

/-- The guards of `generate_triangle_barycentric` all pass on an in-range triangle. -/
theorem generate_triangle_barycentric_in_range (x1 y1 x2 y2 x3 y3 : Int)
    (hx1 : 0 ≤ x1 ∧ x1 ≤ 800) (hy1 : 0 ≤ y1 ∧ y1 ≤ 600) (hx2 : 0 ≤ x2 ∧ x2 ≤ 800)
    (hy2 : 0 ≤ y2 ∧ y2 ≤ 600) (hx3 : 0 ≤ x3 ∧ x3 ≤ 800) (hy3 : 0 ≤ y3 ∧ y3 ≤ 600) :
    generate_triangle_barycentric x1 y1 x2 y2 x3 y3 =
      (loopRange (int_min x1 (int_min x2 x3)) (int_max x1 (int_max x2 x3))).flatMap fun x =>
        (loopRange (int_min y1 (int_min y2 y3)) (int_max y1 (int_max y2 y3))).filterMap fun y =>
          if F32.ge (F32.div (crossproduct (x - x1) (y - y1) (x3 - x1) (y3 - y1))
                (crossproduct (x2 - x1) (y2 - y1) (x3 - x1) (y3 - y1))) (F32.ofInt 0) &&
              F32.ge (F32.div (crossproduct (x2 - x1) (y2 - y1) (x - x1) (y - y1))
                (crossproduct (x2 - x1) (y2 - y1) (x3 - x1) (y3 - y1))) (F32.ofInt 0) &&
              F32.le (F32.add
                (F32.div (crossproduct (x - x1) (y - y1) (x3 - x1) (y3 - y1))
                  (crossproduct (x2 - x1) (y2 - y1) (x3 - x1) (y3 - y1)))
                (F32.div (crossproduct (x2 - x1) (y2 - y1) (x - x1) (y - y1))
                  (crossproduct (x2 - x1) (y2 - y1) (x3 - x1) (y3 - y1)))) (F32.ofInt 1)
          then some (x, y) else none := by
  unfold generate_triangle_barycentric
  have g1 : ¬ x1 > ((WIDTH : Nat) : Int) := by simp only [WIDTH]; omega
  have g2 : ¬ x2 > ((WIDTH : Nat) : Int) := by simp only [WIDTH]; omega
  have g3 : ¬ x3 > ((WIDTH : Nat) : Int) := by simp only [WIDTH]; omega
  have g4 : ¬ x1 < 0 := by omega
  have g5 : ¬ x2 < 0 := by omega
  have g6 : ¬ x3 < 0 := by omega
  have g7 : ¬ y1 < 0 := by omega
  have g8 : ¬ y2 < 0 := by omega
  have g9 : ¬ y3 < 0 := by omega
  have g10 : ¬ y1 > ((HEIGHT : Nat) : Int) := by simp only [HEIGHT]; omega
  have g11 : ¬ y2 > ((HEIGHT : Nat) : Int) := by simp only [HEIGHT]; omega
  have g12 : ¬ y3 > ((HEIGHT : Nat) : Int) := by simp only [HEIGHT]; omega
  rw [if_neg g1, if_neg g2, if_neg g3, if_neg g4, if_neg g5, if_neg g6, if_neg g7, if_neg g8,
    if_neg g9, if_neg g10, if_neg g11, if_neg g12]

theorem natAbs_sub_lt_801 (a b : Int) (ha : 0 ≤ a ∧ a ≤ 800) (hb : 0 ≤ b ∧ b ≤ 800) :
    (a - b).natAbs < 801 := by omega

theorem natAbs_sub_lt_601 (a b : Int) (ha : 0 ≤ a ∧ a ≤ 600) (hb : 0 ≤ b ∧ b ≤ 600) :
    (a - b).natAbs < 601 := by omega

/-- The inclusion test at a pixel of the viewport, for a non-collinear in-range triangle. -/
theorem inclusion_test_iff (x1 y1 x2 y2 x3 y3 : Int)
    (hx1 : 0 ≤ x1 ∧ x1 ≤ 800) (hy1 : 0 ≤ y1 ∧ y1 ≤ 600) (hx2 : 0 ≤ x2 ∧ x2 ≤ 800)
    (hy2 : 0 ≤ y2 ∧ y2 ≤ 600) (hx3 : 0 ≤ x3 ∧ x3 ≤ 800) (hy3 : 0 ≤ y3 ∧ y3 ≤ 600)
    (hd : cpInt (x2 - x1) (y2 - y1) (x3 - x1) (y3 - y1) ≠ 0) (x y : Int)
    (hx : 0 ≤ x ∧ x ≤ 800) (hy : 0 ≤ y ∧ y ≤ 600) :
    (F32.ge (F32.div (crossproduct (x - x1) (y - y1) (x3 - x1) (y3 - y1))
          (crossproduct (x2 - x1) (y2 - y1) (x3 - x1) (y3 - y1))) (F32.ofInt 0) &&
        F32.ge (F32.div (crossproduct (x2 - x1) (y2 - y1) (x - x1) (y - y1))
          (crossproduct (x2 - x1) (y2 - y1) (x3 - x1) (y3 - y1))) (F32.ofInt 0) &&
        F32.le (F32.add
          (F32.div (crossproduct (x - x1) (y - y1) (x3 - x1) (y3 - y1))
            (crossproduct (x2 - x1) (y2 - y1) (x3 - x1) (y3 - y1)))
          (F32.div (crossproduct (x2 - x1) (y2 - y1) (x - x1) (y - y1))
            (crossproduct (x2 - x1) (y2 - y1) (x3 - x1) (y3 - y1)))) (F32.ofInt 1)) = true ↔
      (0 ≤ cpInt (x - x1) (y - y1) (x3 - x1) (y3 - y1) *
        cpInt (x2 - x1) (y2 - y1) (x3 - x1) (y3 - y1) ∧
      0 ≤ cpInt (x2 - x1) (y2 - y1) (x - x1) (y - y1) *
        cpInt (x2 - x1) (y2 - y1) (x3 - x1) (y3 - y1) ∧
      (cpInt (x - x1) (y - y1) (x3 - x1) (y3 - y1) + cpInt (x2 - x1) (y2 - y1) (x - x1) (y - y1)) *
        cpInt (x2 - x1) (y2 - y1) (x3 - x1) (y3 - y1) ≤
        cpInt (x2 - x1) (y2 - y1) (x3 - x1) (y3 - y1) *
          cpInt (x2 - x1) (y2 - y1) (x3 - x1) (y3 - y1)) := by
  have a1 := natAbs_sub_lt_801 x2 x1 hx2 hx1
  have a2 := natAbs_sub_lt_601 y2 y1 hy2 hy1
  have a3 := natAbs_sub_lt_801 x3 x1 hx3 hx1
  have a4 := natAbs_sub_lt_601 y3 y1 hy3 hy1
  have a5 := natAbs_sub_lt_801 x x1 hx hx1
  have a6 := natAbs_sub_lt_601 y y1 hy hy1
  have c : (801 : Nat) < 2 ^ 11 := by norm_num
  have c' : (601 : Nat) < 2 ^ 11 := by norm_num
  have c2 : (2 : Nat) ^ 22 < 2 ^ 24 := by norm_num
  obtain ⟨sd, ed, hsd⟩ := crossproduct_exact (x2 - x1) (y2 - y1) (x3 - x1) (y3 - y1)
    (lt_trans a1 c) (lt_trans a2 c') (lt_trans a3 c) (lt_trans a4 c')
  obtain ⟨ss, es, hss⟩ := crossproduct_exact (x - x1) (y - y1) (x3 - x1) (y3 - y1)
    (lt_trans a5 c) (lt_trans a6 c') (lt_trans a3 c) (lt_trans a4 c')
  obtain ⟨st, et, hst⟩ := crossproduct_exact (x2 - x1) (y2 - y1) (x - x1) (y - y1)
    (lt_trans a1 c) (lt_trans a2 c') (lt_trans a5 c) (lt_trans a6 c')
  rw [ed, es, et]
  exact F32.bary_test _ _ _ ss st sd hd (cpInt_natAbs_lt _ _ _ _ a1 a2 a3 a4)
    (lt_trans (cpInt_natAbs_lt _ _ _ _ a5 a6 a3 a4) c2)
    (lt_trans (cpInt_natAbs_lt _ _ _ _ a1 a2 a5 a6) c2) hss hst (hsd hd)

theorem box_in_viewport (a b c lim x : Int) (ha : 0 ≤ a ∧ a ≤ lim) (hb : 0 ≤ b ∧ b ≤ lim)
    (hc : 0 ≤ c ∧ c ≤ lim) (h : int_min a (int_min b c) ≤ x ∧ x < int_max a (int_max b c)) :
    0 ≤ x ∧ x ≤ lim := by
  rw [int_min_le_iff, int_min_le_iff, lt_int_max_iff, lt_int_max_iff] at h
  omega

/-- Membership in the output of `generate_triangle_barycentric` for a non-collinear
in-range triangle, with the barycentric conditions written without division. -/
theorem mem_generate_triangle_barycentric (x1 y1 x2 y2 x3 y3 : Int)
    (hx1 : 0 ≤ x1 ∧ x1 ≤ 800) (hy1 : 0 ≤ y1 ∧ y1 ≤ 600) (hx2 : 0 ≤ x2 ∧ x2 ≤ 800)
    (hy2 : 0 ≤ y2 ∧ y2 ≤ 600) (hx3 : 0 ≤ x3 ∧ x3 ≤ 800) (hy3 : 0 ≤ y3 ∧ y3 ≤ 600)
    (hd : cpInt (x2 - x1) (y2 - y1) (x3 - x1) (y3 - y1) ≠ 0) (x y : Int) :
    (x, y) ∈ generate_triangle_barycentric x1 y1 x2 y2 x3 y3 ↔
      (int_min x1 (int_min x2 x3) ≤ x ∧ x < int_max x1 (int_max x2 x3)) ∧
      (int_min y1 (int_min y2 y3) ≤ y ∧ y < int_max y1 (int_max y2 y3)) ∧
      0 ≤ cpInt (x - x1) (y - y1) (x3 - x1) (y3 - y1) *
        cpInt (x2 - x1) (y2 - y1) (x3 - x1) (y3 - y1) ∧
      0 ≤ cpInt (x2 - x1) (y2 - y1) (x - x1) (y - y1) *
        cpInt (x2 - x1) (y2 - y1) (x3 - x1) (y3 - y1) ∧
      (cpInt (x - x1) (y - y1) (x3 - x1) (y3 - y1) + cpInt (x2 - x1) (y2 - y1) (x - x1) (y - y1)) *
        cpInt (x2 - x1) (y2 - y1) (x3 - x1) (y3 - y1) ≤
        cpInt (x2 - x1) (y2 - y1) (x3 - x1) (y3 - y1) *
          cpInt (x2 - x1) (y2 - y1) (x3 - x1) (y3 - y1) := by
  rw [generate_triangle_barycentric_in_range x1 y1 x2 y2 x3 y3 hx1 hy1 hx2 hy2 hx3 hy3,
    List.mem_flatMap]
  constructor
  · rintro ⟨x', hx', hmem⟩
    rw [List.mem_filterMap] at hmem
    obtain ⟨y', hy', hsome⟩ := hmem
    split_ifs at hsome with htest
    have e := Option.some.inj hsome
    have ex : x' = x := congrArg Prod.fst e
    have ey : y' = y := congrArg Prod.snd e
    subst ex
    subst ey
    rw [mem_loopRange] at hx' hy'
    exact ⟨hx', hy', (inclusion_test_iff x1 y1 x2 y2 x3 y3 hx1 hy1 hx2 hy2 hx3 hy3 hd x' y'
      (box_in_viewport _ _ _ _ _ hx1 hx2 hx3 hx') (box_in_viewport _ _ _ _ _ hy1 hy2 hy3 hy')).mp
      htest⟩
  · rintro ⟨hx', hy', htest⟩
    refine ⟨x, (mem_loopRange _ _ _).mpr hx', ?_⟩
    rw [List.mem_filterMap]
    refine ⟨y, (mem_loopRange _ _ _).mpr hy', ?_⟩
    rw [if_pos]
    exact (inclusion_test_iff x1 y1 x2 y2 x3 y3 hx1 hy1 hx2 hy2 hx3 hy3 hd x y
      (box_in_viewport _ _ _ _ _ hx1 hx2 hx3 hx') (box_in_viewport _ _ _ _ _ hy1 hy2 hy3 hy')).mpr
      htest

theorem int_min_eq (a b : Int) : int_min a b = min a b := by
  unfold int_min
  split_ifs <;> omega

theorem int_max_eq (a b : Int) : int_max a b = max a b := by
  unfold int_max
  split_ifs <;> omega

theorem ratio_nonneg_iff (n d : Int) (hd : d ≠ 0) : 0 ≤ (n : ℚ) / (d : ℚ) ↔ 0 ≤ n * d := by
  have hd' : (d : ℚ) ≠ 0 := by exact_mod_cast hd
  have hdd : (0 : ℚ) < (d : ℚ) * (d : ℚ) := mul_self_pos.mpr hd'
  have e : (n : ℚ) / (d : ℚ) = ((n * d : Int) : ℚ) / ((d : ℚ) * (d : ℚ)) := by
    push_cast
    field_simp
    ring
  rw [e]
  constructor
  · intro h
    by_contra hc
    have hneg : ((n * d : Int) : ℚ) < 0 := by exact_mod_cast (not_le.mp hc)
    exact absurd h (not_le.mpr (div_neg_of_neg_of_pos hneg hdd))
  · intro h
    have : (0 : ℚ) ≤ ((n * d : Int) : ℚ) := by exact_mod_cast h
    exact div_nonneg this (le_of_lt hdd)

theorem ratio_sum_le_one_iff (n m d : Int) (hd : d ≠ 0) :
    (n : ℚ) / (d : ℚ) + (m : ℚ) / (d : ℚ) ≤ 1 ↔ (n + m) * d ≤ d * d := by
  have h := ratio_nonneg_iff (d - (n + m)) d hd
  have e : ((d - (n + m) : Int) : ℚ) / (d : ℚ) = 1 - ((n : ℚ) / (d : ℚ) + (m : ℚ) / (d : ℚ)) := by
    have hd' : (d : ℚ) ≠ 0 := by exact_mod_cast hd
    push_cast
    field_simp
  rw [e] at h
  constructor
  · intro h1
    have := h.mp (by linarith)
    linarith
  · intro h1
    have := h.mpr (by linarith)
    linarith

/-- Membership in the output of `generate_triangle_barycentric`, with exact rational
barycentric parameters. -/
theorem mem_generate_triangle_barycentric_rat (x1 y1 x2 y2 x3 y3 : Int)
    (hx1 : 0 ≤ x1 ∧ x1 ≤ 800) (hy1 : 0 ≤ y1 ∧ y1 ≤ 600) (hx2 : 0 ≤ x2 ∧ x2 ≤ 800)
    (hy2 : 0 ≤ y2 ∧ y2 ≤ 600) (hx3 : 0 ≤ x3 ∧ x3 ≤ 800) (hy3 : 0 ≤ y3 ∧ y3 ≤ 600)
    (hd : cpInt (x2 - x1) (y2 - y1) (x3 - x1) (y3 - y1) ≠ 0) (x y : Int) :
    (x, y) ∈ generate_triangle_barycentric x1 y1 x2 y2 x3 y3 ↔
      (min x1 (min x2 x3) ≤ x ∧ x < max x1 (max x2 x3)) ∧
      (min y1 (min y2 y3) ≤ y ∧ y < max y1 (max y2 y3)) ∧
      0 ≤ baryS x1 y1 x2 y2 x3 y3 x y ∧ 0 ≤ baryT x1 y1 x2 y2 x3 y3 x y ∧
      baryS x1 y1 x2 y2 x3 y3 x y + baryT x1 y1 x2 y2 x3 y3 x y ≤ 1 := by
  rw [mem_generate_triangle_barycentric x1 y1 x2 y2 x3 y3 hx1 hy1 hx2 hy2 hx3 hy3 hd]
  unfold baryS baryT
  rw [ratio_nonneg_iff _ _ hd, ratio_nonneg_iff _ _ hd, ratio_sum_le_one_iff _ _ _ hd]
  simp only [int_min_eq, int_max_eq]

/-- Claim C1. For every non-collinear integer triangle whose vertices lie in
`[0, WIDTH] × [0, HEIGHT]`, a pixel `(x, y)` is returned by
`generate_triangle_barycentric` exactly when it lies in the bounding box of the
vertices (exclusive of its max edges) and its exact barycentric parameters satisfy
`s ≥ 0`, `t ≥ 0`, `s + t ≤ 1`; for the triangle `(0,0), (10,0), (0,10)` pixel `(1,1)`
is included and pixel `(9,9)` is excluded. -/
theorem C1_barycentric_membership :
    (∀ x1 y1 x2 y2 x3 y3 : Int,
      (0 ≤ x1 ∧ x1 ≤ (WIDTH : Int)) → (0 ≤ y1 ∧ y1 ≤ (HEIGHT : Int)) →
      (0 ≤ x2 ∧ x2 ≤ (WIDTH : Int)) → (0 ≤ y2 ∧ y2 ≤ (HEIGHT : Int)) →
      (0 ≤ x3 ∧ x3 ≤ (WIDTH : Int)) → (0 ≤ y3 ∧ y3 ≤ (HEIGHT : Int)) →
      cpInt (x2 - x1) (y2 - y1) (x3 - x1) (y3 - y1) ≠ 0 →
      ∀ x y : Int,
        ((x, y) ∈ generate_triangle_barycentric x1 y1 x2 y2 x3 y3 ↔
          (min x1 (min x2 x3) ≤ x ∧ x < max x1 (max x2 x3)) ∧
          (min y1 (min y2 y3) ≤ y ∧ y < max y1 (max y2 y3)) ∧
          0 ≤ baryS x1 y1 x2 y2 x3 y3 x y ∧ 0 ≤ baryT x1 y1 x2 y2 x3 y3 x y ∧
          baryS x1 y1 x2 y2 x3 y3 x y + baryT x1 y1 x2 y2 x3 y3 x y ≤ 1)) ∧
    (1, 1) ∈ generate_triangle_barycentric 0 0 10 0 0 10 ∧
    (9, 9) ∉ generate_triangle_barycentric 0 0 10 0 0 10 := by
  refine ⟨fun x1 y1 x2 y2 x3 y3 hx1 hy1 hx2 hy2 hx3 hy3 hd x y =>
    mem_generate_triangle_barycentric_rat x1 y1 x2 y2 x3 y3 hx1 hy1 hx2 hy2 hx3 hy3 hd x y, ?_, ?_⟩
  · rw [mem_generate_triangle_barycentric 0 0 10 0 0 10 (by decide) (by decide) (by decide)
      (by decide) (by decide) (by decide) (by decide)]
    decide
  · rw [mem_generate_triangle_barycentric 0 0 10 0 0 10 (by decide) (by decide) (by decide)
      (by decide) (by decide) (by decide) (by decide)]
    decide

/-- Witness of C1 at the triangle `(0,0), (10,0), (0,10)` and the pixel `(1,1)`. -/
theorem C1_barycentric_membership_witness :
    ((1, 1) ∈ generate_triangle_barycentric 0 0 10 0 0 10 ↔
      (min (0 : Int) (min 10 0) ≤ 1 ∧ (1 : Int) < max 0 (max 10 0)) ∧
      (min (0 : Int) (min 0 10) ≤ 1 ∧ (1 : Int) < max 0 (max 0 10)) ∧
      0 ≤ baryS 0 0 10 0 0 10 1 1 ∧ 0 ≤ baryT 0 0 10 0 0 10 1 1 ∧
      baryS 0 0 10 0 0 10 1 1 + baryT 0 0 10 0 0 10 1 1 ≤ 1) :=
  C1_barycentric_membership.1 0 0 10 0 0 10 (by decide) (by decide) (by decide) (by decide)
    (by decide) (by decide) (by decide) 1 1

/-- Claim C2. If any of the three pixel-space vertices lies outside
`[0, WIDTH] × [0, HEIGHT]`, `generate_triangle_barycentric` returns the empty list. -/
theorem C2_out_of_range_triangle_dropped (x1 y1 x2 y2 x3 y3 : Int)
    (h : (x1 < 0 ∨ x1 > (WIDTH : Int) ∨ y1 < 0 ∨ y1 > (HEIGHT : Int)) ∨
      (x2 < 0 ∨ x2 > (WIDTH : Int) ∨ y2 < 0 ∨ y2 > (HEIGHT : Int)) ∨
      (x3 < 0 ∨ x3 > (WIDTH : Int) ∨ y3 < 0 ∨ y3 > (HEIGHT : Int))) :
    generate_triangle_barycentric x1 y1 x2 y2 x3 y3 = [] := by
  unfold generate_triangle_barycentric
  by_cases g1 : x1 > (WIDTH : Int)
  · exact if_pos g1
  rw [if_neg g1]
  by_cases g2 : x2 > (WIDTH : Int)
  · exact if_pos g2
  rw [if_neg g2]
  by_cases g3 : x3 > (WIDTH : Int)
  · exact if_pos g3
  rw [if_neg g3]
  by_cases g4 : x1 < 0
  · exact if_pos g4
  rw [if_neg g4]
  by_cases g5 : x2 < 0
  · exact if_pos g5
  rw [if_neg g5]
  by_cases g6 : x3 < 0
  · exact if_pos g6
  rw [if_neg g6]
  by_cases g7 : y1 < 0
  · exact if_pos g7
  rw [if_neg g7]
  by_cases g8 : y2 < 0
  · exact if_pos g8
  rw [if_neg g8]
  by_cases g9 : y3 < 0
  · exact if_pos g9
  rw [if_neg g9]
  by_cases g10 : y1 > (HEIGHT : Int)
  · exact if_pos g10
  rw [if_neg g10]
  by_cases g11 : y2 > (HEIGHT : Int)
  · exact if_pos g11
  rw [if_neg g11]
  by_cases g12 : y3 > (HEIGHT : Int)
  · exact if_pos g12
  rw [if_neg g12]
  exfalso
  clear * - h g1 g2 g3 g4 g5 g6 g7 g8 g9 g10 g11 g12
  omega

/-- Witness of C2: the vertex `(801, 0)` is outside the viewport. -/
theorem C2_out_of_range_triangle_dropped_witness :
    generate_triangle_barycentric 0 0 801 0 0 10 = [] :=
  C2_out_of_range_triangle_dropped 0 0 801 0 0 10 (by decide)

/-- Counterexample to C3 as stated: the triangle `(0,1), (1,0), (1,1)` lies in the
viewport and is not collinear, yet no pixel is returned for it. -/
theorem C3_counterexample :
    cpInt (1 - 0) (0 - 1) (1 - 0) (1 - 1) ≠ 0 ∧ generate_triangle_barycentric 0 1 1 0 1 1 = [] := by
  constructor
  · decide
  · decide

theorem vertex_conditions (d : Int) :
    0 ≤ (0 : Int) * d ∧ 0 ≤ d * d ∧ (0 + 0) * d ≤ d * d ∧ (d + 0) * d ≤ d * d ∧
      (0 + d) * d ≤ d * d := by
  have h := mul_self_nonneg d
  refine ⟨by simp, h, by simpa using h, by simp, by simp⟩

theorem cpInt_self (a b : Int) : cpInt a b a b = 0 := by
  unfold cpInt
  ring

theorem cpInt_zero_left (a b : Int) : cpInt 0 0 a b = 0 := by
  unfold cpInt
  ring

theorem cpInt_zero_right (a b : Int) : cpInt a b 0 0 = 0 := by
  unfold cpInt
  ring

/-- Claim C3, amended. For a non-collinear triangle with vertices in
`[0, WIDTH] × [0, HEIGHT]`, the returned list is non-empty exactly when some pixel of the
half-open bounding box satisfies the barycentric conditions; in particular every vertex
that lies strictly below both max edges of the bounding box is returned. -/
theorem C3_nonempty_amended (x1 y1 x2 y2 x3 y3 : Int)
    (hx1 : 0 ≤ x1 ∧ x1 ≤ (WIDTH : Int)) (hy1 : 0 ≤ y1 ∧ y1 ≤ (HEIGHT : Int))
    (hx2 : 0 ≤ x2 ∧ x2 ≤ (WIDTH : Int)) (hy2 : 0 ≤ y2 ∧ y2 ≤ (HEIGHT : Int))
    (hx3 : 0 ≤ x3 ∧ x3 ≤ (WIDTH : Int)) (hy3 : 0 ≤ y3 ∧ y3 ≤ (HEIGHT : Int))
    (hd : cpInt (x2 - x1) (y2 - y1) (x3 - x1) (y3 - y1) ≠ 0) :
    (generate_triangle_barycentric x1 y1 x2 y2 x3 y3 ≠ [] ↔
      ∃ x y : Int, (min x1 (min x2 x3) ≤ x ∧ x < max x1 (max x2 x3)) ∧
        (min y1 (min y2 y3) ≤ y ∧ y < max y1 (max y2 y3)) ∧
        0 ≤ baryS x1 y1 x2 y2 x3 y3 x y ∧ 0 ≤ baryT x1 y1 x2 y2 x3 y3 x y ∧
        baryS x1 y1 x2 y2 x3 y3 x y + baryT x1 y1 x2 y2 x3 y3 x y ≤ 1) ∧
    (∀ v ∈ [(x1, y1), (x2, y2), (x3, y3)],
      v.1 < max x1 (max x2 x3) → v.2 < max y1 (max y2 y3) →
      v ∈ generate_triangle_barycentric x1 y1 x2 y2 x3 y3) := by
  constructor
  · constructor
    · intro hne
      obtain ⟨v, hv⟩ := List.exists_mem_of_ne_nil _ hne
      obtain ⟨x, y⟩ := v
      exact ⟨x, y, (mem_generate_triangle_barycentric_rat x1 y1 x2 y2 x3 y3 hx1 hy1 hx2 hy2 hx3
        hy3 hd x y).mp hv⟩
    · rintro ⟨x, y, h⟩
      exact List.ne_nil_of_mem ((mem_generate_triangle_barycentric_rat x1 y1 x2 y2 x3 y3 hx1 hy1
        hx2 hy2 hx3 hy3 hd x y).mpr h)
  · intro v hv hvx hvy
    obtain ⟨c1, c2, c3, c4, c5⟩ := vertex_conditions (cpInt (x2 - x1) (y2 - y1) (x3 - x1) (y3 - y1))
    simp only [List.mem_cons, List.mem_singleton, List.not_mem_nil, or_false] at hv
    rcases hv with rfl | rfl | rfl
    · rw [mem_generate_triangle_barycentric x1 y1 x2 y2 x3 y3 hx1 hy1 hx2 hy2 hx3 hy3 hd]
      simp only [int_min_eq, int_max_eq, sub_self, cpInt_zero_left, cpInt_zero_right]
      exact ⟨⟨min_le_left _ _, hvx⟩, ⟨min_le_left _ _, hvy⟩, c1, c1, c3⟩
    · rw [mem_generate_triangle_barycentric x1 y1 x2 y2 x3 y3 hx1 hy1 hx2 hy2 hx3 hy3 hd]
      simp only [int_min_eq, int_max_eq, cpInt_self]
      exact ⟨⟨le_trans (min_le_right _ _) (min_le_left _ _), hvx⟩,
        ⟨le_trans (min_le_right _ _) (min_le_left _ _), hvy⟩, c2, c1, c4⟩
    · rw [mem_generate_triangle_barycentric x1 y1 x2 y2 x3 y3 hx1 hy1 hx2 hy2 hx3 hy3 hd]
      simp only [int_min_eq, int_max_eq, cpInt_self]
      exact ⟨⟨le_trans (min_le_right _ _) (min_le_right _ _), hvx⟩,
        ⟨le_trans (min_le_right _ _) (min_le_right _ _), hvy⟩, c1, c2, c5⟩

/-- Witness of the amended C3 at the triangle `(0,0), (10,0), (0,10)`. -/
theorem C3_nonempty_amended_witness :
    (generate_triangle_barycentric 0 0 10 0 0 10 ≠ [] ↔
      ∃ x y : Int, (min 0 (min 10 0) ≤ x ∧ x < max 0 (max 10 0)) ∧
        (min 0 (min 0 10) ≤ y ∧ y < max 0 (max 0 10)) ∧
        0 ≤ baryS 0 0 10 0 0 10 x y ∧ 0 ≤ baryT 0 0 10 0 0 10 x y ∧
        baryS 0 0 10 0 0 10 x y + baryT 0 0 10 0 0 10 x y ≤ 1) ∧
    (∀ v ∈ [((0 : Int), (0 : Int)), (10, 0), (0, 10)],
      v.1 < max 0 (max 10 0) → v.2 < max 0 (max 0 10) →
      v ∈ generate_triangle_barycentric 0 0 10 0 0 10) :=
  C3_nonempty_amended 0 0 10 0 0 10 (by decide) (by decide) (by decide) (by decide)
    (by decide) (by decide) (by decide)

/-! ## Compositing -/

namespace F32

theorem gt_eq_false_of_ge (z d : F32) (h : ge z d = true) : gt d z = false := by
  unfold ge at h
  unfold gt
  rcases z with _ | s | ⟨s, a⟩ <;> rcases d with _ | t | ⟨t, b⟩
  · rfl
  · rfl
  · rfl
  · rfl
  · revert h
    cases s <;> cases t <;> simp [le, lt]
  · revert h
    cases s <;> simp [le, lt]
  · rfl
  · revert h
    cases t <;> simp [le, lt]
  · simp only [le, lt, decide_eq_true_eq, decide_eq_false_iff_not, not_lt] at h ⊢
    exact h

end F32

theorem Grid.read_eq {α : Type} (g : Grid α) (y x : Int)
    (h : 0 ≤ y ∧ y < (HEIGHT : Int) ∧ 0 ≤ x ∧ x < (WIDTH : Int)) :
    g.read y x = some (g ⟨y.toNat, by omega⟩ ⟨x.toNat, by omega⟩) := by
  unfold Grid.read
  rw [dif_pos h]

theorem Grid.write_eq {α : Type} (g : Grid α) (y x : Int) (v : α)
    (h : 0 ≤ y ∧ y < (HEIGHT : Int) ∧ 0 ≤ x ∧ x < (WIDTH : Int)) :
    g.write y x v = some (g.set y x v) := by
  unfold Grid.write
  rw [if_pos h]
  rfl

theorem Grid.read_cell {α : Type} (g : Grid α) (i : Fin HEIGHT) (j : Fin WIDTH) :
    g.read (i.val : Int) (j.val : Int) = some (g i j) := by
  have hi := i.isLt
  have hj := j.isLt
  rw [Grid.read_eq g _ _ (by omega)]
  simp

theorem Grid.set_same {α : Type} (g : Grid α) (i : Fin HEIGHT) (j : Fin WIDTH) (v : α) :
    g.set (i.val : Int) (j.val : Int) v i j = v := by
  simp [Grid.set]

theorem Grid.set_other {α : Type} (g : Grid α) (y x : Int) (i : Fin HEIGHT) (j : Fin WIDTH)
    (v : α) (h : ¬ ((i.val : Int) = y ∧ (j.val : Int) = x)) : g.set y x v i j = g i j := by
  unfold Grid.set
  rw [if_neg h]

/-- A sample outside the image leaves the buffers alone. -/
theorem colour_framebuffer_z_step_out (c : Colour) (s : Grid Colour × Grid F32) (p : pixel_z)
    (h : ¬ p.inBounds) : colour_framebuffer_z_step c s p = some s := by
  unfold colour_framebuffer_z_step
  unfold pixel_z.inBounds at h
  by_cases g1 : p.x < 0
  · exact if_pos g1
  rw [if_neg g1]
  by_cases g2 : p.x ≥ (WIDTH : Int)
  · exact if_pos g2
  rw [if_neg g2]
  by_cases g3 : p.y < 0
  · exact if_pos g3
  rw [if_neg g3]
  by_cases g4 : p.y ≥ (HEIGHT : Int)
  · exact if_pos g4
  exfalso
  omega

/-- A sample on the cell `(i, j)` passes the depth test or is skipped. -/
theorem colour_framebuffer_z_step_cell (c : Colour) (s : Grid Colour × Grid F32)
    (i : Fin HEIGHT) (j : Fin WIDTH) (z : F32) :
    colour_framebuffer_z_step c s ⟨(j.val : Int), (i.val : Int), z⟩ =
      if F32.gt (s.2 i j) z then some s
      else some (s.1.set (i.val : Int) (j.val : Int) c, s.2.set (i.val : Int) (j.val : Int) z) := by
  have hi := i.isLt
  have hj := j.isLt
  unfold colour_framebuffer_z_step
  dsimp only
  have g1 : ¬ ((j.val : Int) < 0) := by omega
  have g2 : ¬ ((j.val : Int) ≥ (WIDTH : Int)) := by omega
  have g3 : ¬ ((i.val : Int) < 0) := by omega
  have g4 : ¬ ((i.val : Int) ≥ (HEIGHT : Int)) := by omega
  rw [if_neg g1, if_neg g2, if_neg g3, if_neg g4]
  rw [Grid.read_cell, Option.some_bind]
  split_ifs with h
  · rfl
  · rw [Grid.write_eq _ _ _ _ (by omega), Grid.write_eq _ _ _ _ (by omega)]
    rfl

/-- Every in-bounds sample is a sample on some cell. -/
theorem pixel_z.eq_cell (p : pixel_z) (h : p.inBounds) :
    ∃ (i : Fin HEIGHT) (j : Fin WIDTH), p = ⟨(j.val : Int), (i.val : Int), p.z⟩ := by
  unfold pixel_z.inBounds at h
  refine ⟨⟨p.y.toNat, by omega⟩, ⟨p.x.toNat, by omega⟩, ?_⟩
  obtain ⟨x, y, z⟩ := p
  simp only [pixel_z.mk.injEq, and_true]
  simp only at h
  constructor <;> simp <;> omega

/-- Claim C4. Depth test on a single in-bounds sample `(x, y, z)` with stored depth
`D = zbuffer[y][x]`: if `z < D` the colour and the depth of that pixel are unchanged, if
`z >= D` they become `c` and `z`; every other cell of both buffers is unchanged. -/
theorem C4_depth_test (framebuffer : Grid Colour) (zbuffer : Grid F32) (c : Colour)
    (i : Fin HEIGHT) (j : Fin WIDTH) (z : F32) :
    ∃ fb zb, colour_framebuffer_z framebuffer zbuffer [⟨(j.val : Int), (i.val : Int), z⟩] c
        = some (fb, zb) ∧
      (F32.lt z (zbuffer i j) = true → fb i j = framebuffer i j ∧ zb i j = zbuffer i j) ∧
      (F32.ge z (zbuffer i j) = true → fb i j = c ∧ zb i j = z) ∧
      (∀ (i' : Fin HEIGHT) (j' : Fin WIDTH), ¬ (i' = i ∧ j' = j) →
        fb i' j' = framebuffer i' j' ∧ zb i' j' = zbuffer i' j') := by
  unfold colour_framebuffer_z
  simp only [List.foldlM, colour_framebuffer_z_step_cell]
  by_cases h : F32.gt (zbuffer i j) z = true
  · refine ⟨framebuffer, zbuffer, ?_, fun _ => ⟨rfl, rfl⟩, ?_, fun _ _ _ => ⟨rfl, rfl⟩⟩
    · simp [h]
    · intro hge
      rw [F32.gt_eq_false_of_ge z _ hge] at h
      exact absurd h (by decide)
  · refine ⟨framebuffer.set i.val j.val c, zbuffer.set i.val j.val z, ?_, ?_, ?_, ?_⟩
    · simp [h]
    · intro hlt
      exact absurd hlt h
    · intro _
      exact ⟨Grid.set_same _ _ _ _, Grid.set_same _ _ _ _⟩
    · intro i' j' hne
      have hne' : ¬ (((i'.val : Nat) : Int) = (i.val : Int) ∧ ((j'.val : Nat) : Int) = (j.val : Int)) := by
        intro hc
        apply hne
        exact ⟨Fin.ext (by exact_mod_cast hc.1), Fin.ext (by exact_mod_cast hc.2)⟩
      exact ⟨Grid.set_other _ _ _ _ _ _ hne', Grid.set_other _ _ _ _ _ _ hne'⟩

namespace F32

theorem le_refl_of_ne_nan (x : F32) (h : x ≠ nan) : le x x = true := by
  rcases x with _ | s | ⟨s, a⟩
  · exact absurd rfl h
  · cases s <;> rfl
  · simp [le]

theorem le_trans' (x y z : F32) (h1 : le x y = true) (h2 : le y z = true) : le x z = true := by
  rcases x with _ | s | ⟨s, a⟩ <;> rcases y with _ | t | ⟨t, b⟩ <;> rcases z with _ | u | ⟨u, c⟩ <;>
    simp only [le, Bool.or_eq_true, Bool.not_eq_true', decide_eq_true_eq] at h1 h2 ⊢ <;>
    first
      | exact absurd h1 (by decide)
      | exact absurd h2 (by decide)
      | omega
      | (revert h1 h2; cases s <;> cases t <;> cases u <;> simp)

theorem le_of_not_gt (d z : F32) (hd : d ≠ nan) (hz : z ≠ nan) (h : gt d z = false) :
    le d z = true := by
  unfold gt at h
  rcases d with _ | s | ⟨s, a⟩ <;> rcases z with _ | t | ⟨t, b⟩
  · exact absurd rfl hd
  · exact absurd rfl hd
  · exact absurd rfl hd
  · exact absurd rfl hz
  · revert h
    cases s <;> cases t <;> simp [le, lt]
  · revert h
    cases s <;> simp [le, lt]
  · exact absurd rfl hz
  · revert h
    cases t <;> simp [le, lt]
  · simp only [le, lt, decide_eq_true_eq, decide_eq_false_iff_not, not_lt] at h ⊢
    exact h

theorem le_of_gt (d z : F32) (h : gt d z = true) : le z d = true := by
  unfold gt at h
  rcases d with _ | s | ⟨s, a⟩ <;> rcases z with _ | t | ⟨t, b⟩
  · exact absurd h (by decide)
  · exact absurd h (by simp [lt])
  · exact absurd h (by simp [lt])
  · exact absurd h (by simp [lt])
  · revert h
    cases s <;> cases t <;> simp [le, lt]
  · revert h
    cases s <;> simp [le, lt]
  · exact absurd h (by simp [lt])
  · revert h
    cases t <;> simp [le, lt]
  · simp only [le, lt, decide_eq_true_eq] at h ⊢
    exact le_of_lt h

end F32

/-- Every step of the compositing loop completes. -/
theorem colour_framebuffer_z_step_total (c : Colour) (s : Grid Colour × Grid F32) (p : pixel_z) :
    ∃ s', colour_framebuffer_z_step c s p = some s' := by
  by_cases h : p.inBounds
  · obtain ⟨i, j, e⟩ := p.eq_cell h
    rw [e, colour_framebuffer_z_step_cell]
    split_ifs
    · exact ⟨_, rfl⟩
    · exact ⟨_, rfl⟩
  · exact ⟨s, colour_framebuffer_z_step_out c s p h⟩

theorem colour_framebuffer_z_cons (fb : Grid Colour) (zb : Grid F32) (p : pixel_z)
    (ps : List pixel_z) (c : Colour) (s' : Grid Colour × Grid F32)
    (h : colour_framebuffer_z_step c (fb, zb) p = some s') :
    colour_framebuffer_z fb zb (p :: ps) c = colour_framebuffer_z s'.1 s'.2 ps c := by
  unfold colour_framebuffer_z
  rw [List.foldlM_cons, h]
  rfl

/-- Claim C5. `colour_framebuffer_z` completes on every sample list, whatever the
coordinates (no index out of range), and its result is the result of compositing only
the samples with `0 <= x < WIDTH` and `0 <= y < HEIGHT`. -/
theorem C5_out_of_range_samples_ignored (framebuffer : Grid Colour) (zbuffer : Grid F32)
    (pixels : List pixel_z) (colour : Colour) :
    ∃ r, colour_framebuffer_z framebuffer zbuffer pixels colour = some r ∧
      colour_framebuffer_z framebuffer zbuffer
        (pixels.filter fun p => decide p.inBounds) colour = some r := by
  induction pixels generalizing framebuffer zbuffer with
  | nil => exact ⟨(framebuffer, zbuffer), rfl, rfl⟩
  | cons p ps ih =>
    by_cases h : p.inBounds
    · obtain ⟨s', hs'⟩ := colour_framebuffer_z_step_total colour (framebuffer, zbuffer) p
      obtain ⟨r, h1, h2⟩ := ih s'.1 s'.2
      refine ⟨r, ?_, ?_⟩
      · rw [colour_framebuffer_z_cons _ _ _ _ _ _ hs']
        exact h1
      · rw [List.filter_cons_of_pos (by simpa using h),
          colour_framebuffer_z_cons _ _ _ _ _ _ hs']
        exact h2
    · obtain ⟨r, h1, h2⟩ := ih framebuffer zbuffer
      refine ⟨r, ?_, ?_⟩
      · rw [colour_framebuffer_z_cons _ _ _ _ _ _
          (colour_framebuffer_z_step_out colour (framebuffer, zbuffer) p h)]
        exact h1
      · rw [List.filter_cons_of_neg (by simpa using h)]
        exact h2

/-! ## Clearing the buffers -/

theorem clear_buffers_cell_eq (x y : Nat) (hx : x < WIDTH) (hy : y < HEIGHT)
    (s : Grid Colour × Grid F32) :
    clear_buffers_cell x s y =
      some (s.1.set y x (0, 0, 0), s.2.set y x (F32.neg F32.maxFloat32)) := by
  unfold clear_buffers_cell
  rw [Grid.write_eq _ _ _ _ (by omega), Grid.write_eq _ _ _ _ (by omega)]
  rfl

/-- The inner loop of `clear_buffers`: after `n` rounds the first `n` rows of column `x`
are reset. -/
theorem clear_buffers_column (x : Nat) (hx : x < WIDTH) (s : Grid Colour × Grid F32) :
    ∀ n, n ≤ HEIGHT →
      (List.range n).foldlM (clear_buffers_cell x) s =
        some (fun i j => if j.val = x ∧ i.val < n then (0, 0, 0) else s.1 i j,
          fun i j => if j.val = x ∧ i.val < n then F32.neg F32.maxFloat32 else s.2 i j) := by
  intro n
  induction n with
  | zero =>
    intro _
    simp
  | succ n ih =>
    intro hn
    have e : List.range (n + 1) = List.range n ++ [n] := List.range_succ _
    rw [e, List.foldlM_append, ih (by omega)]
    simp only [Option.bind_eq_bind, Option.some_bind, List.foldlM_cons, List.foldlM_nil]
    rw [clear_buffers_cell_eq x n hx (by omega)]
    simp only [Option.some_bind, pure]
    congr 1
    apply Prod.ext
    · funext i j
      simp only [Grid.set]
      have hi := i.isLt
      split_ifs <;> first | rfl | (exfalso; omega)
    · funext i j
      simp only [Grid.set]
      have hi := i.isLt
      split_ifs <;> first | rfl | (exfalso; omega)

/-- The outer loop of `clear_buffers`: after `m` rounds the first `m` columns are reset. -/
theorem clear_buffers_columns (s : Grid Colour × Grid F32) :
    ∀ m, m ≤ WIDTH →
      (List.range m).foldlM
          (fun s x => (List.range HEIGHT).foldlM (clear_buffers_cell x) s) s =
        some (fun i j => if j.val < m then (0, 0, 0) else s.1 i j,
          fun i j => if j.val < m then F32.neg F32.maxFloat32 else s.2 i j) := by
  intro m
  induction m with
  | zero =>
    intro _
    simp
  | succ m ih =>
    intro hm
    have e : List.range (m + 1) = List.range m ++ [m] := List.range_succ _
    rw [e, List.foldlM_append, ih (by omega)]
    simp only [Option.bind_eq_bind, Option.some_bind, List.foldlM_cons, List.foldlM_nil]
    rw [clear_buffers_column m (by omega) _ HEIGHT (le_refl _)]
    simp only [Option.some_bind, pure]
    congr 1
    apply Prod.ext
    · funext i j
      have hi := i.isLt
      simp only
      split_ifs <;> first | rfl | (exfalso; omega)
    · funext i j
      have hi := i.isLt
      simp only
      split_ifs <;> first | rfl | (exfalso; omega)

/-- The buffers produced by `clear_buffers`. -/
theorem clear_buffers_eq (framebuffer : Grid Colour) (zbuffer : Grid F32) :
    clear_buffers framebuffer zbuffer =
      some (fun _ _ => (0, 0, 0), fun _ _ => F32.neg F32.maxFloat32) := by
  unfold clear_buffers
  rw [clear_buffers_columns _ WIDTH (le_refl _)]
  congr 1
  apply Prod.ext
  · funext i j
    have hj := j.isLt
    simp only
    rw [if_pos hj]
  · funext i j
    have hj := j.isLt
    simp only
    rw [if_pos hj]

/-! ## The depth buffer as a running maximum -/

theorem samplesAt_cons_same (i : Fin HEIGHT) (j : Fin WIDTH) (z : F32) (ps : List pixel_z) :
    samplesAt (⟨(j.val : Int), (i.val : Int), z⟩ :: ps) i j = z :: samplesAt ps i j := by
  unfold samplesAt
  rw [List.filter_cons_of_pos (by simp)]
  rfl

theorem samplesAt_cons_other (p : pixel_z) (i : Fin HEIGHT) (j : Fin WIDTH) (ps : List pixel_z)
    (h : ¬ (p.y = (i.val : Int) ∧ p.x = (j.val : Int))) :
    samplesAt (p :: ps) i j = samplesAt ps i j := by
  unfold samplesAt
  rw [List.filter_cons_of_neg (by simpa using h)]

theorem samplesAt_append (ps qs : List pixel_z) (i : Fin HEIGHT) (j : Fin WIDTH) :
    samplesAt (ps ++ qs) i j = samplesAt ps i j ++ samplesAt qs i j := by
  unfold samplesAt
  rw [List.filter_append, List.map_append]

theorem depthAfter_append (d : F32) (l1 l2 : List F32) :
    depthAfter d (l1 ++ l2) = depthAfter (depthAfter d l1) l2 := by
  unfold depthAfter
  rw [List.foldl_append]

/-- The depth buffer after a call holds, in every cell, the result of testing the
samples of that cell in turn. -/
theorem colour_framebuffer_z_zbuffer (c : Colour) (pixels : List pixel_z) :
    ∀ (fb : Grid Colour) (zb : Grid F32),
      ∃ fb' zb', colour_framebuffer_z fb zb pixels c = some (fb', zb') ∧
        ∀ i j, zb' i j = depthAfter (zb i j) (samplesAt pixels i j) := by
  induction pixels with
  | nil =>
    intro fb zb
    exact ⟨fb, zb, rfl, fun _ _ => rfl⟩
  | cons p ps ih =>
    intro fb zb
    by_cases h : p.inBounds
    · obtain ⟨i0, j0, e⟩ := p.eq_cell h
      rw [e]
      have hstep := colour_framebuffer_z_step_cell c (fb, zb) i0 j0 p.z
      by_cases hgt : F32.gt (zb i0 j0) p.z = true
      · rw [if_pos hgt] at hstep
        obtain ⟨fb', zb', h1, h2⟩ := ih fb zb
        refine ⟨fb', zb', ?_, ?_⟩
        · rw [colour_framebuffer_z_cons _ _ _ _ _ _ hstep]
          exact h1
        · intro i j
          rw [h2 i j]
          by_cases hc : i = i0 ∧ j = j0
          · obtain ⟨rfl, rfl⟩ := hc
            rw [samplesAt_cons_same]
            show _ = depthAfter (if F32.gt (zb i j) p.z then zb i j else p.z) _
            rw [if_pos hgt]
          · rw [samplesAt_cons_other]
            intro hc'
            apply hc
            simp only at hc'
            exact ⟨Fin.ext (by exact_mod_cast hc'.1.symm), Fin.ext (by exact_mod_cast hc'.2.symm)⟩
      · rw [if_neg hgt] at hstep
        obtain ⟨fb', zb', h1, h2⟩ := ih (fb.set i0.val j0.val c) (zb.set i0.val j0.val p.z)
        refine ⟨fb', zb', ?_, ?_⟩
        · rw [colour_framebuffer_z_cons _ _ _ _ _ _ hstep]
          exact h1
        · intro i j
          rw [h2 i j]
          by_cases hc : i = i0 ∧ j = j0
          · obtain ⟨rfl, rfl⟩ := hc
            rw [samplesAt_cons_same, Grid.set_same]
            show _ = depthAfter (if F32.gt (zb i j) p.z then zb i j else p.z) _
            rw [if_neg hgt]
          · have hc' : ¬ (((i.val : Nat) : Int) = (i0.val : Int) ∧ ((j.val : Nat) : Int) = (j0.val : Int)) := by
              intro hc'
              apply hc
              exact ⟨Fin.ext (by exact_mod_cast hc'.1), Fin.ext (by exact_mod_cast hc'.2)⟩
            rw [Grid.set_other _ _ _ _ _ _ hc', samplesAt_cons_other]
            intro hc''
            exact hc' ⟨hc''.1.symm, hc''.2.symm⟩
    · obtain ⟨fb', zb', h1, h2⟩ := ih fb zb
      refine ⟨fb', zb', ?_, ?_⟩
      · rw [colour_framebuffer_z_cons _ _ _ _ _ _
          (colour_framebuffer_z_step_out c (fb, zb) p h)]
        exact h1
      · intro i j
        rw [h2 i j, samplesAt_cons_other]
        intro hc
        apply h
        unfold pixel_z.inBounds
        have hi := i.isLt
        have hj := j.isLt
        omega

/-- The depth buffer after a sequence of calls. -/
theorem composite_all_zbuffer (calls : List (List pixel_z × Colour)) :
    ∀ (s : Grid Colour × Grid F32),
      ∃ fb' zb', composite_all s calls = some (fb', zb') ∧
        ∀ i j, zb' i j = depthAfter (s.2 i j) (samplesAt (calls.flatMap fun call => call.1) i j) := by
  induction calls with
  | nil =>
    intro s
    exact ⟨s.1, s.2, rfl, fun _ _ => rfl⟩
  | cons call calls ih =>
    intro s
    obtain ⟨fb1, zb1, h1, h2⟩ := colour_framebuffer_z_zbuffer call.2 call.1 s.1 s.2
    obtain ⟨fb2, zb2, h3, h4⟩ := ih (fb1, zb1)
    refine ⟨fb2, zb2, ?_, ?_⟩
    · unfold composite_all at h3 ⊢
      rw [List.foldlM_cons, h1]
      exact h3
    · intro i j
      rw [h4 i j, List.flatMap_cons, samplesAt_append, depthAfter_append]
      simp only
      rw [h2 i j]

theorem depthAfter_ne_nan (zs : List F32) :
    ∀ d, d ≠ F32.nan → (∀ z ∈ zs, z ≠ F32.nan) → depthAfter d zs ≠ F32.nan := by
  induction zs with
  | nil =>
    intro d hd _
    exact hd
  | cons z zs ih =>
    intro d hd hz
    show depthAfter (if F32.gt d z then d else z) zs ≠ F32.nan
    apply ih
    · split_ifs
      · exact hd
      · exact hz z (List.mem_cons_self _ _)
    · intro z' hz'
      exact hz z' (List.mem_cons_of_mem _ hz')

/-- Without NaN, the stored depth is a maximum of the initial depth and the samples. -/
theorem depthAfter_isMaxOf (zs : List F32) :
    ∀ d, d ≠ F32.nan → (∀ z ∈ zs, z ≠ F32.nan) → F32.IsMaxOf (depthAfter d zs) (d :: zs) := by
  induction zs with
  | nil =>
    intro d hd _
    refine ⟨List.mem_singleton.mpr rfl, ?_⟩
    intro z hz
    rw [List.mem_singleton] at hz
    subst hz
    exact F32.le_refl_of_ne_nan _ hd
  | cons z zs ih =>
    intro d hd hz
    have hz0 : z ≠ F32.nan := hz z (List.mem_cons_self _ _)
    have hzs : ∀ z' ∈ zs, z' ≠ F32.nan := fun z' hz' => hz z' (List.mem_cons_of_mem _ hz')
    show F32.IsMaxOf (depthAfter (if F32.gt d z then d else z) zs) (d :: z :: zs)
    by_cases hgt : F32.gt d z = true
    · rw [if_pos hgt]
      obtain ⟨m1, m2⟩ := ih d hd hzs
      refine ⟨?_, ?_⟩
      · rcases List.mem_cons.mp m1 with e | e
        · rw [e]
          exact List.mem_cons_self _ _
        · exact List.mem_cons_of_mem _ (List.mem_cons_of_mem _ e)
      · intro w hw
        rcases List.mem_cons.mp hw with e | e
        · rw [e]
          exact m2 d (List.mem_cons_self _ _)
        · rcases List.mem_cons.mp e with e' | e'
          · rw [e']
            exact F32.le_trans' _ _ _ (F32.le_of_gt d z hgt) (m2 d (List.mem_cons_self _ _))
          · exact m2 w (List.mem_cons_of_mem _ e')
    · rw [if_neg hgt]
      obtain ⟨m1, m2⟩ := ih z hz0 hzs
      refine ⟨List.mem_cons_of_mem _ m1, ?_⟩
      intro w hw
      rcases List.mem_cons.mp hw with e | e
      · rw [e]
        exact F32.le_trans' _ _ _ (F32.le_of_not_gt d z hd hz0 (by simpa using hgt))
          (m2 z (List.mem_cons_self _ _))
      · exact m2 w e

theorem mem_samplesAt (pixels : List pixel_z) (i : Fin HEIGHT) (j : Fin WIDTH) (z : F32)
    (h : z ∈ samplesAt pixels i j) : ∃ p ∈ pixels, p.z = z := by
  unfold samplesAt at h
  rw [List.mem_map] at h
  obtain ⟨p, hp, e⟩ := h
  exact ⟨p, (List.mem_filter.mp hp).1, e⟩

/-- Witness of C4: a sample of depth 7 on the pixel `(3, 2)` that holds depth 5 passes
the depth test and overwrites colour and depth. -/
theorem C4_depth_test_witness :
    ∃ fb zb, colour_framebuffer_z (fun _ _ => (0, 0, 0)) (fun _ _ => F32.ofInt 5)
        [⟨3, 2, F32.ofInt 7⟩] (255, 0, 0) = some (fb, zb) ∧
      fb ⟨2, by decide⟩ ⟨3, by decide⟩ = (255, 0, 0) ∧
      zb ⟨2, by decide⟩ ⟨3, by decide⟩ = F32.ofInt 7 := by
  obtain ⟨fb, zb, h1, -, h3, -⟩ := C4_depth_test (fun _ _ => (0, 0, 0)) (fun _ _ => F32.ofInt 5)
    (255, 0, 0) ⟨2, by decide⟩ ⟨3, by decide⟩ (F32.ofInt 7)
  exact ⟨fb, zb, h1, h3 (by decide)⟩

theorem F32.lt_nan_right (x : F32) : F32.lt x F32.nan = false := by
  cases x <;> rfl

theorem F32.neg_maxFloat32_ne_nan : F32.neg F32.maxFloat32 ≠ F32.nan := by
  decide

/-- Counterexample to C6 as stated: from cleared buffers, a first call stores depth 5 in
pixel `(0, 0)`; a second call with a NaN sample followed by a sample of depth 1 leaves
depth 1 there, which is below the depth 5 stored before that call and is not the
maximum of the depths processed. -/
theorem C6_counterexample :
    ((clear_buffers (fun _ _ => (0, 0, 0)) (fun _ _ => F32.ofInt 0)).bind fun s0 =>
        (colour_framebuffer_z s0.1 s0.2 [⟨0, 0, F32.ofInt 5⟩] (255, 0, 0)).bind fun s1 =>
          (colour_framebuffer_z s1.1 s1.2 [⟨0, 0, F32.nan⟩, ⟨0, 0, F32.ofInt 1⟩] (0, 255, 0)).map
            fun s2 => (s1.2 ⟨0, by decide⟩ ⟨0, by decide⟩, s2.2 ⟨0, by decide⟩ ⟨0, by decide⟩)) =
      some (F32.ofInt 5, F32.ofInt 1) ∧
    F32.lt (F32.ofInt 1) (F32.ofInt 5) = true := by
  constructor
  · rw [clear_buffers_eq, Option.some_bind]
    obtain ⟨fb1, zb1, h1, h1'⟩ := colour_framebuffer_z_zbuffer (255, 0, 0)
      [⟨0, 0, F32.ofInt 5⟩] (fun _ _ => (0, 0, 0)) (fun _ _ => F32.neg F32.maxFloat32)
    simp only
    rw [h1, Option.some_bind]
    obtain ⟨fb2, zb2, h2, h2'⟩ := colour_framebuffer_z_zbuffer (0, 255, 0)
      [⟨0, 0, F32.nan⟩, ⟨0, 0, F32.ofInt 1⟩] fb1 zb1
    simp only
    rw [h2, Option.map_some']
    simp only
    rw [h2', h1']
    decide
  · decide

/-- Claim C6, amended. When no sample depth is NaN: starting from the buffers produced
by `clear_buffers`, after any sequence of `colour_framebuffer_z` calls every cell of the
depth buffer holds a maximum of the clear sentinel and the depths of the samples
processed at that cell; and a single call never decreases a cell of the depth buffer. -/
theorem C6_depth_maximum_amended :
    (∀ (fb0 : Grid Colour) (zb0 : Grid F32) (calls : List (List pixel_z × Colour)),
      (∀ call ∈ calls, ∀ p ∈ call.1, p.z ≠ F32.nan) →
      ∃ fb zb, (clear_buffers fb0 zb0).bind (fun s => composite_all s calls) = some (fb, zb) ∧
        ∀ i j, F32.IsMaxOf (zb i j)
          (F32.neg F32.maxFloat32 :: samplesAt (calls.flatMap fun call => call.1) i j)) ∧
    (∀ (fb : Grid Colour) (zb : Grid F32) (pixels : List pixel_z) (c : Colour),
      (∀ p ∈ pixels, p.z ≠ F32.nan) →
      ∃ fb' zb', colour_framebuffer_z fb zb pixels c = some (fb', zb') ∧
        ∀ i j, F32.lt (zb' i j) (zb i j) = false) := by
  constructor
  · intro fb0 zb0 calls hnan
    rw [clear_buffers_eq, Option.some_bind]
    obtain ⟨fb, zb, h1, h2⟩ := composite_all_zbuffer calls
      (fun _ _ => (0, 0, 0), fun _ _ => F32.neg F32.maxFloat32)
    refine ⟨fb, zb, h1, ?_⟩
    intro i j
    rw [h2 i j]
    apply depthAfter_isMaxOf _ _ F32.neg_maxFloat32_ne_nan
    intro z hz
    obtain ⟨p, hp, e⟩ := mem_samplesAt _ _ _ _ hz
    obtain ⟨call, hcall, hp'⟩ := List.mem_flatMap.mp hp
    rw [← e]
    exact hnan call hcall p hp'
  · intro fb zb pixels c hnan
    obtain ⟨fb', zb', h1, h2⟩ := colour_framebuffer_z_zbuffer c pixels fb zb
    refine ⟨fb', zb', h1, ?_⟩
    intro i j
    by_cases hd : zb i j = F32.nan
    · rw [hd]
      exact F32.lt_nan_right _
    · rw [h2 i j]
      have hmax := depthAfter_isMaxOf (samplesAt pixels i j) (zb i j) hd (by
        intro z hz
        obtain ⟨p, hp, e⟩ := mem_samplesAt _ _ _ _ hz
        rw [← e]
        exact hnan p hp)
      exact F32.gt_eq_false_of_ge _ _ (hmax.2 _ (List.mem_cons_self _ _))

/-- Witness of the amended C6: one call with two samples on pixel `(0, 0)`. -/
theorem C6_depth_maximum_amended_witness :
    ∃ fb zb, (clear_buffers (fun _ _ => (9, 9, 9)) (fun _ _ => F32.nan)).bind
        (fun s => composite_all s [([⟨0, 0, F32.ofInt 5⟩, ⟨0, 0, F32.ofInt 1⟩], (255, 0, 0))])
        = some (fb, zb) ∧
      ∀ i j, F32.IsMaxOf (zb i j) (F32.neg F32.maxFloat32 ::
        samplesAt ([([⟨0, 0, F32.ofInt 5⟩, ⟨0, 0, F32.ofInt 1⟩], ((255, 0, 0) : Colour))].flatMap
          fun call => call.1) i j) :=
  C6_depth_maximum_amended.1 (fun _ _ => (9, 9, 9)) (fun _ _ => F32.nan)
    [([⟨0, 0, F32.ofInt 5⟩, ⟨0, 0, F32.ofInt 1⟩], (255, 0, 0))] (by decide)

/-- Counterexample to C7 as stated: after `clear_buffers` the depth of pixel `(0, 0)` is
`-math.MaxFloat32`, which is a finite number and not negative infinity. -/
theorem C7_counterexample :
    (clear_buffers (fun _ _ => (1, 2, 3)) (fun _ _ => F32.ofInt 0)).map
        (fun s => s.2 ⟨0, by decide⟩ ⟨0, by decide⟩) = some (F32.fin true ((2 ^ 24 - 1) * 2 ^ 253)) ∧
      F32.fin true ((2 ^ 24 - 1) * 2 ^ 253) ≠ F32.inf true := by
  constructor
  · rw [clear_buffers_eq]
    rfl
  · decide

/-- Claim C7, amended. For every prior content of the buffers, `clear_buffers` completes
and afterwards every framebuffer cell is `(0, 0, 0)` and every depth cell is
`-math.MaxFloat32`, the most negative finite binary32 number `-(2^24 - 1) * 2^104`, which
is strictly above negative infinity. -/
theorem C7_clear_buffers_amended (framebuffer : Grid Colour) (zbuffer : Grid F32) :
    ∃ fb zb, clear_buffers framebuffer zbuffer = some (fb, zb) ∧
      ∀ i j, fb i j = (0, 0, 0) ∧ zb i j = F32.fin true ((2 ^ 24 - 1) * 2 ^ 253) ∧
        F32.lt (F32.inf true) (zb i j) = true := by
  refine ⟨_, _, clear_buffers_eq framebuffer zbuffer, ?_⟩
  intro i j
  exact ⟨rfl, rfl, rfl⟩

/-! ## Projection and depth estimate -/

/-- When the guard `p.z + camera.z == 0` holds, `to_screen_space` returns the vertex. -/
theorem to_screen_space_guarded (p camera : point3d)
    (h : F32.beq (F32.add p.z camera.z) (F32.ofInt 0) = true) : to_screen_space p camera = p := by
  unfold to_screen_space
  rw [if_pos h]

/-- When the guard `p.z + camera.z == 0` fails, `to_screen_space` applies the projection
formula, whatever the divisor `camera.z` is. -/
theorem to_screen_space_unguarded (p camera : point3d)
    (h : F32.beq (F32.add p.z camera.z) (F32.ofInt 0) = false) :
    to_screen_space p camera =
      { x := F32.div (F32.add p.x camera.x) camera.z,
        y := F32.div (F32.mul (F32.ofInt (-1)) (F32.add p.y camera.y)) camera.z,
        z := p.z } := by
  unfold to_screen_space
  rw [if_neg (by rw [h]; decide)]

/-- Claim C8, defect of the code. With the vertex `(1, 1, 1)` and the camera `(0, 0, 0)` the
divisor `camera.z` is zero, but the guard tests `p.z + camera.z`, which is `1`:
`to_screen_space` divides by zero and returns `(+Inf, -Inf, 1)` instead of the vertex. -/
theorem C8_zero_camera_depth_not_guarded :
    F32.beq (F32.ofInt 0) (F32.ofInt 0) = true ∧
    to_screen_space ⟨F32.ofInt 1, F32.ofInt 1, F32.ofInt 1⟩ ⟨F32.ofInt 0, F32.ofInt 0, F32.ofInt 0⟩
      = ⟨F32.inf false, F32.inf true, F32.ofInt 1⟩ ∧
    to_screen_space ⟨F32.ofInt 1, F32.ofInt 1, F32.ofInt 1⟩ ⟨F32.ofInt 0, F32.ofInt 0, F32.ofInt 0⟩
      ≠ ⟨F32.ofInt 1, F32.ofInt 1, F32.ofInt 1⟩ := by
  decide

/-- Claim C9, defect of the code. With the vertex `(1, 1, -1)` and the camera `(0, 0, 1)` the
divisor `camera.z` is `1`, not zero, but the guard `p.z + camera.z == 0` fires:
`to_screen_space` returns the vertex `(1, 1, -1)` unprojected, where the projection
formula gives `(1, -1, -1)`. -/
theorem C9_projection_skipped_by_guard :
    F32.beq (F32.ofInt 1) (F32.ofInt 0) = false ∧
    to_screen_space ⟨F32.ofInt 1, F32.ofInt 1, F32.ofInt (-1)⟩
        ⟨F32.ofInt 0, F32.ofInt 0, F32.ofInt 1⟩
      = ⟨F32.ofInt 1, F32.ofInt 1, F32.ofInt (-1)⟩ ∧
    projection_formula ⟨F32.ofInt 1, F32.ofInt 1, F32.ofInt (-1)⟩
        ⟨F32.ofInt 0, F32.ofInt 0, F32.ofInt 1⟩
      = ⟨F32.ofInt 1, F32.ofInt (-1), F32.ofInt (-1)⟩ := by
  decide

/-- Claim C10, defect of the code. For the triangle `p1 = (0, 0, 0)`, `p2 = (1/128, 0, 1)`,
`p3 = (1/64, 1/64, 0)` the `z` component of `normal` is `-2^(-13)` where the cross
product of the edge vectors has `2^(-13)`; the first sample returned, pixel `(400, 300)`,
has depth `-12800` where the plane equation with the cross product gives `12802`. -/
theorem C10_normal_z_is_not_cross_product :
    (normal (edge ⟨F32.ofInt 0, F32.ofInt 0, F32.ofInt 0⟩ ⟨F32.ofDyadic 1 7, F32.ofInt 0, F32.ofInt 1⟩)
      (edge ⟨F32.ofInt 0, F32.ofInt 0, F32.ofInt 0⟩
        ⟨F32.ofDyadic 1 6, F32.ofDyadic 1 6, F32.ofInt 0⟩)).z = F32.ofDyadic (-1) 13 ∧
    (cross_product
      (edge ⟨F32.ofInt 0, F32.ofInt 0, F32.ofInt 0⟩ ⟨F32.ofDyadic 1 7, F32.ofInt 0, F32.ofInt 1⟩)
      (edge ⟨F32.ofInt 0, F32.ofInt 0, F32.ofInt 0⟩
        ⟨F32.ofDyadic 1 6, F32.ofDyadic 1 6, F32.ofInt 0⟩)).z = F32.ofDyadic 1 13 ∧
    (generate_triangle ⟨F32.ofInt 0, F32.ofInt 0, F32.ofInt 0⟩
      ⟨F32.ofDyadic 1 7, F32.ofInt 0, F32.ofInt 1⟩
      ⟨F32.ofDyadic 1 6, F32.ofDyadic 1 6, F32.ofInt 0⟩).head? =
        some ⟨400, 300, F32.ofInt (-12800)⟩ ∧
    get_z_from_pixel
      (cross_product
        (edge ⟨F32.ofInt 0, F32.ofInt 0, F32.ofInt 0⟩ ⟨F32.ofDyadic 1 7, F32.ofInt 0, F32.ofInt 1⟩)
        (edge ⟨F32.ofInt 0, F32.ofInt 0, F32.ofInt 0⟩
          ⟨F32.ofDyadic 1 6, F32.ofDyadic 1 6, F32.ofInt 0⟩))
      (edge ⟨F32.ofInt 0, F32.ofInt 0, F32.ofInt 0⟩ ⟨F32.ofDyadic 1 7, F32.ofInt 0, F32.ofInt 1⟩)
      400 300 = ⟨400, 300, F32.ofInt 12802⟩ := by
  refine ⟨by decide, by decide, ?_, by decide⟩
  decide

/-! ## Unconditional write and empty mesh -/

/-- Claim C15, defect of the code. The pixel `(0, 4294967296)` passes both guards of
`colour_framebuffer`, because `int32(4294967296)` is `0`, and the write to
`framebuffer[4294967296][0]` is an index out of range: the call panics. -/
theorem C15_int32_truncation_defeats_bounds_check (framebuffer : Grid Colour) (colour : Colour) :
    int32 4294967296 = 0 ∧
    colour_framebuffer framebuffer [(0, 4294967296)] colour = none := by
  constructor
  · decide
  · rfl

/-- When every coordinate is below `2^31`, `colour_framebuffer` completes, writes the
colour to the listed pixels that are inside the image and leaves the other cells alone. -/
theorem colour_framebuffer_small (colour : Colour) (polygon : List (Int × Int))
    (hsmall : ∀ q ∈ polygon, q.1 < 2 ^ 31 ∧ q.2 < 2 ^ 31) :
    ∀ framebuffer : Grid Colour,
      ∃ fb, colour_framebuffer framebuffer polygon colour = some fb ∧
        ∀ (i : Fin HEIGHT) (j : Fin WIDTH),
          fb i j = if ((j.val : Int), (i.val : Int)) ∈ polygon then colour else framebuffer i j := by
  induction polygon with
  | nil =>
    intro framebuffer
    exact ⟨framebuffer, rfl, fun i j => by simp⟩
  | cons q qs ih =>
    intro framebuffer
    have hq := hsmall q (List.mem_cons_self _ _)
    have hqs : ∀ q' ∈ qs, q'.1 < 2 ^ 31 ∧ q'.2 < 2 ^ 31 :=
      fun q' h => hsmall q' (List.mem_cons_of_mem _ h)
    obtain ⟨x, y⟩ := q
    simp only at hq
    unfold colour_framebuffer
    rw [List.foldlM_cons]
    by_cases hin : 0 ≤ y ∧ y < (HEIGHT : Int) ∧ 0 ≤ x ∧ x < (WIDTH : Int)
    · have e1 : int32 y = y := by unfold int32; omega
      have e2 : int32 x = x := by unfold int32; omega
      have hstep : colour_framebuffer_step colour framebuffer (x, y)
          = some (framebuffer.set y x colour) := by
        unfold colour_framebuffer_step
        simp only [e1, e2]
        rw [if_neg (by omega), if_neg (by omega)]
        exact Grid.write_eq _ _ _ _ hin
      rw [hstep]
      obtain ⟨fb, h1, h2⟩ := ih hqs (framebuffer.set y x colour)
      refine ⟨fb, h1, ?_⟩
      intro i j
      rw [h2 i j]
      by_cases hm : ((j.val : Int), (i.val : Int)) ∈ qs
      · rw [if_pos hm, if_pos (List.mem_cons_of_mem _ hm)]
      · rw [if_neg hm]
        by_cases hc : (i.val : Int) = y ∧ (j.val : Int) = x
        · rw [if_pos (by rw [hc.1, hc.2]; exact List.mem_cons_self _ _)]
          unfold Grid.set
          rw [if_pos hc]
        · rw [Grid.set_other _ _ _ _ _ _ hc, if_neg]
          intro hmem
          rcases List.mem_cons.mp hmem with e | e
          · apply hc
            have e' := Prod.mk.inj e
            exact ⟨e'.2, e'.1⟩
          · exact hm e
    · have hstep : colour_framebuffer_step colour framebuffer (x, y) = some framebuffer := by
        unfold colour_framebuffer_step
        simp only
        by_cases g1 : y < 0 ∨ int32 y ≥ (HEIGHT : Int)
        · rw [if_pos g1]
        · rw [if_neg g1]
          by_cases g2 : x < 0 ∨ int32 x ≥ (WIDTH : Int)
          · rw [if_pos g2]
          · exfalso
            unfold int32 at g1 g2
            omega
      rw [hstep]
      obtain ⟨fb, h1, h2⟩ := ih hqs framebuffer
      refine ⟨fb, h1, ?_⟩
      intro i j
      rw [h2 i j]
      by_cases hm : ((j.val : Int), (i.val : Int)) ∈ qs
      · rw [if_pos hm, if_pos (List.mem_cons_of_mem _ hm)]
      · rw [if_neg hm, if_neg]
        intro hmem
        rcases List.mem_cons.mp hmem with e | e
        · apply hin
          have e' := Prod.mk.inj e
          have hi := i.isLt
          have hj := j.isLt
          omega
        · exact hm e

/-- Claim C16, defect of the code. On the empty text `strings.Split` returns one empty
line, and the first loop of `obj_to_triangle` reads the first character of that line:
the call panics with an index out of range instead of returning an empty list. -/
theorem C16_empty_mesh_panics (ParseFloat : List Char → F32) (Atoi : List Char → Int) :
    splitOn '\n' [] = [[]] ∧ obj_to_triangle ParseFloat Atoi [] = none := by
  constructor
  · rfl
  · rfl

/-! ## Degenerate triangles -/

/-- A triangle with a vertex outside `[0, WIDTH] × [0, HEIGHT]` is dropped. -/
theorem generate_triangle_barycentric_outside (x1 y1 x2 y2 x3 y3 : Int)
    (h : ¬ ((0 ≤ x1 ∧ x1 ≤ 800) ∧ (0 ≤ y1 ∧ y1 ≤ 600) ∧ (0 ≤ x2 ∧ x2 ≤ 800) ∧
      (0 ≤ y2 ∧ y2 ≤ 600) ∧ (0 ≤ x3 ∧ x3 ≤ 800) ∧ (0 ≤ y3 ∧ y3 ≤ 600))) :
    generate_triangle_barycentric x1 y1 x2 y2 x3 y3 = [] := by
  unfold generate_triangle_barycentric
  by_cases g1 : x1 > (WIDTH : Int)
  · exact if_pos g1
  rw [if_neg g1]
  by_cases g2 : x2 > (WIDTH : Int)
  · exact if_pos g2
  rw [if_neg g2]
  by_cases g3 : x3 > (WIDTH : Int)
  · exact if_pos g3
  rw [if_neg g3]
  by_cases g4 : x1 < 0
  · exact if_pos g4
  rw [if_neg g4]
  by_cases g5 : x2 < 0
  · exact if_pos g5
  rw [if_neg g5]
  by_cases g6 : x3 < 0
  · exact if_pos g6
  rw [if_neg g6]
  by_cases g7 : y1 < 0
  · exact if_pos g7
  rw [if_neg g7]
  by_cases g8 : y2 < 0
  · exact if_pos g8
  rw [if_neg g8]
  by_cases g9 : y3 < 0
  · exact if_pos g9
  rw [if_neg g9]
  by_cases g10 : y1 > (HEIGHT : Int)
  · exact if_pos g10
  rw [if_neg g10]
  by_cases g11 : y2 > (HEIGHT : Int)
  · exact if_pos g11
  rw [if_neg g11]
  by_cases g12 : y3 > (HEIGHT : Int)
  · exact if_pos g12
  exfalso
  have hW : ((WIDTH : Nat) : Int) = 800 := rfl
  have hH : ((HEIGHT : Nat) : Int) = 600 := rfl
  clear * - h g1 g2 g3 g4 g5 g6 g7 g8 g9 g10 g11 g12 hW hH
  omega

namespace F32

/-- A quotient by a zero is NaN or an infinity. -/
theorem div_zero_not_finite (ss sd : Bool) (a : Nat) :
    div (fin ss a) (fin sd 0) = nan ∨ ∃ s, div (fin ss a) (fin sd 0) = inf s := by
  by_cases h : a = 0
  · left
    simp [div, h]
  · right
    exact ⟨xor ss sd, by simp [div, h]⟩

/-- With a zero denominator the inclusion test of the rasterizer fails. -/
theorem zero_div_test (ss st sd : Bool) (a b : Nat) :
    (ge (div (fin ss a) (fin sd 0)) (ofInt 0) &&
      ge (div (fin st b) (fin sd 0)) (ofInt 0) &&
      le (add (div (fin ss a) (fin sd 0)) (div (fin st b) (fin sd 0))) (ofInt 1)) = false := by
  rw [ofInt_zero, ofInt_one]
  by_cases ha : a = 0 <;> by_cases hb : b = 0 <;>
    cases ss <;> cases st <;> cases sd <;> simp [div, ha, hb, ge, le, add]

end F32

theorem cpInt_antisymm (a b c d : Int) : cpInt c d a b = - cpInt a b c d := by
  unfold cpInt
  ring

/-- The inclusion test at a pixel of the viewport fails for a collinear in-range triangle,
and both barycentric parameters are NaN or infinite there. -/
theorem inclusion_test_collinear (x1 y1 x2 y2 x3 y3 : Int)
    (hx1 : 0 ≤ x1 ∧ x1 ≤ 800) (hy1 : 0 ≤ y1 ∧ y1 ≤ 600) (hx2 : 0 ≤ x2 ∧ x2 ≤ 800)
    (hy2 : 0 ≤ y2 ∧ y2 ≤ 600) (hx3 : 0 ≤ x3 ∧ x3 ≤ 800) (hy3 : 0 ≤ y3 ∧ y3 ≤ 600)
    (hd : cpInt (x2 - x1) (y2 - y1) (x3 - x1) (y3 - y1) = 0) (x y : Int)
    (hx : 0 ≤ x ∧ x ≤ 800) (hy : 0 ≤ y ∧ y ≤ 600) :
    (F32.ge (F32.div (crossproduct (x - x1) (y - y1) (x3 - x1) (y3 - y1))
          (crossproduct (x2 - x1) (y2 - y1) (x3 - x1) (y3 - y1))) (F32.ofInt 0) &&
        F32.ge (F32.div (crossproduct (x2 - x1) (y2 - y1) (x - x1) (y - y1))
          (crossproduct (x2 - x1) (y2 - y1) (x3 - x1) (y3 - y1))) (F32.ofInt 0) &&
        F32.le (F32.add
          (F32.div (crossproduct (x - x1) (y - y1) (x3 - x1) (y3 - y1))
            (crossproduct (x2 - x1) (y2 - y1) (x3 - x1) (y3 - y1)))
          (F32.div (crossproduct (x2 - x1) (y2 - y1) (x - x1) (y - y1))
            (crossproduct (x2 - x1) (y2 - y1) (x3 - x1) (y3 - y1)))) (F32.ofInt 1)) = false ∧
    (F32.div (crossproduct (x - x1) (y - y1) (x3 - x1) (y3 - y1))
        (crossproduct (x2 - x1) (y2 - y1) (x3 - x1) (y3 - y1)) = F32.nan ∨
      ∃ s, F32.div (crossproduct (x - x1) (y - y1) (x3 - x1) (y3 - y1))
        (crossproduct (x2 - x1) (y2 - y1) (x3 - x1) (y3 - y1)) = F32.inf s) ∧
    (F32.div (crossproduct (x2 - x1) (y2 - y1) (x - x1) (y - y1))
        (crossproduct (x2 - x1) (y2 - y1) (x3 - x1) (y3 - y1)) = F32.nan ∨
      ∃ s, F32.div (crossproduct (x2 - x1) (y2 - y1) (x - x1) (y - y1))
        (crossproduct (x2 - x1) (y2 - y1) (x3 - x1) (y3 - y1)) = F32.inf s) := by
  have a1 := natAbs_sub_lt_801 x2 x1 hx2 hx1
  have a2 := natAbs_sub_lt_601 y2 y1 hy2 hy1
  have a3 := natAbs_sub_lt_801 x3 x1 hx3 hx1
  have a4 := natAbs_sub_lt_601 y3 y1 hy3 hy1
  have a5 := natAbs_sub_lt_801 x x1 hx hx1
  have a6 := natAbs_sub_lt_601 y y1 hy hy1
  have c : (801 : Nat) < 2 ^ 11 := by norm_num
  have c' : (601 : Nat) < 2 ^ 11 := by norm_num
  obtain ⟨sd, ed, -⟩ := crossproduct_exact (x2 - x1) (y2 - y1) (x3 - x1) (y3 - y1)
    (lt_trans a1 c) (lt_trans a2 c') (lt_trans a3 c) (lt_trans a4 c')
  obtain ⟨ss, es, -⟩ := crossproduct_exact (x - x1) (y - y1) (x3 - x1) (y3 - y1)
    (lt_trans a5 c) (lt_trans a6 c') (lt_trans a3 c) (lt_trans a4 c')
  obtain ⟨st, et, -⟩ := crossproduct_exact (x2 - x1) (y2 - y1) (x - x1) (y - y1)
    (lt_trans a1 c) (lt_trans a2 c') (lt_trans a5 c) (lt_trans a6 c')
  rw [hd] at ed
  have ed' : crossproduct (x2 - x1) (y2 - y1) (x3 - x1) (y3 - y1) = F32.fin sd 0 := by
    rw [ed]
    simp
  rw [ed', es, et]
  exact ⟨F32.zero_div_test _ _ _ _ _, F32.div_zero_not_finite _ _ _, F32.div_zero_not_finite _ _ _⟩

/-- A collinear triangle yields no pixel. -/
theorem generate_triangle_barycentric_collinear (x1 y1 x2 y2 x3 y3 : Int)
    (hd : cpInt (x2 - x1) (y2 - y1) (x3 - x1) (y3 - y1) = 0) :
    generate_triangle_barycentric x1 y1 x2 y2 x3 y3 = [] := by
  by_cases hr : (0 ≤ x1 ∧ x1 ≤ 800) ∧ (0 ≤ y1 ∧ y1 ≤ 600) ∧ (0 ≤ x2 ∧ x2 ≤ 800) ∧
      (0 ≤ y2 ∧ y2 ≤ 600) ∧ (0 ≤ x3 ∧ x3 ≤ 800) ∧ (0 ≤ y3 ∧ y3 ≤ 600)
  · obtain ⟨hx1, hy1, hx2, hy2, hx3, hy3⟩ := hr
    rw [generate_triangle_barycentric_in_range x1 y1 x2 y2 x3 y3 hx1 hy1 hx2 hy2 hx3 hy3,
      List.eq_nil_iff_forall_not_mem]
    rintro ⟨x, y⟩ hmem
    rw [List.mem_flatMap] at hmem
    obtain ⟨x', hx', hmem⟩ := hmem
    rw [List.mem_filterMap] at hmem
    obtain ⟨y', hy', hsome⟩ := hmem
    rw [mem_loopRange] at hx' hy'
    rw [(inclusion_test_collinear x1 y1 x2 y2 x3 y3 hx1 hy1 hx2 hy2 hx3 hy3 hd x' y'
      (box_in_viewport _ _ _ _ _ hx1 hx2 hx3 hx') (box_in_viewport _ _ _ _ _ hy1 hy2 hy3 hy')).1]
      at hsome
    exact absurd hsome (by simp)
  · exact generate_triangle_barycentric_outside x1 y1 x2 y2 x3 y3 hr

/-- Claim C19. For every collinear triple of integer vertices (coincident vertices
included) `generate_triangle_barycentric` returns the empty list; when the triple lies in
the viewport, at every pixel of the viewport the two quotients by the zero cross product
are NaN or infinite (no failure is raised) and the inclusion test is false. -/
theorem C19_collinear_triangle_is_empty (x1 y1 x2 y2 x3 y3 : Int)
    (hd : cpInt (x2 - x1) (y2 - y1) (x3 - x1) (y3 - y1) = 0) :
    generate_triangle_barycentric x1 y1 x2 y2 x3 y3 = [] ∧
    ((0 ≤ x1 ∧ x1 ≤ (WIDTH : Int)) → (0 ≤ y1 ∧ y1 ≤ (HEIGHT : Int)) →
      (0 ≤ x2 ∧ x2 ≤ (WIDTH : Int)) → (0 ≤ y2 ∧ y2 ≤ (HEIGHT : Int)) →
      (0 ≤ x3 ∧ x3 ≤ (WIDTH : Int)) → (0 ≤ y3 ∧ y3 ≤ (HEIGHT : Int)) →
      ∀ x y : Int, (0 ≤ x ∧ x ≤ (WIDTH : Int)) → (0 ≤ y ∧ y ≤ (HEIGHT : Int)) →
        (F32.div (crossproduct (x - x1) (y - y1) (x3 - x1) (y3 - y1))
            (crossproduct (x2 - x1) (y2 - y1) (x3 - x1) (y3 - y1)) = F32.nan ∨
          ∃ s, F32.div (crossproduct (x - x1) (y - y1) (x3 - x1) (y3 - y1))
            (crossproduct (x2 - x1) (y2 - y1) (x3 - x1) (y3 - y1)) = F32.inf s) ∧
        (F32.div (crossproduct (x2 - x1) (y2 - y1) (x - x1) (y - y1))
            (crossproduct (x2 - x1) (y2 - y1) (x3 - x1) (y3 - y1)) = F32.nan ∨
          ∃ s, F32.div (crossproduct (x2 - x1) (y2 - y1) (x - x1) (y - y1))
            (crossproduct (x2 - x1) (y2 - y1) (x3 - x1) (y3 - y1)) = F32.inf s)) := by
  refine ⟨generate_triangle_barycentric_collinear x1 y1 x2 y2 x3 y3 hd, ?_⟩
  intro hx1 hy1 hx2 hy2 hx3 hy3 x y hx hy
  exact (inclusion_test_collinear x1 y1 x2 y2 x3 y3 hx1 hy1 hx2 hy2 hx3 hy3 hd x y hx hy).2

/-- Witness of C19: the three vertices `(0,0), (5,5), (10,10)` lie on a line. -/
theorem C19_collinear_triangle_is_empty_witness :
    generate_triangle_barycentric 0 0 5 5 10 10 = [] :=
  (C19_collinear_triangle_is_empty 0 0 5 5 10 10 (by decide)).1

/-! ## Winding order and edges -/

/-- Swapping the second and the third vertex does not change the inclusion test. -/
theorem inclusion_conditions_swap (A B D : Int) :
    (0 ≤ -B * -D ∧ 0 ≤ -A * -D ∧ (-B + -A) * -D ≤ -D * -D) ↔
    (0 ≤ A * D ∧ 0 ≤ B * D ∧ (A + B) * D ≤ D * D) := by
  have e1 : -B * -D = B * D := by ring
  have e2 : -A * -D = A * D := by ring
  have e3 : (-B + -A) * -D = (A + B) * D := by ring
  have e4 : -D * -D = D * D := by ring
  rw [e1, e2, e3, e4]
  constructor
  · rintro ⟨h1, h2, h3⟩
    exact ⟨h2, h1, h3⟩
  · rintro ⟨h1, h2, h3⟩
    exact ⟨h2, h1, h3⟩

theorem int_min_swap (a b c : Int) : int_min a (int_min c b) = int_min a (int_min b c) := by
  rw [int_min_eq, int_min_eq, int_min_eq, int_min_eq, min_comm c b]

theorem int_max_swap (a b c : Int) : int_max a (int_max c b) = int_max a (int_max b c) := by
  rw [int_max_eq, int_max_eq, int_max_eq, int_max_eq, max_comm c b]

/-- The list returned does not depend on the order of the second and third vertex. -/
theorem generate_triangle_barycentric_swap (x1 y1 x2 y2 x3 y3 : Int) :
    generate_triangle_barycentric x1 y1 x2 y2 x3 y3 =
      generate_triangle_barycentric x1 y1 x3 y3 x2 y2 := by
  by_cases hr : (0 ≤ x1 ∧ x1 ≤ 800) ∧ (0 ≤ y1 ∧ y1 ≤ 600) ∧ (0 ≤ x2 ∧ x2 ≤ 800) ∧
      (0 ≤ y2 ∧ y2 ≤ 600) ∧ (0 ≤ x3 ∧ x3 ≤ 800) ∧ (0 ≤ y3 ∧ y3 ≤ 600)
  · obtain ⟨hx1, hy1, hx2, hy2, hx3, hy3⟩ := hr
    by_cases hd : cpInt (x2 - x1) (y2 - y1) (x3 - x1) (y3 - y1) = 0
    · have hd' : cpInt (x3 - x1) (y3 - y1) (x2 - x1) (y2 - y1) = 0 := by
        rw [cpInt_antisymm, hd]
        rfl
      rw [generate_triangle_barycentric_collinear _ _ _ _ _ _ hd,
        generate_triangle_barycentric_collinear _ _ _ _ _ _ hd']
    · have hd' : cpInt (x3 - x1) (y3 - y1) (x2 - x1) (y2 - y1) ≠ 0 := by
        rw [cpInt_antisymm]
        exact neg_ne_zero.mpr hd
      rw [generate_triangle_barycentric_in_range x1 y1 x2 y2 x3 y3 hx1 hy1 hx2 hy2 hx3 hy3,
        generate_triangle_barycentric_in_range x1 y1 x3 y3 x2 y2 hx1 hy1 hx3 hy3 hx2 hy2,
        int_min_swap x1 x2 x3, int_max_swap x1 x2 x3, int_min_swap y1 y2 y3,
        int_max_swap y1 y2 y3]
      apply List.flatMap_congr
      intro x hx
      apply List.filterMap_congr
      intro y hy
      rw [mem_loopRange] at hx hy
      have bx := box_in_viewport _ _ _ _ _ hx1 hx2 hx3 hx
      have by1 := box_in_viewport _ _ _ _ _ hy1 hy2 hy3 hy
      have k1 := inclusion_test_iff x1 y1 x2 y2 x3 y3 hx1 hy1 hx2 hy2 hx3 hy3 hd x y bx by1
      have k2 := inclusion_test_iff x1 y1 x3 y3 x2 y2 hx1 hy1 hx3 hy3 hx2 hy2 hd' x y bx by1
      rw [cpInt_antisymm (x2 - x1) (y2 - y1) (x3 - x1) (y3 - y1),
        cpInt_antisymm (x - x1) (y - y1) (x3 - x1) (y3 - y1),
        cpInt_antisymm (x2 - x1) (y2 - y1) (x - x1) (y - y1),
        inclusion_conditions_swap] at k2
      have k3 := k1.trans k2.symm
      rw [Bool.eq_iff_iff.mpr k3]
  · have hr' : ¬ ((0 ≤ x1 ∧ x1 ≤ 800) ∧ (0 ≤ y1 ∧ y1 ≤ 600) ∧ (0 ≤ x3 ∧ x3 ≤ 800) ∧
        (0 ≤ y3 ∧ y3 ≤ 600) ∧ (0 ≤ x2 ∧ x2 ≤ 800) ∧ (0 ≤ y2 ∧ y2 ≤ 600)) := by
      intro h
      exact hr ⟨h.1, h.2.1, h.2.2.2.2.1, h.2.2.2.2.2, h.2.2.1, h.2.2.2.1⟩
    rw [generate_triangle_barycentric_outside _ _ _ _ _ _ hr,
      generate_triangle_barycentric_outside _ _ _ _ _ _ hr']

/-- Claim C14. `generate_triangle_barycentric` returns the same list of pixels when the
second and the third vertex are swapped (opposite winding), for all integer vertices. -/
theorem C14_winding_order_independence (x1 y1 x2 y2 x3 y3 : Int) :
    generate_triangle_barycentric x1 y1 x2 y2 x3 y3 =
      generate_triangle_barycentric x1 y1 x3 y3 x2 y2 :=
  generate_triangle_barycentric_swap x1 y1 x2 y2 x3 y3

/-- Counterexample to C13 as stated: for the triangle `(0,0), (3,0), (0,3)` the pixel
`(1, 2)` lies in the scanned box and exactly on the edge `p2`-`p3` (`s + t = 1`), and it
is returned. -/
theorem C13_counterexample :
    baryS 0 0 3 0 0 3 1 2 + baryT 0 0 3 0 0 3 1 2 = 1 ∧
    (1, 2) ∈ generate_triangle_barycentric 0 0 3 0 0 3 := by
  constructor
  · norm_num [baryS, baryT, cpInt]
  · decide

/-- Claim C13, amended. For every non-collinear in-range triangle, a pixel of the scanned
box (the bounding box exclusive of its max edges) that lies exactly on any of the three
edges of the triangle, `s = 0`, `t = 0` or `s + t = 1`, is included. -/
theorem C13_edges_amended (x1 y1 x2 y2 x3 y3 : Int)
    (hx1 : 0 ≤ x1 ∧ x1 ≤ (WIDTH : Int)) (hy1 : 0 ≤ y1 ∧ y1 ≤ (HEIGHT : Int))
    (hx2 : 0 ≤ x2 ∧ x2 ≤ (WIDTH : Int)) (hy2 : 0 ≤ y2 ∧ y2 ≤ (HEIGHT : Int))
    (hx3 : 0 ≤ x3 ∧ x3 ≤ (WIDTH : Int)) (hy3 : 0 ≤ y3 ∧ y3 ≤ (HEIGHT : Int))
    (hd : cpInt (x2 - x1) (y2 - y1) (x3 - x1) (y3 - y1) ≠ 0) (x y : Int)
    (hx : min x1 (min x2 x3) ≤ x ∧ x < max x1 (max x2 x3))
    (hy : min y1 (min y2 y3) ≤ y ∧ y < max y1 (max y2 y3)) :
    (baryS x1 y1 x2 y2 x3 y3 x y = 0 ∧ 0 ≤ baryT x1 y1 x2 y2 x3 y3 x y ∧
        baryT x1 y1 x2 y2 x3 y3 x y ≤ 1 →
      (x, y) ∈ generate_triangle_barycentric x1 y1 x2 y2 x3 y3) ∧
    (baryT x1 y1 x2 y2 x3 y3 x y = 0 ∧ 0 ≤ baryS x1 y1 x2 y2 x3 y3 x y ∧
        baryS x1 y1 x2 y2 x3 y3 x y ≤ 1 →
      (x, y) ∈ generate_triangle_barycentric x1 y1 x2 y2 x3 y3) ∧
    (baryS x1 y1 x2 y2 x3 y3 x y + baryT x1 y1 x2 y2 x3 y3 x y = 1 ∧
        0 ≤ baryS x1 y1 x2 y2 x3 y3 x y ∧ 0 ≤ baryT x1 y1 x2 y2 x3 y3 x y →
      (x, y) ∈ generate_triangle_barycentric x1 y1 x2 y2 x3 y3) := by
  have key := mem_generate_triangle_barycentric_rat x1 y1 x2 y2 x3 y3 hx1 hy1 hx2 hy2 hx3 hy3
    hd x y
  refine ⟨?_, ?_, ?_⟩
  · rintro ⟨h1, h2, h3⟩
    exact key.mpr ⟨hx, hy, by rw [h1], h2, by rw [h1, zero_add]; exact h3⟩
  · rintro ⟨h1, h2, h3⟩
    exact key.mpr ⟨hx, hy, h2, by rw [h1], by rw [h1, add_zero]; exact h3⟩
  · rintro ⟨h1, h2, h3⟩
    exact key.mpr ⟨hx, hy, h2, h3, le_of_eq h1⟩

/-- Witness of the amended C13: the pixel `(1, 2)` on the edge `s + t = 1` of the triangle
`(0,0), (3,0), (0,3)`. -/
theorem C13_edges_amended_witness :
    (1, 2) ∈ generate_triangle_barycentric 0 0 3 0 0 3 :=
  (C13_edges_amended 0 0 3 0 0 3 (by decide) (by decide) (by decide) (by decide) (by decide)
    (by decide) (by decide) 1 2 (by decide) (by decide)).2.2
    ⟨by norm_num [baryS, baryT, cpInt], by norm_num [baryS, cpInt],
      by norm_num [baryT, cpInt]⟩

/-! ## Order of the returned pixels -/

theorem pairwise_loopRange (lo hi : Int) : List.Pairwise (fun a b => a < b) (loopRange lo hi) := by
  unfold loopRange
  rw [List.pairwise_map]
  refine (List.pairwise_lt_range _).imp ?_
  intro a b hab
  omega

theorem pixel_lt_irrefl (a : Int × Int) : ¬ pixel_lt a a := by
  unfold pixel_lt
  omega

/-- The scan of an in-range triangle lists pixels of the half-open bounding box in
ascending `x`, then `y`, order, whatever the inclusion test is. -/
theorem scan_sorted (lo_x hi_x lo_y hi_y : Int) (test : Int → Int → Bool) :
    List.Pairwise pixel_lt
      ((loopRange lo_x hi_x).flatMap fun x =>
        (loopRange lo_y hi_y).filterMap fun y => if test x y then some (x, y) else none) ∧
    ∀ p ∈ ((loopRange lo_x hi_x).flatMap fun x =>
        (loopRange lo_y hi_y).filterMap fun y => if test x y then some (x, y) else none),
      (lo_x ≤ p.1 ∧ p.1 < hi_x) ∧ (lo_y ≤ p.2 ∧ p.2 < hi_y) := by
  have hmem : ∀ (x : Int) (p : Int × Int),
      p ∈ ((loopRange lo_y hi_y).filterMap fun y => if test x y then some (x, y) else none) →
      p.1 = x ∧ (lo_y ≤ p.2 ∧ p.2 < hi_y) := by
    intro x p hp
    rw [List.mem_filterMap] at hp
    obtain ⟨y, hy, hsome⟩ := hp
    split_ifs at hsome
    have e := Option.some.inj hsome
    rw [← e]
    exact ⟨rfl, (mem_loopRange _ _ _).mp hy⟩
  constructor
  · rw [List.pairwise_flatMap]
    constructor
    · intro x _
      refine List.Pairwise.filterMap _ ?_ (pairwise_loopRange lo_y hi_y)
      intro a a' haa' b hb b' hb'
      rw [Option.mem_def] at hb hb'
      by_cases t1 : test x a = true
      · by_cases t2 : test x a' = true
        · rw [if_pos t1] at hb
          rw [if_pos t2] at hb'
          have e := Option.some.inj hb
          have e' := Option.some.inj hb'
          rw [← e, ← e']
          exact Or.inr ⟨rfl, haa'⟩
        · rw [if_neg t2] at hb'
          exact absurd hb' (by simp)
      · rw [if_neg t1] at hb
        exact absurd hb (by simp)
    · refine (pairwise_loopRange lo_x hi_x).imp ?_
      intro a a' haa' p hp p' hp'
      have h1 := (hmem a p hp).1
      have h2 := (hmem a' p' hp').1
      left
      rw [h1, h2]
      exact haa'
  · intro p hp
    rw [List.mem_flatMap] at hp
    obtain ⟨x, hx, hp⟩ := hp
    obtain ⟨h1, h2⟩ := hmem x p hp
    rw [h1]
    exact ⟨(mem_loopRange _ _ _).mp hx, h2⟩

/-- The pixels returned lie inside the image and are listed in strictly ascending order. -/
theorem generate_triangle_barycentric_sorted (x1 y1 x2 y2 x3 y3 : Int) :
    (∀ p ∈ generate_triangle_barycentric x1 y1 x2 y2 x3 y3,
      0 ≤ p.1 ∧ p.1 < (WIDTH : Int) ∧ 0 ≤ p.2 ∧ p.2 < (HEIGHT : Int)) ∧
    List.Pairwise pixel_lt (generate_triangle_barycentric x1 y1 x2 y2 x3 y3) := by
  by_cases hr : (0 ≤ x1 ∧ x1 ≤ 800) ∧ (0 ≤ y1 ∧ y1 ≤ 600) ∧ (0 ≤ x2 ∧ x2 ≤ 800) ∧
      (0 ≤ y2 ∧ y2 ≤ 600) ∧ (0 ≤ x3 ∧ x3 ≤ 800) ∧ (0 ≤ y3 ∧ y3 ≤ 600)
  · obtain ⟨hx1, hy1, hx2, hy2, hx3, hy3⟩ := hr
    rw [generate_triangle_barycentric_in_range x1 y1 x2 y2 x3 y3 hx1 hy1 hx2 hy2 hx3 hy3]
    obtain ⟨h1, h2⟩ := scan_sorted (int_min x1 (int_min x2 x3)) (int_max x1 (int_max x2 x3))
      (int_min y1 (int_min y2 y3)) (int_max y1 (int_max y2 y3))
      (fun x y =>
        F32.ge (F32.div (crossproduct (x - x1) (y - y1) (x3 - x1) (y3 - y1))
            (crossproduct (x2 - x1) (y2 - y1) (x3 - x1) (y3 - y1))) (F32.ofInt 0) &&
          F32.ge (F32.div (crossproduct (x2 - x1) (y2 - y1) (x - x1) (y - y1))
            (crossproduct (x2 - x1) (y2 - y1) (x3 - x1) (y3 - y1))) (F32.ofInt 0) &&
          F32.le (F32.add
            (F32.div (crossproduct (x - x1) (y - y1) (x3 - x1) (y3 - y1))
              (crossproduct (x2 - x1) (y2 - y1) (x3 - x1) (y3 - y1)))
            (F32.div (crossproduct (x2 - x1) (y2 - y1) (x - x1) (y - y1))
              (crossproduct (x2 - x1) (y2 - y1) (x3 - x1) (y3 - y1)))) (F32.ofInt 1))
    refine ⟨?_, h1⟩
    intro p hp
    obtain ⟨bx, by1⟩ := h2 p hp
    have cx := bx
    have cy := by1
    rw [int_min_le_iff, int_min_le_iff, lt_int_max_iff, lt_int_max_iff] at cx cy
    have hW : ((WIDTH : Nat) : Int) = 800 := rfl
    have hH : ((HEIGHT : Nat) : Int) = 600 := rfl
    clear h1 h2 hp bx by1
    omega
  · rw [generate_triangle_barycentric_outside _ _ _ _ _ _ hr]
    exact ⟨fun p hp => absurd hp (List.not_mem_nil _), List.Pairwise.nil⟩

/-- Claim C18. For all integer inputs every pixel returned by
`generate_triangle_barycentric` satisfies `0 <= x < WIDTH` and `0 <= y < HEIGHT`, the
list is in strictly ascending (`x`, then `y`) order and holds no pixel twice; hence every
sample produced by `generate_triangle` passes the bounds check of
`colour_framebuffer_z`. -/
theorem C18_rasterizer_output_in_viewport :
    (∀ x1 y1 x2 y2 x3 y3 : Int,
      (∀ p ∈ generate_triangle_barycentric x1 y1 x2 y2 x3 y3,
        0 ≤ p.1 ∧ p.1 < (WIDTH : Int) ∧ 0 ≤ p.2 ∧ p.2 < (HEIGHT : Int)) ∧
      List.Pairwise pixel_lt (generate_triangle_barycentric x1 y1 x2 y2 x3 y3) ∧
      (generate_triangle_barycentric x1 y1 x2 y2 x3 y3).Nodup) ∧
    (∀ (p1 p2 p3 : point3d), ∀ s ∈ generate_triangle p1 p2 p3, s.inBounds) := by
  constructor
  · intro x1 y1 x2 y2 x3 y3
    obtain ⟨h1, h2⟩ := generate_triangle_barycentric_sorted x1 y1 x2 y2 x3 y3
    refine ⟨h1, h2, ?_⟩
    refine List.Pairwise.imp ?_ h2
    intro a b hab e
    rw [e] at hab
    exact pixel_lt_irrefl b hab
  · intro p1 p2 p3 s hs
    unfold generate_triangle at hs
    rw [List.mem_map] at hs
    obtain ⟨pt, hpt, e⟩ := hs
    have h := (generate_triangle_barycentric_sorted _ _ _ _ _ _).1 pt hpt
    rw [← e]
    unfold pixel_z.inBounds get_z_from_pixel
    exact h

/-! ## Order of the samples -/

namespace F32

theorem beq_of_le_of_le (a b : F32) (h1 : le a b = true) (h2 : le b a = true) :
    beq a b = true := by
  rcases a with _ | s | ⟨s, k⟩ <;> rcases b with _ | t | ⟨t, m⟩
  · exact absurd h1 (by decide)
  · exact absurd h1 (by simp [le])
  · exact absurd h1 (by simp [le])
  · exact absurd h1 (by simp [le])
  · revert h1 h2
    cases s <;> cases t <;> simp [le, beq]
  · revert h1 h2
    cases s <;> simp [le]
  · exact absurd h1 (by simp [le])
  · revert h1 h2
    cases t <;> simp [le]
  · simp only [le, beq, decide_eq_true_eq] at h1 h2 ⊢
    exact le_antisymm h1 h2

theorem gt_nan_left (z : F32) : gt nan z = false := by
  unfold gt
  exact lt_nan_right z

end F32

/-- Two maxima of lists with the same elements are equal as numbers. -/
theorem isMaxOf_perm (a b : F32) (l l' : List F32) (hp : l.Perm l') (ha : F32.IsMaxOf a l)
    (hb : F32.IsMaxOf b l') : F32.beq a b = true :=
  F32.beq_of_le_of_le a b (hb.2 a (hp.mem_iff.mp ha.1)) (ha.2 b (hp.mem_iff.mpr hb.1))

/-- The depth left by a permutation of the samples is the same number. -/
theorem depthAfter_perm (d : F32) (zs zs' : List F32) (hp : zs.Perm zs')
    (hnan : ∀ z ∈ zs, z ≠ F32.nan) :
    depthAfter d zs = depthAfter d zs' ∨ F32.beq (depthAfter d zs) (depthAfter d zs') = true := by
  have hnan' : ∀ z ∈ zs', z ≠ F32.nan := fun z hz => hnan z (hp.mem_iff.mpr hz)
  by_cases hd : d = F32.nan
  · subst hd
    cases zs with
    | nil =>
      left
      rw [← hp.nil_eq]
    | cons z rest =>
      cases zs' with
      | nil => exact absurd hp.eq_nil (by simp)
      | cons z' rest' =>
        right
        have e1 : depthAfter F32.nan (z :: rest) = depthAfter z rest := by
          show depthAfter (if F32.gt F32.nan z then F32.nan else z) rest = _
          rw [F32.gt_nan_left]
          rfl
        have e2 : depthAfter F32.nan (z' :: rest') = depthAfter z' rest' := by
          show depthAfter (if F32.gt F32.nan z' then F32.nan else z') rest' = _
          rw [F32.gt_nan_left]
          rfl
        rw [e1, e2]
        exact isMaxOf_perm _ _ _ _ hp
          (depthAfter_isMaxOf rest z (hnan z (List.mem_cons_self _ _))
            (fun w hw => hnan w (List.mem_cons_of_mem _ hw)))
          (depthAfter_isMaxOf rest' z' (hnan' z' (List.mem_cons_self _ _))
            (fun w hw => hnan' w (List.mem_cons_of_mem _ hw)))
  · right
    exact isMaxOf_perm _ _ _ _ (List.Perm.cons d hp) (depthAfter_isMaxOf zs d hd hnan)
      (depthAfter_isMaxOf zs' d hd hnan')

theorem samplesAt_perm (L L' : List pixel_z) (hp : L.Perm L') (i : Fin HEIGHT) (j : Fin WIDTH) :
    (samplesAt L i j).Perm (samplesAt L' i j) := by
  unfold samplesAt
  exact (hp.filter _).map _

/-- The framebuffer after a call: a cell takes the colour exactly when one of its samples
is not below the depth the cell held before the call. -/
theorem colour_framebuffer_z_framebuffer (c : Colour) (pixels : List pixel_z) :
    ∀ (fb : Grid Colour) (zb : Grid F32),
      ∃ fb' zb', colour_framebuffer_z fb zb pixels c = some (fb', zb') ∧
        ∀ i j, fb' i j =
          if ∃ z ∈ samplesAt pixels i j, F32.gt (zb i j) z = false then c else fb i j := by
  induction pixels with
  | nil =>
    intro fb zb
    refine ⟨fb, zb, rfl, fun i j => ?_⟩
    rw [if_neg]
    rintro ⟨z, hz, -⟩
    exact absurd hz (List.not_mem_nil _)
  | cons p ps ih =>
    intro fb zb
    by_cases h : p.inBounds
    · obtain ⟨i0, j0, e⟩ := p.eq_cell h
      rw [e]
      have hstep := colour_framebuffer_z_step_cell c (fb, zb) i0 j0 p.z
      by_cases hgt : F32.gt (zb i0 j0) p.z = true
      · rw [if_pos hgt] at hstep
        obtain ⟨fb', zb', h1, h2⟩ := ih fb zb
        refine ⟨fb', zb', ?_, ?_⟩
        · rw [colour_framebuffer_z_cons _ _ _ _ _ _ hstep]
          exact h1
        · intro i j
          rw [h2 i j]
          by_cases hc : i = i0 ∧ j = j0
          · obtain ⟨rfl, rfl⟩ := hc
            rw [samplesAt_cons_same]
            congr 1
            apply propext
            constructor
            · rintro ⟨z, hz, hz'⟩
              exact ⟨z, List.mem_cons_of_mem _ hz, hz'⟩
            · rintro ⟨z, hz, hz'⟩
              rcases List.mem_cons.mp hz with e' | e'
              · rw [e', hgt] at hz'
                exact absurd hz' (by decide)
              · exact ⟨z, e', hz'⟩
          · rw [samplesAt_cons_other]
            intro hc'
            apply hc
            simp only at hc'
            exact ⟨Fin.ext (by exact_mod_cast hc'.1.symm), Fin.ext (by exact_mod_cast hc'.2.symm)⟩
      · rw [if_neg hgt] at hstep
        obtain ⟨fb', zb', h1, h2⟩ := ih (fb.set i0.val j0.val c) (zb.set i0.val j0.val p.z)
        refine ⟨fb', zb', ?_, ?_⟩
        · rw [colour_framebuffer_z_cons _ _ _ _ _ _ hstep]
          exact h1
        · intro i j
          rw [h2 i j]
          by_cases hc : i = i0 ∧ j = j0
          · obtain ⟨rfl, rfl⟩ := hc
            have hR : ∃ z ∈ samplesAt (⟨(j.val : Int), (i.val : Int), p.z⟩ :: ps) i j,
                F32.gt (zb i j) z = false :=
              ⟨p.z, by rw [samplesAt_cons_same]; exact List.mem_cons_self _ _, by simpa using hgt⟩
            have e3 : (fb.set (i.val : Int) (j.val : Int) c) i j = c := Grid.set_same _ _ _ _
            rw [if_pos hR, e3]
            split_ifs <;> rfl
          · have hc' : ¬ (((i.val : Nat) : Int) = (i0.val : Int) ∧
                ((j.val : Nat) : Int) = (j0.val : Int)) := by
              intro hc'
              apply hc
              exact ⟨Fin.ext (by exact_mod_cast hc'.1), Fin.ext (by exact_mod_cast hc'.2)⟩
            rw [Grid.set_other _ _ _ _ _ _ hc', Grid.set_other _ _ _ _ _ _ hc',
              samplesAt_cons_other]
            intro hc''
            exact hc' ⟨hc''.1.symm, hc''.2.symm⟩
    · obtain ⟨fb', zb', h1, h2⟩ := ih fb zb
      refine ⟨fb', zb', ?_, ?_⟩
      · rw [colour_framebuffer_z_cons _ _ _ _ _ _
          (colour_framebuffer_z_step_out c (fb, zb) p h)]
        exact h1
      · intro i j
        rw [h2 i j, samplesAt_cons_other]
        intro hc
        apply h
        unfold pixel_z.inBounds
        have hi := i.isLt
        have hj := j.isLt
        omega

/-- Counterexample to C12 as stated: on a pixel that holds depth 5, the samples NaN, 1
leave depth 1 in the depth buffer, and the same two samples in the order 1, NaN leave
NaN. -/
theorem C12_counterexample :
    List.Perm [(⟨0, 0, F32.nan⟩ : pixel_z), ⟨0, 0, F32.ofInt 1⟩]
      [⟨0, 0, F32.ofInt 1⟩, ⟨0, 0, F32.nan⟩] ∧
    (colour_framebuffer_z (fun _ _ => (0, 0, 0)) (fun _ _ => F32.ofInt 5)
        [⟨0, 0, F32.nan⟩, ⟨0, 0, F32.ofInt 1⟩] (255, 0, 0)).map
      (fun s => s.2 ⟨0, by decide⟩ ⟨0, by decide⟩) = some (F32.ofInt 1) ∧
    (colour_framebuffer_z (fun _ _ => (0, 0, 0)) (fun _ _ => F32.ofInt 5)
        [⟨0, 0, F32.ofInt 1⟩, ⟨0, 0, F32.nan⟩] (255, 0, 0)).map
      (fun s => s.2 ⟨0, by decide⟩ ⟨0, by decide⟩) = some F32.nan := by
  refine ⟨List.Perm.swap _ _ _, ?_, ?_⟩
  · obtain ⟨fb1, zb1, h1, h1'⟩ := colour_framebuffer_z_zbuffer (255, 0, 0)
      [⟨0, 0, F32.nan⟩, ⟨0, 0, F32.ofInt 1⟩] (fun _ _ => (0, 0, 0)) (fun _ _ => F32.ofInt 5)
    rw [h1, Option.map_some']
    simp only
    rw [h1']
    decide
  · obtain ⟨fb1, zb1, h1, h1'⟩ := colour_framebuffer_z_zbuffer (255, 0, 0)
      [⟨0, 0, F32.ofInt 1⟩, ⟨0, 0, F32.nan⟩] (fun _ _ => (0, 0, 0)) (fun _ _ => F32.ofInt 5)
    rw [h1, Option.map_some']
    simp only
    rw [h1']
    decide

/-- Claim C12, amended. For every framebuffer, depth buffer, colour, sample list `L` and
permutation `L'` of `L`, `colour_framebuffer_z` yields the same final framebuffer on `L`
and on `L'`; when no sample depth is NaN, the two final depth buffers hold in every cell
the same number (the same value, or zeros of opposite sign). -/
theorem C12_sample_order_amended (fb : Grid Colour) (zb : Grid F32) (c : Colour)
    (L L' : List pixel_z) (hperm : L.Perm L') :
    ∃ fb1 zb1 fb2 zb2, colour_framebuffer_z fb zb L c = some (fb1, zb1) ∧
      colour_framebuffer_z fb zb L' c = some (fb2, zb2) ∧ fb1 = fb2 ∧
      ((∀ p ∈ L, p.z ≠ F32.nan) →
        ∀ i j, zb1 i j = zb2 i j ∨ F32.beq (zb1 i j) (zb2 i j) = true) := by
  obtain ⟨fb1, zb1, h1, f1⟩ := colour_framebuffer_z_framebuffer c L fb zb
  obtain ⟨fb2, zb2, h2, f2⟩ := colour_framebuffer_z_framebuffer c L' fb zb
  obtain ⟨fb1', zb1', h1', z1⟩ := colour_framebuffer_z_zbuffer c L fb zb
  obtain ⟨fb2', zb2', h2', z2⟩ := colour_framebuffer_z_zbuffer c L' fb zb
  rw [h1] at h1'
  rw [h2] at h2'
  have e1 : zb1 = zb1' := congrArg Prod.snd (Option.some.inj h1')
  have e2 : zb2 = zb2' := congrArg Prod.snd (Option.some.inj h2')
  subst e1
  subst e2
  refine ⟨fb1, zb1, fb2, zb2, h1, h2, ?_, ?_⟩
  · funext i j
    rw [f1 i j, f2 i j]
    congr 1
    apply propext
    have hp := samplesAt_perm L L' hperm i j
    constructor
    · rintro ⟨z, hz, hz'⟩
      exact ⟨z, hp.mem_iff.mp hz, hz'⟩
    · rintro ⟨z, hz, hz'⟩
      exact ⟨z, hp.mem_iff.mpr hz, hz'⟩
  · intro hnan i j
    rw [z1 i j, z2 i j]
    apply depthAfter_perm _ _ _ (samplesAt_perm L L' hperm i j)
    intro z hz
    obtain ⟨p, hp, e⟩ := mem_samplesAt _ _ _ _ hz
    rw [← e]
    exact hnan p hp

/-- Witness of the amended C12: two samples on pixel `(0, 0)` in both orders. -/
theorem C12_sample_order_amended_witness :
    ∃ fb1 zb1 fb2 zb2,
      colour_framebuffer_z (fun _ _ => (0, 0, 0)) (fun _ _ => F32.ofInt 0)
        [⟨0, 0, F32.ofInt 5⟩, ⟨0, 0, F32.ofInt 1⟩] (255, 0, 0) = some (fb1, zb1) ∧
      colour_framebuffer_z (fun _ _ => (0, 0, 0)) (fun _ _ => F32.ofInt 0)
        [⟨0, 0, F32.ofInt 1⟩, ⟨0, 0, F32.ofInt 5⟩] (255, 0, 0) = some (fb2, zb2) ∧ fb1 = fb2 ∧
      ∀ i j, zb1 i j = zb2 i j ∨ F32.beq (zb1 i j) (zb2 i j) = true := by
  obtain ⟨fb1, zb1, fb2, zb2, h1, h2, h3, h4⟩ :=
    C12_sample_order_amended (fun _ _ => (0, 0, 0)) (fun _ _ => F32.ofInt 0) (255, 0, 0)
      [⟨0, 0, F32.ofInt 5⟩, ⟨0, 0, F32.ofInt 1⟩] [⟨0, 0, F32.ofInt 1⟩, ⟨0, 0, F32.ofInt 5⟩]
      (List.Perm.swap _ _ _)
  exact ⟨fb1, zb1, fb2, zb2, h1, h2, h3, h4 (by decide)⟩

/-! ## Mesh loader -/

theorem index_mem {α : Type} (xs : List α) (i : Int) (a : α) (h : index xs i = some a) :
    a ∈ xs := by
  unfold index at h
  split_ifs at h
  exact List.get?_mem h

theorem index_of_range {α : Type} (xs : List α) (i : Int) (h1 : 1 ≤ i) (h2 : i ≤ xs.length) :
    ∃ a, index xs (i - 1) = some a := by
  unfold index
  rw [if_neg (by omega)]
  have h3 : (i - 1).toNat < xs.length := by omega
  exact ⟨xs.get ⟨(i - 1).toNat, h3⟩, List.get?_eq_get h3⟩

theorem index_neg_one {α : Type} (xs : List α) : index xs (0 - 1) = none := by
  unfold index
  rw [if_pos (by decide)]

/-- A face line with an index token whose value is `0` makes `parse_face` panic. -/
theorem parse_face_zero_index (Atoi : List Char → Int) (vs : List point3d) (line : List Char)
    (h : ∃ k ∈ [(1 : Int), 2, 3], ∃ tok, index (splitOn ' ' line) k = some tok ∧ Atoi tok = 0) :
    parse_face Atoi vs line = none := by
  obtain ⟨k, hk, tok, htok, h0⟩ := h
  unfold parse_face
  cases e1 : index (splitOn ' ' line) 1 with
  | none => rfl
  | some t1 =>
    cases e2 : index (splitOn ' ' line) 2 with
    | none => rfl
    | some t2 =>
      cases e3 : index (splitOn ' ' line) 3 with
      | none => rfl
      | some t3 =>
        simp only [Option.some_bind]
        simp only [List.mem_cons, List.mem_singleton, List.not_mem_nil, or_false] at hk
        rcases hk with rfl | rfl | rfl
        · rw [e1] at htok
          rw [Option.some.inj htok, h0, index_neg_one]
          rfl
        · rw [e2] at htok
          rw [Option.some.inj htok, h0, index_neg_one]
          cases index vs (Atoi t1 - 1) <;> rfl
        · rw [e3] at htok
          rw [Option.some.inj htok, h0, index_neg_one]
          cases index vs (Atoi t1 - 1) <;> cases index vs (Atoi t2 - 1) <;> rfl

/-- The second loop panics when one of its face lines has an index token of value `0`. -/
theorem load_faces_zero_index (Atoi : List Char → Int) (vs : List point3d) :
    ∀ (lines : List (List Char)) (acc : List tri),
      (∃ line ∈ lines, index line 0 = some 'f' ∧
        ∃ k ∈ [(1 : Int), 2, 3], ∃ tok, index (splitOn ' ' line) k = some tok ∧ Atoi tok = 0) →
      load_faces Atoi vs lines acc = none := by
  intro lines
  induction lines with
  | nil =>
    rintro acc ⟨line, hl, -⟩
    exact absurd hl (List.not_mem_nil _)
  | cons l rest ih =>
    rintro acc ⟨line, hl, hf, hbad⟩
    unfold load_faces
    cases e : index l 0 with
    | none => rfl
    | some c =>
      rw [Option.some_bind]
      by_cases hc : c ≠ 'f'
      · rw [if_pos hc]
        apply ih
        rcases List.mem_cons.mp hl with rfl | hl'
        · rw [e] at hf
          exact absurd (Option.some.inj hf) hc
        · exact ⟨line, hl', hf, hbad⟩
      · rw [if_neg hc]
        rcases List.mem_cons.mp hl with rfl | hl'
        · rw [parse_face_zero_index Atoi vs line hbad]
          rfl
        · cases parse_face Atoi vs l with
          | none => rfl
          | some t =>
            rw [Option.some_bind]
            exact ih _ ⟨line, hl', hf, hbad⟩

/-- The first loop, when it completes, hands every face line on to the second loop. -/
theorem load_vertices_keeps_faces (ParseFloat : List Char → F32) :
    ∀ (lines : List (List Char)) (acc vs : List point3d) (rest : List (List Char)),
      load_vertices ParseFloat lines acc = some (vs, rest) →
      ∀ line ∈ lines, index line 0 = some 'f' → line ∈ rest := by
  intro lines
  induction lines with
  | nil =>
    intro acc vs rest h
    exact absurd h (by simp [load_vertices])
  | cons l ls ih =>
    intro acc vs rest h line hl hf
    unfold load_vertices at h
    cases e : index l 0 with
    | none =>
      rw [e] at h
      exact absurd h (by simp)
    | some c =>
      rw [e, Option.some_bind] at h
      by_cases hc : c = 'f'
      · rw [if_pos hc] at h
        have e' := Option.some.inj h
        have e2 : l :: ls = rest := congrArg Prod.snd e'
        rw [← e2]
        exact hl
      · rw [if_neg hc] at h
        have hl' : line ∈ ls := by
          rcases List.mem_cons.mp hl with rfl | hl'
          · rw [e] at hf
            exact absurd (Option.some.inj hf) hc
          · exact hl'
        by_cases hv : c = 'v'
        · rw [if_pos hv] at h
          cases e3 : parse_vertex ParseFloat l with
          | none =>
            rw [e3] at h
            exact absurd h (by simp)
          | some v =>
            rw [e3, Option.some_bind] at h
            exact ih _ _ _ h line hl' hf
        · rw [if_neg hv] at h
          exact ih _ _ _ h line hl' hf

/-- A mesh with a face line that has an index token of value `0` makes the loader panic. -/
theorem obj_to_triangle_zero_index (ParseFloat : List Char → F32) (Atoi : List Char → Int)
    (obj : List Char) (line : List Char) (hl : line ∈ splitOn '\n' obj)
    (hf : index line 0 = some 'f')
    (hbad : ∃ k ∈ [(1 : Int), 2, 3], ∃ tok,
      index (splitOn ' ' line) k = some tok ∧ Atoi tok = 0) :
    obj_to_triangle ParseFloat Atoi obj = none := by
  unfold obj_to_triangle
  cases e : load_vertices ParseFloat (splitOn '\n' obj) [] with
  | none => rfl
  | some s =>
    rw [Option.some_bind]
    obtain ⟨vs, rest⟩ := s
    exact load_faces_zero_index Atoi vs rest []
      ⟨line, load_vertices_keeps_faces ParseFloat _ _ _ _ e line hl hf, hf, hbad⟩

/-- A vertex line with its three coordinate tokens gives the vertex of the values the
parser returned for them. -/
theorem parse_vertex_tokens (ParseFloat : List Char → F32) (line t1 t2 t3 : List Char)
    (h1 : index (splitOn ' ' line) 1 = some t1) (h2 : index (splitOn ' ' line) 2 = some t2)
    (h3 : index (splitOn ' ' line) 3 = some t3) :
    parse_vertex ParseFloat line =
      some (point3d.mk (ParseFloat t1) (ParseFloat t2) (ParseFloat t3)) := by
  unfold parse_vertex
  rw [h1, h2, h3]
  rfl

/-- The first loop on well-formed vertex lines followed by a face line. -/
theorem load_vertices_well_formed (ParseFloat : List Char → F32) (flines : List (List Char))
    (fl : List Char) (hfl : index fl 0 = some 'f') :
    ∀ (vlines : List (List Char)) (acc : List point3d),
      (∀ l ∈ vlines, index l 0 = some 'v' ∧ ∃ t1 t2 t3,
        index (splitOn ' ' l) 1 = some t1 ∧ index (splitOn ' ' l) 2 = some t2 ∧
        index (splitOn ' ' l) 3 = some t3) →
      ∃ vs, load_vertices ParseFloat (vlines ++ fl :: flines) acc = some (acc ++ vs, fl :: flines) ∧
        vs.length = vlines.length ∧
        ∀ v ∈ vs, ∃ l ∈ vlines, ∃ t1 t2 t3,
          index (splitOn ' ' l) 1 = some t1 ∧ index (splitOn ' ' l) 2 = some t2 ∧
          index (splitOn ' ' l) 3 = some t3 ∧
          v = (point3d.mk (ParseFloat t1) (ParseFloat t2) (ParseFloat t3)) := by
  intro vlines
  induction vlines with
  | nil =>
    intro acc _
    refine ⟨[], ?_, rfl, fun v hv => absurd hv (List.not_mem_nil _)⟩
    rw [List.nil_append, List.append_nil]
    unfold load_vertices
    rw [hfl, Option.some_bind, if_pos rfl]
  | cons l ls ih =>
    intro acc h
    obtain ⟨hv, t1, t2, t3, e1, e2, e3⟩ := h l (List.mem_cons_self _ _)
    obtain ⟨vs, k1, k2, k3⟩ := ih (acc ++ [(point3d.mk (ParseFloat t1) (ParseFloat t2)
      (ParseFloat t3))]) (fun l' hl' => h l' (List.mem_cons_of_mem _ hl'))
    refine ⟨(point3d.mk (ParseFloat t1) (ParseFloat t2) (ParseFloat t3)) :: vs, ?_, ?_, ?_⟩
    · rw [List.cons_append]
      unfold load_vertices
      rw [hv, Option.some_bind, if_neg (by decide), if_pos rfl,
        parse_vertex_tokens ParseFloat l t1 t2 t3 e1 e2 e3, Option.some_bind, k1]
      rw [List.append_assoc]
      rfl
    · rw [List.length_cons, List.length_cons, k2]
    · intro v hv'
      rcases List.mem_cons.mp hv' with rfl | hv''
      · exact ⟨l, List.mem_cons_self _ _, t1, t2, t3, e1, e2, e3, rfl⟩
      · obtain ⟨l', hl', r⟩ := k3 v hv''
        exact ⟨l', List.mem_cons_of_mem _ hl', r⟩

/-- A face line whose three index tokens name vertices of the pool gives a triangle of
vertices of the pool. -/
theorem parse_face_in_range (Atoi : List Char → Int) (vs : List point3d) (line : List Char)
    (h : ∃ t1 t2 t3, index (splitOn ' ' line) 1 = some t1 ∧
      index (splitOn ' ' line) 2 = some t2 ∧ index (splitOn ' ' line) 3 = some t3 ∧
      (1 ≤ Atoi t1 ∧ Atoi t1 ≤ vs.length) ∧ (1 ≤ Atoi t2 ∧ Atoi t2 ≤ vs.length) ∧
      (1 ≤ Atoi t3 ∧ Atoi t3 ≤ vs.length)) :
    ∃ t, parse_face Atoi vs line = some t ∧ t.p1 ∈ vs ∧ t.p2 ∈ vs ∧ t.p3 ∈ vs := by
  obtain ⟨t1, t2, t3, e1, e2, e3, r1, r2, r3⟩ := h
  obtain ⟨p1, q1⟩ := index_of_range vs (Atoi t1) r1.1 r1.2
  obtain ⟨p2, q2⟩ := index_of_range vs (Atoi t2) r2.1 r2.2
  obtain ⟨p3, q3⟩ := index_of_range vs (Atoi t3) r3.1 r3.2
  refine ⟨(tri.mk p1 p2 p3), ?_, index_mem _ _ _ q1, index_mem _ _ _ q2,
    index_mem _ _ _ q3⟩
  unfold parse_face
  rw [e1, e2, e3]
  simp only [Option.some_bind]
  rw [q1, q2, q3]
  rfl

/-- The second loop on well-formed face lines. -/
theorem load_faces_well_formed (Atoi : List Char → Int) (vs : List point3d) :
    ∀ (flines : List (List Char)) (acc : List tri),
      (∀ l ∈ flines, index l 0 = some 'f' ∧ ∃ t1 t2 t3,
        index (splitOn ' ' l) 1 = some t1 ∧ index (splitOn ' ' l) 2 = some t2 ∧
        index (splitOn ' ' l) 3 = some t3 ∧
        (1 ≤ Atoi t1 ∧ Atoi t1 ≤ vs.length) ∧ (1 ≤ Atoi t2 ∧ Atoi t2 ≤ vs.length) ∧
        (1 ≤ Atoi t3 ∧ Atoi t3 ≤ vs.length)) →
      ∃ ts, load_faces Atoi vs flines acc = some (acc ++ ts) ∧ ts.length = flines.length ∧
        ∀ t ∈ ts, t.p1 ∈ vs ∧ t.p2 ∈ vs ∧ t.p3 ∈ vs := by
  intro flines
  induction flines with
  | nil =>
    intro acc _
    refine ⟨[], ?_, rfl, fun t ht => absurd ht (List.not_mem_nil _)⟩
    rw [List.append_nil]
    rfl
  | cons l ls ih =>
    intro acc h
    obtain ⟨hf, hr⟩ := h l (List.mem_cons_self _ _)
    obtain ⟨t, ht, m1, m2, m3⟩ := parse_face_in_range Atoi vs l hr
    obtain ⟨ts, k1, k2, k3⟩ := ih (acc ++ [t]) (fun l' hl' => h l' (List.mem_cons_of_mem _ hl'))
    refine ⟨t :: ts, ?_, ?_, ?_⟩
    · unfold load_faces
      rw [hf, Option.some_bind, if_neg (by simp), ht, Option.some_bind, k1, List.append_assoc]
      rfl
    · rw [List.length_cons, List.length_cons, k2]
    · intro t' ht'
      rcases List.mem_cons.mp ht' with rfl | ht''
      · exact ⟨m1, m2, m3⟩
      · exact k3 t' ht''

/-- Counterexample to C17 as stated: in the mesh `v 0 0 0` / `f x 1 1` the index token `x`
does not parse, its value is `0`, and the loader panics on the vertex lookup instead of
returning a triangle list. -/
theorem C17_counterexample :
    atoi_value "x".toList = 0 ∧
    obj_to_triangle (fun _ => F32.ofInt 0) atoi_value "v 0 0 0\nf x 1 1".toList = none := by
  constructor
  · decide
  · decide

/-- Claim C17, amended. A coordinate token of a vertex line never aborts the load: in a
mesh of vertex lines followed by face lines whose index tokens name loaded vertices, the
loader returns one triangle per face line, and every vertex of every triangle is made of
the values the parser returned for the three coordinate tokens of a vertex line, parse
error or not (zero for a malformed token).  An index token of a face line whose value is
`0`, the value of a token that does not parse, makes the loader panic on the lookup of
vertex `0 - 1`. -/
theorem C17_permissive_parsing_amended (ParseFloat : List Char → F32)
    (Atoi : List Char → Int) (obj : List Char) :
    (∀ (vlines flines : List (List Char)), flines ≠ [] →
      splitOn '\n' obj = vlines ++ flines →
      (∀ l ∈ vlines, index l 0 = some 'v' ∧ ∃ t1 t2 t3,
        index (splitOn ' ' l) 1 = some t1 ∧ index (splitOn ' ' l) 2 = some t2 ∧
        index (splitOn ' ' l) 3 = some t3) →
      (∀ l ∈ flines, index l 0 = some 'f' ∧ ∃ t1 t2 t3,
        index (splitOn ' ' l) 1 = some t1 ∧ index (splitOn ' ' l) 2 = some t2 ∧
        index (splitOn ' ' l) 3 = some t3 ∧
        (1 ≤ Atoi t1 ∧ Atoi t1 ≤ vlines.length) ∧ (1 ≤ Atoi t2 ∧ Atoi t2 ≤ vlines.length) ∧
        (1 ≤ Atoi t3 ∧ Atoi t3 ≤ vlines.length)) →
      ∃ ts, obj_to_triangle ParseFloat Atoi obj = some ts ∧ ts.length = flines.length ∧
        ∀ t ∈ ts, ∀ p ∈ [t.p1, t.p2, t.p3], ∃ l ∈ vlines, ∃ t1 t2 t3,
          index (splitOn ' ' l) 1 = some t1 ∧ index (splitOn ' ' l) 2 = some t2 ∧
          index (splitOn ' ' l) 3 = some t3 ∧
          p = (point3d.mk (ParseFloat t1) (ParseFloat t2) (ParseFloat t3))) ∧
    (∀ line ∈ splitOn '\n' obj, index line 0 = some 'f' →
      (∃ k ∈ [(1 : Int), 2, 3], ∃ tok,
        index (splitOn ' ' line) k = some tok ∧ Atoi tok = 0) →
      obj_to_triangle ParseFloat Atoi obj = none) := by
  constructor
  · intro vlines flines hne hsplit hv hf
    obtain ⟨fl, fls, rfl⟩ := List.exists_cons_of_ne_nil hne
    obtain ⟨vs, k1, k2, k3⟩ := load_vertices_well_formed ParseFloat fls fl
      (hf fl (List.mem_cons_self _ _)).1 vlines [] hv
    rw [List.nil_append] at k1
    obtain ⟨ts, j1, j2, j3⟩ := load_faces_well_formed Atoi vs (fl :: fls) [] (by
      rw [k2]
      exact hf)
    rw [List.nil_append] at j1
    refine ⟨ts, ?_, j2, ?_⟩
    · unfold obj_to_triangle
      rw [hsplit, k1, Option.some_bind]
      exact j1
    · intro t ht p hp
      obtain ⟨m1, m2, m3⟩ := j3 t ht
      simp only [List.mem_cons, List.mem_singleton, List.not_mem_nil, or_false] at hp
      rcases hp with rfl | rfl | rfl
      · exact k3 _ m1
      · exact k3 _ m2
      · exact k3 _ m3
  · intro line hl hf hbad
    exact obj_to_triangle_zero_index ParseFloat Atoi obj line hl hf hbad

/-- Witness of the amended C17: in the mesh `v x 2 3` / `f 1 1 1` the coordinate token `x`
does not parse; with a parser that returns `0` for it the load still succeeds. -/
theorem C17_permissive_parsing_amended_witness :
    ∃ ts, obj_to_triangle (fun _ => F32.ofInt 0) atoi_value "v x 2 3\nf 1 1 1".toList = some ts ∧
      ts.length = 1 := by
  obtain ⟨ts, h1, h2, -⟩ := (C17_permissive_parsing_amended (fun _ => F32.ofInt 0) atoi_value
    "v x 2 3\nf 1 1 1".toList).1 ["v x 2 3".toList] ["f 1 1 1".toList] (by decide) (by decide)
    (by
      intro l hl
      rw [List.mem_singleton] at hl
      subst hl
      exact ⟨by decide, "x".toList, "2".toList, "3".toList, by decide, by decide, by decide⟩)
    (by
      intro l hl
      rw [List.mem_singleton] at hl
      subst hl
      exact ⟨by decide, "1".toList, "1".toList, "1".toList, by decide, by decide, by decide,
        by decide, by decide, by decide⟩)
  exact ⟨ts, h1, h2⟩

/-! ## Rounding between representable bounds -/

namespace F32

/-- The quantum of a value that is at most `c * 2^e`, with `c` of 24 bits, divides `2^e`. -/
theorem quantumExp_le_of_le (num den c e : Nat) (hc : c < 2 ^ 24) (hden : 0 < den)
    (h : num ≤ c * 2 ^ e * den) : quantumExp num den 254 0 ≤ e := by
  have hl := quantumExp_lower num den
  generalize quantumExp num den 254 0 = r at hl ⊢
  rcases Nat.eq_zero_or_pos r with e0 | e0
  · rw [e0]
    exact Nat.zero_le _
  · have b1 := hl e0
    have b2 : 2 ^ (r + 23) * den ≤ c * 2 ^ e * den := by
      rw [Nat.mul_comm (2 ^ (r + 23)) den]
      exact le_trans b1 h
    have b3 : 2 ^ (r + 23) ≤ c * 2 ^ e := Nat.le_of_mul_le_mul_right b2 hden
    have b4 : c * 2 ^ e < 2 ^ 24 * 2 ^ e := Nat.mul_lt_mul_of_pos_right hc (Nat.pow_pos (by decide))
    rw [← Nat.pow_add] at b4
    have b5 : r + 23 < 24 + e :=
      (Nat.pow_lt_pow_iff_right (by decide : 1 < 2)).mp (lt_of_le_of_lt b3 b4)
    linarith

/-- Rounding does not carry a value above a representable upper bound. -/
theorem roundNat_le_rep (num den c e : Nat) (hc : c < 2 ^ 24) (hden : 0 < den)
    (h : num ≤ c * 2 ^ e * den) : roundNat num den ≤ c * 2 ^ e := by
  have hr := quantumExp_le_of_le num den c e hc hden h
  unfold roundNat
  generalize quantumExp num den 254 0 = r at hr ⊢
  obtain ⟨d, rfl⟩ := Nat.exists_eq_add_of_le hr
  have e1 : c * 2 ^ (r + d) * den = c * 2 ^ d * (den * 2 ^ r) := by
    rw [Nat.pow_add]
    ring
  rw [e1] at h
  have b := rne_le num (den * 2 ^ r) (c * 2 ^ d) (Nat.mul_pos hden (Nat.pow_pos (by decide))) h
  calc rne num (den * 2 ^ r) * 2 ^ r ≤ c * 2 ^ d * 2 ^ r := Nat.mul_le_mul_right _ b
    _ = c * 2 ^ (r + d) := by
      rw [Nat.pow_add]
      ring

/-- Rounding does not carry a value below a representable lower bound. -/
theorem roundNat_ge_rep (num den c e : Nat) (hc : c < 2 ^ 24) (hden : 0 < den)
    (h : c * 2 ^ e * den ≤ num) : c * 2 ^ e ≤ roundNat num den := by
  have hl := quantumExp_lower num den
  unfold roundNat
  generalize quantumExp num den 254 0 = r at hl ⊢
  have hb : 0 < den * 2 ^ r := Nat.mul_pos hden (Nat.pow_pos (by decide))
  rcases Nat.lt_or_ge e r with hr | hr
  · have b1 := hl (lt_of_le_of_lt (Nat.zero_le _) hr)
    have b2 : 2 ^ 23 * (den * 2 ^ r) ≤ num := by
      have e2 : 2 ^ 23 * (den * 2 ^ r) = den * 2 ^ (r + 23) := by
        rw [Nat.pow_add]
        ring
      rw [e2]
      exact b1
    have b := rne_ge num (den * 2 ^ r) (2 ^ 23) hb b2
    have b3 : 2 ^ (e + 1) ≤ 2 ^ r := Nat.pow_le_pow_right (by decide) hr
    calc c * 2 ^ e ≤ 2 ^ 24 * 2 ^ e := Nat.mul_le_mul_right _ (le_of_lt hc)
      _ = 2 ^ 23 * 2 ^ (e + 1) := by
        rw [Nat.pow_succ]
        ring
      _ ≤ 2 ^ 23 * 2 ^ r := Nat.mul_le_mul_left _ b3
      _ ≤ rne num (den * 2 ^ r) * 2 ^ r := Nat.mul_le_mul_right _ b
  · obtain ⟨d, rfl⟩ := Nat.exists_eq_add_of_le hr
    have e1 : c * 2 ^ (r + d) * den = c * 2 ^ d * (den * 2 ^ r) := by
      rw [Nat.pow_add]
      ring
    rw [e1] at h
    have b := rne_ge num (den * 2 ^ r) (c * 2 ^ d) hb h
    calc c * 2 ^ (r + d) = c * 2 ^ d * 2 ^ r := by
          rw [Nat.pow_add]
          ring
      _ ≤ rne num (den * 2 ^ r) * 2 ^ r := Nat.mul_le_mul_right _ b

/-- A rational between two representable numbers rounds to a number between them. -/
theorem round_between (sg : Bool) (num den c1 e1 c2 e2 : Nat) (hc1 : c1 < 2 ^ 24)
    (hc2 : c2 < 2 ^ 24) (he2 : e2 ≤ 253) (hden : 0 < den) (hlo : c1 * 2 ^ e1 * den ≤ num)
    (hhi : num ≤ c2 * 2 ^ e2 * den) :
    ∃ k, round sg num den = fin sg k ∧ c1 * 2 ^ e1 ≤ k ∧ k ≤ c2 * 2 ^ e2 := by
  have h1 := roundNat_ge_rep num den c1 e1 hc1 hden hlo
  have h2 := roundNat_le_rep num den c2 e2 hc2 hden hhi
  refine ⟨roundNat num den, ?_, h1, h2⟩
  unfold round
  rw [if_pos]
  have b1 : c2 * 2 ^ e2 < 2 ^ 24 * 2 ^ 253 :=
    lt_of_lt_of_le (Nat.mul_lt_mul_of_pos_right hc2 (Nat.pow_pos (by decide)))
      (Nat.mul_le_mul_left _ (Nat.pow_le_pow_right (by decide) he2))
  have b2 : (2 : Nat) ^ 24 * 2 ^ 253 = 2 ^ 149 * 2 ^ 128 := by norm_num
  rw [b2] at b1
  exact lt_of_le_of_lt h2 b1

end F32

/-! ## Pixel space and normalized space -/

namespace F32

theorem div_between (s t : Bool) (a b c1 e1 c2 e2 : Nat) (hb : 0 < b) (hc1 : c1 < 2 ^ 24)
    (hc2 : c2 < 2 ^ 24) (he2 : e2 ≤ 253) (hlo : c1 * 2 ^ e1 * b ≤ a * 2 ^ 149)
    (hhi : a * 2 ^ 149 ≤ c2 * 2 ^ e2 * b) :
    ∃ k, div (fin s a) (fin t b) = fin (xor s t) k ∧ c1 * 2 ^ e1 ≤ k ∧ k ≤ c2 * 2 ^ e2 := by
  rw [div_fin _ _ _ _ (Nat.pos_iff_ne_zero.mp hb)]
  exact round_between _ _ _ c1 e1 c2 e2 hc1 hc2 he2 hb hlo hhi

theorem mul_between (s t : Bool) (a b c1 e1 c2 e2 : Nat) (hc1 : c1 < 2 ^ 24)
    (hc2 : c2 < 2 ^ 24) (he2 : e2 ≤ 253) (hlo : c1 * 2 ^ e1 * 2 ^ 149 ≤ a * b)
    (hhi : a * b ≤ c2 * 2 ^ e2 * 2 ^ 149) :
    ∃ k, mul (fin s a) (fin t b) = fin (xor s t) k ∧ c1 * 2 ^ e1 ≤ k ∧ k ≤ c2 * 2 ^ e2 :=
  round_between _ _ _ c1 e1 c2 e2 hc1 hc2 he2 (Nat.pow_pos (by decide)) hlo hhi

/-- A sum of a non-negative and a larger negative number. -/
theorem add_pos_neg_between (a b c1 e1 c2 e2 : Nat) (hab : a < b) (hc1 : c1 < 2 ^ 24)
    (hc2 : c2 < 2 ^ 24) (he2 : e2 ≤ 253) (hlo : c1 * 2 ^ e1 ≤ b - a)
    (hhi : b - a ≤ c2 * 2 ^ e2) :
    ∃ k, add (fin false a) (fin true b) = fin true k ∧ c1 * 2 ^ e1 ≤ k ∧ k ≤ c2 * 2 ^ e2 := by
  rw [add_fin]
  have e : units false a + units true b = -((b - a : Nat) : Int) := by
    unfold units
    simp only [Bool.false_eq_true, if_false, if_true]
    omega
  have hpos : (0 : Int) < ((b - a : Nat) : Int) := by omega
  rw [e, if_neg (by omega)]
  have g2 : decide (-((b - a : Nat) : Int) < 0) = true := decide_eq_true (by omega)
  have g3 : (-((b - a : Nat) : Int)).natAbs = b - a := by omega
  rw [g2, g3]
  exact round_between true (b - a) 1 c1 e1 c2 e2 hc1 hc2 he2 Nat.one_pos
    (by rw [Nat.mul_one]; exact hlo) (by rw [Nat.mul_one]; exact hhi)

/-- A sum of a negative and a smaller non-negative number. -/
theorem add_neg_pos_between (a b c1 e1 c2 e2 : Nat) (hab : b < a) (hc1 : c1 < 2 ^ 24)
    (hc2 : c2 < 2 ^ 24) (he2 : e2 ≤ 253) (hlo : c1 * 2 ^ e1 ≤ a - b)
    (hhi : a - b ≤ c2 * 2 ^ e2) :
    ∃ k, add (fin true a) (fin false b) = fin true k ∧ c1 * 2 ^ e1 ≤ k ∧ k ≤ c2 * 2 ^ e2 := by
  rw [add_fin]
  have e : units true a + units false b = -((a - b : Nat) : Int) := by
    unfold units
    simp only [Bool.false_eq_true, if_false, if_true]
    omega
  rw [e, if_neg (by omega)]
  have g2 : decide (-((a - b : Nat) : Int) < 0) = true := decide_eq_true (by omega)
  have g3 : (-((a - b : Nat) : Int)).natAbs = a - b := by omega
  rw [g2, g3]
  exact round_between true (a - b) 1 c1 e1 c2 e2 hc1 hc2 he2 Nat.one_pos
    (by rw [Nat.mul_one]; exact hlo) (by rw [Nat.mul_one]; exact hhi)

theorem ofInt_natCast (n : Nat) (hn : n < 2 ^ 24) : ofInt (n : Int) = fin false (n * 2 ^ 149) := by
  rw [ofInt_exact (n : Int) (by simpa using hn)]
  simp

/-- The pixel-to-screen map followed by the screen-to-pixel map, on one axis of length
`2 * h` with `h` a multiple of 2: the coordinate `n` of a pixel is sent into
`[-h, -h + 1/2]` and from there to a negative pixel coordinate. -/
theorem axis_roundtrip (h n : Nat) (hh : h = 400 ∨ h = 300) (hn : n ≤ 2 * h) :
    ∃ k k', sub (div (div (ofInt (n : Int)) (ofInt ((2 * h : Nat) : Int))) (ofInt 2))
        (div (ofInt ((2 * h : Nat) : Int)) (ofInt 2)) = fin true k ∧
      (2 * h - 1) * 2 ^ 148 ≤ k ∧ k ≤ h * 2 ^ 149 ∧
      add (div (mul (fin true k) (ofInt ((2 * h : Nat) : Int))) (ofInt 2))
        (div (ofInt ((2 * h : Nat) : Int)) (ofInt 2)) = fin true k' ∧
      1 * 2 ^ 149 ≤ k' := by
  have hW : ofInt ((2 * h : Nat) : Int) = fin false (2 * h * 2 ^ 149) :=
    ofInt_natCast (2 * h) (by rcases hh with rfl | rfl <;> norm_num)
  have h2 : ofInt 2 = fin false (2 * 2 ^ 149) := ofInt_natCast 2 (by norm_num)
  have hn' : ofInt (n : Int) = fin false (n * 2 ^ 149) :=
    ofInt_natCast n (lt_of_le_of_lt hn (by rcases hh with rfl | rfl <;> norm_num))
  have hhalf : div (fin false (2 * h * 2 ^ 149)) (fin false (2 * 2 ^ 149))
      = fin false (h * 2 ^ 149) := by
    rcases hh with rfl | rfl <;> decide
  rw [hW, h2, hn', hhalf]
  obtain ⟨k1, q1, -, u1⟩ := div_between false false (n * 2 ^ 149) (2 * h * 2 ^ 149) 0 0 1 149
    (by rcases hh with rfl | rfl <;> norm_num) (by norm_num) (by norm_num) (by norm_num)
    (by simp) (by
      rcases hh with rfl | rfl <;> norm_num at hn ⊢ <;> omega)
  rw [q1]
  obtain ⟨k2, q2, -, u2⟩ := div_between (xor false false) false k1 (2 * 2 ^ 149) 0 0 1 148
    (by norm_num) (by norm_num) (by norm_num) (by norm_num) (by simp) (by
      norm_num at u1 ⊢
      omega)
  rw [q2]
  rw [sub_fin]
  obtain ⟨k3, q3, l3, u3⟩ := add_pos_neg_between k2 (h * 2 ^ 149) (2 * h - 1) 148 h 149
    (by
      rcases hh with rfl | rfl <;> norm_num at u2 ⊢ <;> omega)
    (by rcases hh with rfl | rfl <;> norm_num) (by rcases hh with rfl | rfl <;> norm_num)
    (by norm_num)
    (by
      rcases hh with rfl | rfl <;> norm_num at u2 ⊢ <;> omega)
    (Nat.sub_le _ _)
  have q3' : add (fin (xor (xor false false) false) k2) (fin (!false) (h * 2 ^ 149))
      = fin true k3 := q3
  rw [q3']
  refine ⟨k3, ?_⟩
  obtain ⟨k4, q4, l4, u4⟩ := mul_between true false k3 (2 * h * 2 ^ 149)
    ((2 * h - 1) * h) 149 (2 * h * h) 149
    (by rcases hh with rfl | rfl <;> norm_num) (by rcases hh with rfl | rfl <;> norm_num)
    (by norm_num)
    (by
      rcases hh with rfl | rfl <;> norm_num at l3 ⊢ <;> omega)
    (by
      rcases hh with rfl | rfl <;> norm_num at u3 ⊢ <;> omega)
  obtain ⟨k5, q5, l5, u5⟩ := div_between (xor true false) false k4 (2 * 2 ^ 149)
    ((2 * h - 1) * h) 148 (2 * h * h) 148
    (by norm_num) (by rcases hh with rfl | rfl <;> norm_num)
    (by rcases hh with rfl | rfl <;> norm_num) (by norm_num)
    (by
      rcases hh with rfl | rfl <;> norm_num at l4 ⊢ <;> omega)
    (by
      rcases hh with rfl | rfl <;> norm_num at u4 ⊢ <;> omega)
  obtain ⟨k6, q6, l6, -⟩ := add_neg_pos_between k5 (h * 2 ^ 149) 1 149 (2 * h * h) 148
    (by
      rcases hh with rfl | rfl <;> norm_num at l5 ⊢ <;> omega)
    (by norm_num) (by rcases hh with rfl | rfl <;> norm_num) (by norm_num)
    (by
      rcases hh with rfl | rfl <;> norm_num at l5 ⊢ <;> omega)
    (by
      rcases hh with rfl | rfl <;> norm_num at u5 ⊢ <;> omega)
  refine ⟨k6, rfl, l3, u3, ?_, l6⟩
  rw [q4, q5]
  exact q6

theorem toInt_neg_of_ge_one (k : Nat) (h : 1 * 2 ^ 149 ≤ k) : toInt (fin true k) < 0 := by
  have h1 : 1 ≤ k / 2 ^ 149 := (Nat.le_div_iff_mul_le (Nat.pow_pos (by decide))).mpr h
  show (if k / 2 ^ 149 < 2 ^ 63 then units true (k / 2 ^ 149) else -2 ^ 63) < 0
  split_ifs
  · unfold units
    rw [if_pos rfl]
    omega
  · decide

theorem le_neg_fin (a b : Nat) (h : b ≤ a) : le (fin true a) (fin true b) = true := by
  unfold le units
  simp only [if_true, decide_eq_true_eq]
  omega

end F32

/-- Claim C20. For every pixel `(px, py)` with `0 <= px <= WIDTH` and `0 <= py <= HEIGHT`,
`from_coord_space(px, py)` is `(px/WIDTH/2 - WIDTH/2, py/HEIGHT/2 - HEIGHT/2)`, it lies in
`[-400, -399.5] × [-300, -299.5]`, and `to_coord_space` does not send it back to
`(px, py)`. -/
theorem C20_from_coord_space_is_not_an_inverse (px py : Int)
    (hx : 0 ≤ px ∧ px ≤ (WIDTH : Int)) (hy : 0 ≤ py ∧ py ≤ (HEIGHT : Int)) :
    from_coord_space px py =
      (F32.sub (F32.div (F32.div (F32.ofInt px) (F32.ofInt 800)) (F32.ofInt 2)) (F32.ofInt 400),
        F32.sub (F32.div (F32.div (F32.ofInt py) (F32.ofInt 600)) (F32.ofInt 2))
          (F32.ofInt 300)) ∧
    (F32.le (F32.ofInt (-400)) (from_coord_space px py).1 = true ∧
      F32.le (from_coord_space px py).1 (F32.ofDyadic (-799) 1) = true) ∧
    (F32.le (F32.ofInt (-300)) (from_coord_space px py).2 = true ∧
      F32.le (from_coord_space px py).2 (F32.ofDyadic (-599) 1) = true) ∧
    to_coord_space (from_coord_space px py).1 (from_coord_space px py).2 ≠ (px, py) := by
  obtain ⟨n, rfl⟩ := Int.eq_ofNat_of_zero_le hx.1
  obtain ⟨m, rfl⟩ := Int.eq_ofNat_of_zero_le hy.1
  have hn : n ≤ 2 * 400 := by
    have := hx.2
    norm_cast at this
  have hm : m ≤ 2 * 300 := by
    have := hy.2
    norm_cast at this
  obtain ⟨k, k', q1, l1, u1, q2, l2⟩ := F32.axis_roundtrip 400 n (Or.inl rfl) hn
  obtain ⟨j, j', r1, m1, v1, -, -⟩ := F32.axis_roundtrip 300 m (Or.inr rfl) hm
  have e1 : (from_coord_space (n : Int) (m : Int)).1 = F32.fin true k := q1
  have e2 : (from_coord_space (n : Int) (m : Int)).2 = F32.fin true j := r1
  have c1 : F32.ofInt (-400) = F32.fin true (400 * 2 ^ 149) := by decide
  have c2 : F32.ofDyadic (-799) 1 = F32.fin true ((2 * 400 - 1) * 2 ^ 148) := by decide
  have c3 : F32.ofInt (-300) = F32.fin true (300 * 2 ^ 149) := by decide
  have c4 : F32.ofDyadic (-599) 1 = F32.fin true ((2 * 300 - 1) * 2 ^ 148) := by decide
  refine ⟨?_, ⟨?_, ?_⟩, ⟨?_, ?_⟩, ?_⟩
  · have d1 : F32.div (F32.ofInt ((WIDTH : Nat) : Int)) (F32.ofInt 2) = F32.ofInt 400 := by decide
    have d2 : F32.div (F32.ofInt ((HEIGHT : Nat) : Int)) (F32.ofInt 2) = F32.ofInt 300 := by decide
    unfold from_coord_space
    simp only [d1, d2]
    rfl
  · rw [e1, c1]
    exact F32.le_neg_fin _ _ u1
  · rw [e1, c2]
    exact F32.le_neg_fin _ _ l1
  · rw [e2, c3]
    exact F32.le_neg_fin _ _ v1
  · rw [e2, c4]
    exact F32.le_neg_fin _ _ m1
  · rw [e1, e2]
    intro hc
    have hfst : (to_coord_space (F32.fin true k) (F32.fin true j)).1 = (n : Int) :=
      congrArg Prod.fst hc
    have hval : (to_coord_space (F32.fin true k) (F32.fin true j)).1
        = F32.toInt (F32.fin true k') := congrArg F32.toInt q2
    rw [hval] at hfst
    have hneg := F32.toInt_neg_of_ge_one k' l2
    omega

/-- Witness of C20 at the pixel `(400, 300)`, the centre of the image. -/
theorem C20_from_coord_space_is_not_an_inverse_witness :
    to_coord_space (from_coord_space 400 300).1 (from_coord_space 400 300).2 ≠ (400, 300) :=
  (C20_from_coord_space_is_not_an_inverse 400 300 (by decide) (by decide)).2.2.2

/-! ## Rotation -/

theorem rotate_point_exact_angle (k : Nat) :
    Real.pi * 2 * (((5000 * k : Nat) : ℝ) / ((5000 : Nat) : ℝ)) = (k : ℝ) * (2 * Real.pi) := by
  push_cast
  field_simp
  ring

theorem sin_nat_mul_two_pi (k : Nat) : Real.sin ((k : ℝ) * (2 * Real.pi)) = 0 := by
  have h := Real.sin_nat_mul_pi (2 * k)
  have e2 : ((2 * k : Nat) : ℝ) * Real.pi = (k : ℝ) * (2 * Real.pi) := by
    push_cast
    ring
  rwa [e2] at h

theorem rotate_point_exact_period (v : point3d ℝ) (k : Nat) :
    rotate_point (Arithmetic.exact Real.cos Real.sin Real.pi) v (5000 * k) = v := by
  obtain ⟨x, y, z⟩ := v
  have e : Real.pi * ((2 : Nat) : ℝ) * (((5000 * k : Nat) : ℝ) / ((5000 : Nat) : ℝ))
      = (k : ℝ) * (2 * Real.pi) := by
    have h := rotate_point_exact_angle k
    push_cast at h ⊢
    exact h
  simp only [rotate_point, Arithmetic.exact, e, Real.cos_nat_mul_two_pi, sin_nat_mul_two_pi]
  simp

namespace F32

/-- Rounding an integer number of units changes it by at most one part in `2^24`. -/
theorem roundNat_int_err (a : Nat) :
    2 ^ 24 * roundNat a 1 ≤ (2 ^ 24 + 1) * a ∧ (2 ^ 24 - 1) * a ≤ 2 ^ 24 * roundNat a 1 := by
  rcases Nat.lt_or_ge a (2 ^ 23) with h | h
  · have e := roundNat_exact a 0 1 (lt_trans h (by decide)) (by decide)
    simp only [Nat.pow_zero, Nat.mul_one] at e
    rw [e]
    constructor <;> omega
  · have r := roundNat_rel a 1 (by decide) (by simpa using h)
    simpa using r

theorem roundNat_scaled_err (a d : Nat) (hd : 0 < d) :
    2 ^ 24 * roundNat (d * a) d ≤ (2 ^ 24 + 1) * a ∧
    (2 ^ 24 - 1) * a ≤ 2 ^ 24 * roundNat (d * a) d := by
  rcases Nat.lt_or_ge a (2 ^ 23) with h | h
  · have e := roundNat_exact a 0 d (lt_trans h (by decide)) hd
    simp only [Nat.pow_zero, Nat.mul_one] at e
    rw [Nat.mul_comm d a, e]
    constructor <;> omega
  · have r := roundNat_rel (d * a) d hd (Nat.mul_le_mul_left d h)
    obtain ⟨r1, r2⟩ := r
    constructor
    · have : (2 ^ 24 * roundNat (d * a) d) * d ≤ ((2 ^ 24 + 1) * a) * d := by
        calc (2 ^ 24 * roundNat (d * a) d) * d = 2 ^ 24 * (roundNat (d * a) d * d) := by ring
          _ ≤ (2 ^ 24 + 1) * (d * a) := r1
          _ = ((2 ^ 24 + 1) * a) * d := by ring
      exact Nat.le_of_mul_le_mul_right this hd
    · have : ((2 ^ 24 - 1) * a) * d ≤ (2 ^ 24 * roundNat (d * a) d) * d := by
        calc ((2 ^ 24 - 1) * a) * d = (2 ^ 24 - 1) * (d * a) := by ring
          _ ≤ 2 ^ 24 * (roundNat (d * a) d * d) := r2
          _ = (2 ^ 24 * roundNat (d * a) d) * d := by ring
      exact Nat.le_of_mul_le_mul_right this hd

theorem roundNat_upper (num den : Nat) (hden : 0 < den) :
    2 ^ 24 * (roundNat num den * den) ≤ (2 ^ 24 + 1) * num + 2 ^ 23 * den := by
  rcases Nat.lt_or_ge num (den * 2 ^ 23) with h | h
  · have q : quantumExp num den 254 0 = 0 :=
      quantumExp_eq num den 0 (Nat.zero_le _) (Or.inl rfl)
        (lt_of_lt_of_le h (Nat.mul_le_mul_left den (by decide)))
    unfold roundNat
    rw [q]
    simp only [Nat.pow_zero, Nat.mul_one]
    obtain ⟨c1, _⟩ := rne_err num den hden
    generalize rne num den * den = X at c1 ⊢
    omega
  · have r := (roundNat_rel num den hden h).1
    omega

/-- The product of a value of magnitude at most `2^(-25)` and a value `q`, rounded. -/
theorem roundNat_small_product (c q : Nat) (hc : c ≤ 2 ^ 124) :
    2 ^ 49 * roundNat (c * q) (2 ^ 149) ≤ (2 ^ 24 + 1) * q + 2 ^ 48 := by
  have h := roundNat_upper (c * q) (2 ^ 149) (Nat.pow_pos (by decide))
  have h2 : c * q ≤ 2 ^ 124 * q := Nat.mul_le_mul_right q hc
  generalize roundNat (c * q) (2 ^ 149) = m at h ⊢
  generalize c * q = w at h h2
  have e1 : 2 ^ 24 * (m * 2 ^ 149) = 2 ^ 124 * (2 ^ 49 * m) := by
    have : (2 : Nat) ^ 149 = 2 ^ 124 * 2 ^ 25 := by rw [← Nat.pow_add]
    rw [this]
    have : (2 : Nat) ^ 49 = 2 ^ 24 * 2 ^ 25 := by rw [← Nat.pow_add]
    rw [this]
    ring
  have e2 : 2 ^ 23 * 2 ^ 149 = 2 ^ 124 * 2 ^ 48 := by
    rw [← Nat.pow_add, ← Nat.pow_add]
  have h3 : 2 ^ 124 * (2 ^ 49 * m) ≤ 2 ^ 124 * ((2 ^ 24 + 1) * q + 2 ^ 48) := by
    calc 2 ^ 124 * (2 ^ 49 * m) = 2 ^ 24 * (m * 2 ^ 149) := e1.symm
      _ ≤ (2 ^ 24 + 1) * w + 2 ^ 23 * 2 ^ 149 := h
      _ ≤ (2 ^ 24 + 1) * (2 ^ 124 * q) + 2 ^ 23 * 2 ^ 149 :=
        Nat.add_le_add_right (Nat.mul_le_mul_left _ h2) _
      _ = 2 ^ 124 * ((2 ^ 24 + 1) * q + 2 ^ 48) := by
        rw [e2]
        ring
  exact Nat.le_of_mul_le_mul_left h3 (Nat.pow_pos (by decide))

theorem units_zero (s : Bool) : units s 0 = 0 := by
  cases s <;> rfl

theorem add_fin_comm (s t : Bool) (a b : Nat) :
    add (fin s a) (fin t b) = add (fin t b) (fin s a) := by
  rw [add_fin, add_fin, Int.add_comm (units s a) (units t b), Bool.and_comm]

/-- One coordinate of the rotated vertex when the cosine is `1` and the sine is at most
`2^(-25)` in magnitude: the coordinate `p` keeps its value up to a relative error of
`2^(-22)` of the two magnitudes involved. -/
theorem rotation_component (s1 s2 t : Bool) (p q c : Nat) (hc : c ≤ 2 ^ 124)
    (hp : p ≤ 2 ^ 276) (hq : q ≤ 2 ^ 276) :
    ∃ (s3 : Bool) (r : Nat),
      add (mul (fin false (2 ^ 149)) (fin s1 p)) (mul (fin t c) (fin s2 q)) = fin s3 r ∧
      add (mul (fin t c) (fin s2 q)) (mul (fin false (2 ^ 149)) (fin s1 p)) = fin s3 r ∧
      2 ^ 22 * |units s3 r - units s1 p| ≤ (p : Int) + (q : Int) + 2 ^ 22 := by
  have hd : 0 < 2 ^ 149 := Nat.pow_pos (by decide)
  -- the first product
  have a1 : roundNat (2 ^ 149 * p) (2 ^ 149) ≤ 1 * 2 ^ 276 :=
    roundNat_le_rep _ _ 1 276 (by norm_num) hd (by
      rw [Nat.one_mul, Nat.mul_comm (2 ^ 149) p]
      exact Nat.mul_le_mul_right _ hp)
  obtain ⟨a2, a3⟩ := roundNat_scaled_err p (2 ^ 149) hd
  -- the second product
  have b1 : roundNat (c * q) (2 ^ 149) ≤ 1 * 2 ^ 251 :=
    roundNat_le_rep _ _ 1 251 (by norm_num) hd (by
      have e251 : (2 : Nat) ^ 251 = 2 ^ 124 * 2 ^ 127 := by rw [← Nat.pow_add]
      have e276 : (2 : Nat) ^ 276 = 2 ^ 127 * 2 ^ 149 := by rw [← Nat.pow_add]
      have e : 1 * 2 ^ 251 * 2 ^ 149 = 2 ^ 124 * 2 ^ 276 := by
        rw [Nat.one_mul, e251, e276, Nat.mul_assoc]
      rw [e]
      exact Nat.mul_le_mul hc hq)
  have b2 := roundNat_small_product c q hc
  have m1 : mul (fin false (2 ^ 149)) (fin s1 p) = fin s1 (roundNat (2 ^ 149 * p) (2 ^ 149)) := by
    show round (xor false s1) (2 ^ 149 * p) (2 ^ 149) = _
    unfold round
    rw [if_pos (lt_of_le_of_lt a1 (by norm_num)), Bool.false_xor]
  have m2 : mul (fin t c) (fin s2 q) = fin (xor t s2) (roundNat (c * q) (2 ^ 149)) := by
    show round (xor t s2) (c * q) (2 ^ 149) = _
    unfold round
    rw [if_pos (lt_of_le_of_lt b1 (by norm_num))]
  rw [m1, m2, add_fin_comm (xor t s2) s1, add_fin]
  generalize roundNat (2 ^ 149 * p) (2 ^ 149) = p1 at a1 a2 a3
  generalize roundNat (c * q) (2 ^ 149) = m at b1 b2
  generalize xor t s2 = t2
  norm_num at a1 a2 a3 b1 b2
  have hX : -(p : Int) ≤ 2 ^ 24 * (units s1 p1 - units s1 p) ∧
      2 ^ 24 * (units s1 p1 - units s1 p) ≤ (p : Int) := by
    cases s1 <;> simp only [units, if_true, if_false, Bool.false_eq_true] <;>
      norm_num <;> omega
  have hX1 : -(p1 : Int) ≤ units s1 p1 ∧ units s1 p1 ≤ (p1 : Int) := by
    cases s1 <;> simp only [units, if_true, if_false, Bool.false_eq_true] <;> omega
  have hM : -(m : Int) ≤ units t2 m ∧ units t2 m ≤ (m : Int) := by
    cases t2 <;> simp only [units, if_true, if_false, Bool.false_eq_true] <;> omega
  generalize units s1 p1 = X1 at hX hX1
  generalize units t2 m = M at hM
  generalize units s1 p = X at hX
  have ea : ∀ x : Int, (2 : Int) ^ 22 * |x| = |2 ^ 22 * x| := fun x => by
    rw [abs_mul, abs_of_nonneg (by norm_num : (0 : Int) ≤ 2 ^ 22)]
  by_cases hu : X1 + M = 0
  · rw [if_pos hu]
    refine ⟨s1 && t2, 0, rfl, rfl, ?_⟩
    rw [units_zero, ea, abs_le]
    norm_num at hX ⊢
    omega
  · rw [if_neg hu]
    have c1 : roundNat (X1 + M).natAbs 1 ≤ (2 ^ 24 - 1) * 2 ^ 253 :=
      roundNat_le_rep _ 1 (2 ^ 24 - 1) 253 (by norm_num) (by norm_num) (by
        rw [Nat.mul_one]
        norm_num
        omega)
    obtain ⟨c2, c3⟩ := roundNat_int_err (X1 + M).natAbs
    have er : round (decide (X1 + M < 0)) (X1 + M).natAbs 1
        = fin (decide (X1 + M < 0)) (roundNat (X1 + M).natAbs 1) := by
      unfold round
      rw [if_pos (lt_of_le_of_lt c1 (by norm_num))]
    refine ⟨decide (X1 + M < 0), roundNat (X1 + M).natAbs 1, er, er, ?_⟩
    · generalize roundNat (X1 + M).natAbs 1 = R at c1 c2 c3 ⊢
      rw [ea, abs_le]
      norm_num at hX c2 c3 ⊢
      by_cases hneg : X1 + M < 0
      · have hs : units (decide (X1 + M < 0)) R = -(R : Int) := by simp [units, hneg]
        rw [hs]
        omega
      · have hs : units (decide (X1 + M < 0)) R = (R : Int) := by simp [units, hneg]
        rw [hs]
        omega

end F32

/-- In the binary32 program, at a tick where `float32(math.Cos(angle))` is `1` and
`float32(math.Sin(angle))` is at most `2^(-25)` in magnitude, the vertex is returned up to
a relative error of `2^(-22)`. -/
theorem rotate_point_binary32_tolerance (D S : Type) (A : Arithmetic D S) (narrow : D → F32)
    (k : Nat) (ss sx sz : Bool) (c a b : Nat) (y : F32)
    (hcos : narrow (A.cos (rotation_angle A (5000 * k))) = F32.fin false (2 ^ 149))
    (hsin : narrow (A.sin (rotation_angle A (5000 * k))) = F32.fin ss c)
    (hneg : narrow (A.neg64 (A.sin (rotation_angle A (5000 * k)))) = F32.fin (!ss) c)
    (hc : c ≤ 2 ^ 124) (ha : a ≤ 2 ^ 276) (hb : b ≤ 2 ^ 276) :
    ∃ (sx2 : Bool) (a2 : Nat) (sz2 : Bool) (b2 : Nat),
      rotate_point (A.binary32 narrow) ⟨F32.fin sx a, y, F32.fin sz b⟩ (5000 * k)
        = ⟨F32.fin sx2 a2, y, F32.fin sz2 b2⟩ ∧
      2 ^ 22 * |F32.units sx2 a2 - F32.units sx a| ≤ (a : Int) + (b : Int) + 2 ^ 22 ∧
      2 ^ 22 * |F32.units sz2 b2 - F32.units sz b| ≤ (a : Int) + (b : Int) + 2 ^ 22 := by
  obtain ⟨sx2, a2, e1, _, h1⟩ := F32.rotation_component sx sz ss a b c hc ha hb
  obtain ⟨sz2, b2, _, e2, h2⟩ := F32.rotation_component sz sx (!ss) b a c hc hb ha
  refine ⟨sx2, a2, sz2, b2, ?_, h1, by linarith⟩
  show point3d.mk
    (F32.add (F32.mul (narrow (A.cos (rotation_angle A (5000 * k)))) (F32.fin sx a))
      (F32.mul (narrow (A.sin (rotation_angle A (5000 * k)))) (F32.fin sz b))) y
    (F32.add
      (F32.mul (narrow (A.neg64 (A.sin (rotation_angle A (5000 * k))))) (F32.fin sx a))
      (F32.mul (narrow (A.cos (rotation_angle A (5000 * k)))) (F32.fin sz b))) = _
  rw [hcos, hsin, hneg, e1, e2]

/-- Claim C11. With the arithmetic taken over the reals, `rotate_point` returns the vertex
unchanged at every tick that is a multiple of 5000.  In the binary32 program the `y`
component of `rotate_point(v, tick)` is `v.y` at every tick, whatever the `float64`
operations, `math.Cos`, `math.Sin` and the conversion to `float32` return.  In the binary32
program, at a tick `5000 * k` at which `float32(math.Cos(angle))` is `1`,
`float32(math.Sin(angle))` is a finite value of magnitude at most `2^(-25)` and
`float32(-math.Sin(angle))` is its opposite, a vertex with `|x|` and `|z|` at most `2^127`
is returned with finite `x` and `z` that differ from those of `v` by at most
`2^(-22) * (|x| + |z|) + 2^(-149)`: unchanged within the tolerance of binary32, not
exactly. -/
theorem C11_rotation_period :
    (∀ (v : point3d ℝ) (k : Nat),
      rotate_point (Arithmetic.exact Real.cos Real.sin Real.pi) v (5000 * k) = v) ∧
    (∀ (D S : Type) (A : Arithmetic D S) (narrow : D → F32) (v : point3d) (tick : Nat),
      (rotate_point (A.binary32 narrow) v tick).y = v.y) ∧
    (∀ (D S : Type) (A : Arithmetic D S) (narrow : D → F32) (k : Nat) (ss sx sz : Bool)
        (c a b : Nat) (y : F32),
      narrow (A.cos (rotation_angle A (5000 * k))) = F32.fin false (2 ^ 149) →
      narrow (A.sin (rotation_angle A (5000 * k))) = F32.fin ss c →
      narrow (A.neg64 (A.sin (rotation_angle A (5000 * k)))) = F32.fin (!ss) c →
      c ≤ 2 ^ 124 → a ≤ 2 ^ 276 → b ≤ 2 ^ 276 →
      ∃ (sx2 : Bool) (a2 : Nat) (sz2 : Bool) (b2 : Nat),
        rotate_point (A.binary32 narrow) ⟨F32.fin sx a, y, F32.fin sz b⟩ (5000 * k)
          = ⟨F32.fin sx2 a2, y, F32.fin sz2 b2⟩ ∧
        2 ^ 22 * |F32.units sx2 a2 - F32.units sx a| ≤ (a : Int) + (b : Int) + 2 ^ 22 ∧
        2 ^ 22 * |F32.units sz2 b2 - F32.units sz b| ≤ (a : Int) + (b : Int) + 2 ^ 22) :=
  ⟨rotate_point_exact_period, fun _ _ _ _ _ _ => rfl, rotate_point_binary32_tolerance⟩

/-- Claim C11 at the tick 5000 and the vertex `(0, 0, 1)`, with the values that the library
returns there: the program returns `(-4626585 * 2^(-74), 0, 1)`, within the tolerance. -/
theorem C11_rotation_period_witness :
    rotate_point (Arithmetic.sample.binary32 fun d => d)
        ⟨F32.fin false 0, F32.fin false 0, F32.fin false (2 ^ 149)⟩ (5000 * 1)
      = ⟨F32.fin true (4626585 * 2 ^ 75), F32.fin false 0, F32.fin false (2 ^ 149)⟩ ∧
    4626585 * 2 ^ 75 ≤ 2 ^ 124 ∧
    ∃ (sx2 : Bool) (a2 : Nat) (sz2 : Bool) (b2 : Nat),
      rotate_point (Arithmetic.sample.binary32 fun d => d)
          ⟨F32.fin false 0, F32.fin false 0, F32.fin false (2 ^ 149)⟩ (5000 * 1)
        = ⟨F32.fin sx2 a2, F32.fin false 0, F32.fin sz2 b2⟩ ∧
      2 ^ 22 * |F32.units sx2 a2 - F32.units false 0|
        ≤ ((0 : Nat) : Int) + ((2 ^ 149 : Nat) : Int) + 2 ^ 22 ∧
      2 ^ 22 * |F32.units sz2 b2 - F32.units false (2 ^ 149)|
        ≤ ((0 : Nat) : Int) + ((2 ^ 149 : Nat) : Int) + 2 ^ 22 :=
  ⟨by decide, by norm_num,
    C11_rotation_period.2.2 F32 F32 Arithmetic.sample (fun d => d) 1 true false false
      (4626585 * 2 ^ 75) 0 (2 ^ 149) (F32.fin false 0) rfl rfl rfl
      (by norm_num) (by norm_num) (by norm_num)⟩

end Viewer
